import Mathlib

/-!
# Inbound-mail ingestion pipeline of be-mailinbox

A shallow embedding of `src/domain/email/handler.go` (preview generation, the
two-phase ingestion `SyncEmails` / `storeRawEmail` / `processIncomingEmails`)
and of the helpers of `src/pkg/aws.go` it calls.

Go strings are byte sequences; they are modelled as lists of byte values.
-/

namespace MailInbox

/-! ## Go strings -/

/-- A Go `string` / `[]byte`: the sequence of its bytes. -/
abbrev GoString := List Nat

/-- UTF-8 encoding of one rune, as `utf8.AppendRune` (used by
`bytes.Buffer.WriteRune`): surrogates and values above U+10FFFF are written as
U+FFFD. -/
def encodeRune (r : Nat) : GoString :=
  if r < 0x80 then [r]
  else if r < 0x800 then [0xC0 + r / 64, 0x80 + r % 64]
  else if (0xD800 ≤ r ∧ r ≤ 0xDFFF) ∨ 0x10FFFF < r then [0xEF, 0xBF, 0xBD]
  else if r < 0x10000 then [0xE0 + r / 4096, 0x80 + r / 64 % 64, 0x80 + r % 64]
  else [0xF0 + r / 262144, 0x80 + r / 4096 % 64, 0x80 + r / 64 % 64, 0x80 + r % 64]

/-- The bytes of a string literal of the source. -/
def lit (s : String) : GoString :=
  s.toList.flatMap (fun c => encodeRune c.toNat)

/-- A UTF-8 continuation byte. -/
def isCont (b : Nat) : Bool := 0x80 ≤ b && b ≤ 0xBF

/-- One step of `for _, r := range s`, as `utf8.DecodeRuneInString`: the rune
at the head of `s` and the number of bytes it occupies. A byte that does not
start a well-formed encoding is decoded as U+FFFD of width 1. -/
def decodeRune : GoString → Nat × Nat
  | [] => (0xFFFD, 0)
  | b0 :: rest =>
    if b0 < 0x80 then (b0, 1)
    else if 0xC2 ≤ b0 ∧ b0 ≤ 0xDF then
      match rest with
      | b1 :: _ => if isCont b1 then ((b0 - 0xC0) * 64 + (b1 - 0x80), 2) else (0xFFFD, 1)
      | _ => (0xFFFD, 1)
    else if 0xE0 ≤ b0 ∧ b0 ≤ 0xEF then
      match rest with
      | b1 :: b2 :: _ =>
        if (if b0 = 0xE0 then 0xA0 else 0x80) ≤ b1 ∧ b1 ≤ (if b0 = 0xED then 0x9F else 0xBF)
            ∧ isCont b2 then
          ((b0 - 0xE0) * 4096 + (b1 - 0x80) * 64 + (b2 - 0x80), 3)
        else (0xFFFD, 1)
      | _ => (0xFFFD, 1)
    else if 0xF0 ≤ b0 ∧ b0 ≤ 0xF4 then
      match rest with
      | b1 :: b2 :: b3 :: _ =>
        if (if b0 = 0xF0 then 0x90 else 0x80) ≤ b1 ∧ b1 ≤ (if b0 = 0xF4 then 0x8F else 0xBF)
            ∧ isCont b2 ∧ isCont b3 then
          ((b0 - 0xF0) * 262144 + (b1 - 0x80) * 4096 + (b2 - 0x80) * 64 + (b3 - 0x80), 4)
        else (0xFFFD, 1)
      | _ => (0xFFFD, 1)
    else (0xFFFD, 1)

/-- The runes of a string with the bytes each one was decoded from, in the
order `range s` visits them. The first argument bounds the number of runes;
`s.length` always suffices since every rune occupies at least one byte. -/
def runesAux : Nat → GoString → List (Nat × GoString)
  | 0, _ => []
  | _ + 1, [] => []
  | n + 1, b :: rest =>
    let d := decodeRune (b :: rest)
    (d.1, (b :: rest).take d.2) :: runesAux n ((b :: rest).drop d.2)

/-- The runes of `s` paired with their source bytes. -/
def runes (s : GoString) : List (Nat × GoString) := runesAux s.length s

/-- Go `strings.ReplaceAll(s, old, new)` for a non-empty `old`: the
non-overlapping occurrences of `old`, found left to right, are replaced. The
first argument counts the bytes of a matched occurrence still to be skipped. -/
def replaceAllAux (old new : GoString) : Nat → GoString → GoString
  | _, [] => []
  | k + 1, _ :: cs => replaceAllAux old new k cs
  | 0, c :: cs =>
    if old.isPrefixOf (c :: cs) then new ++ replaceAllAux old new (old.length - 1) cs
    else c :: replaceAllAux old new 0 cs

/-- Go `strings.ReplaceAll` (for the non-empty patterns the source uses). -/
def replaceAll (s old new : GoString) : GoString := replaceAllAux old new 0 s

/-- Go `regexp.MustCompile("<[^>]*>").ReplaceAllString(text, "")`: a `<` that
is followed somewhere by a `>` is deleted together with everything up to and
including the nearest `>`. The flag tells whether the scan is inside a tag. -/
def stripTagsAux : Bool → GoString → GoString
  | _, [] => []
  | true, c :: cs => if c = 62 then stripTagsAux false cs else stripTagsAux true cs
  | false, c :: cs =>
    if c = 60 ∧ 62 ∈ cs then stripTagsAux true cs else c :: stripTagsAux false cs

/-- Removal of every match of `<[^>]*>`. -/
def stripTags (s : GoString) : GoString := stripTagsAux false s

/-! ## Library code outside the repository -/

/-- One e-mail address of a parsed header (source `EmailAddress`, and the
`mail.Address` values of the parser). -/
structure EmailAddress where
  Name : GoString
  Address : GoString
  deriving DecidableEq, Repr

/-- One attachment part of a parsed message (`enmime.Part`). -/
structure Part where
  FileName : GoString
  ContentType : GoString
  Content : GoString
  deriving DecidableEq, Repr

/-- What the source reads from an `*enmime.Envelope`: `GetHeader`, `Date()`
(the zero time when the header is missing or unparseable), `Text`, `HTML` and
`Attachments`. -/
structure Envelope where
  GetHeader : GoString → GoString
  Date : Nat
  Text : GoString
  HTML : GoString
  Attachments : List Part

/-- The third-party and standard-library functions whose code and tables are
not part of the repository. Every definition below takes them as a parameter
and every theorem holds for all of them. -/
structure Lib where
  /-- Entity decoding of `html.UnescapeString` on a string that contains `&`. -/
  decodeEntities : GoString → GoString
  /-- Membership in `unicode.PrintRanges`, for runes above U+00FF. -/
  inPrintRanges : Nat → Bool
  /-- The parser `enmime.ReadEnvelope`; `none` is a parse error. -/
  ReadEnvelope : GoString → Option Envelope
  /-- The parser `enmime.ParseAddressList`; `none` is a parse error. -/
  ParseAddressList : GoString → Option (List EmailAddress)

/-- Go `html.UnescapeString`: a string without `&` is returned as it is,
otherwise its entities are decoded. -/
def unescapeString (L : Lib) (s : GoString) : GoString :=
  if 38 ∈ s then L.decodeEntities s else s

/-- Go `unicode.IsPrint`: decided by the Latin-1 property table up to U+00FF
(letters, marks, numbers, punctuation, symbols and the ASCII space), and by
membership in `unicode.PrintRanges` above it. -/
def isPrint (L : Lib) (r : Nat) : Bool :=
  if r ≤ 0xFF then
    (0x20 ≤ r && r ≤ 0x7E) || (0xA1 ≤ r && r ≤ 0xFF && r != 0xAD)
  else L.inPrintRanges r

/-- Go `unicode.IsSpace`. -/
def isSpace (r : Nat) : Bool :=
  (0x09 ≤ r && r ≤ 0x0D) || r == 0x20 || r == 0x85 || r == 0xA0 || r == 0x1680
    || (0x2000 ≤ r && r ≤ 0x200A) || r == 0x2028 || r == 0x2029 || r == 0x202F
    || r == 0x205F || r == 0x3000

/-- Go `strings.TrimSpace`: the leading and the trailing runes that are white
space are cut off. -/
def trimSpace (s : GoString) : GoString :=
  ((((runes s).dropWhile (fun p => isSpace p.1)).reverse.dropWhile
      (fun p => isSpace p.1)).reverse).flatMap (fun p => p.2)

/-! ## Preview generation (`handler.go`, lines 1706-1759) -/

/-- Source `removeNonPrintable`: the printable runes of `s`, re-encoded by
`WriteRune`. -/
def removeNonPrintable (L : Lib) (s : GoString) : GoString :=
  ((runes s).filter (fun p => isPrint L p.1)).flatMap (fun p => encodeRune p.1)

/-- Source `html2text`. -/
def html2text (L : Lib) (contentHTML : GoString) : GoString :=
  let text := contentHTML
  let text := replaceAll text (lit "<br>") [10]
  let text := replaceAll text (lit "<br/>") [10]
  let text := replaceAll text (lit "<br />") [10]
  let text := replaceAll text (lit "</p>") [10]
  let text := replaceAll text (lit "</div>") [10]
  let text := stripTags text
  let text := unescapeString L text
  let text := replaceAll text [0xE2, 0x80, 0x8B] []
  let text := replaceAll text [0xE2, 0x80, 0x8C] []
  let text := replaceAll text [0xE2, 0x80, 0x8D] []
  let text := replaceAll text [0xE2, 0x80] []
  let text := replaceAll text [0xE2] []
  let text := removeNonPrintable L text
  trimSpace text

/-- Source `generatePreview`: `len` and the slice `text[:200]` count bytes. -/
def generatePreview (L : Lib) (plainText htmlBody : GoString) : GoString :=
  let text := if plainText ≠ [] then html2text L plainText else html2text L htmlBody
  if text.length > 200 then text.take 200 ++ lit "..." else text

/-! ## Stores, configuration and outcomes of external calls -/

/-- The configuration read through `viper`. -/
structure Config where
  S3_BUCKET_NAME : GoString
  S3_PREFIX : GoString
  AWS_REGION : GoString
  deriving DecidableEq, Repr

/-- A row of table `users` (the columns the pipeline reads). -/
structure UserRow where
  id : Int
  email : GoString
  deriving DecidableEq, Repr

/-- A row of table `incoming_emails`. -/
structure IncomingRow where
  id : Nat
  email_send_to : GoString
  message_id : GoString
  email_data : GoString
  created_at : Nat
  processed : Bool
  email_date : Nat
  deriving DecidableEq, Repr

/-- A row of table `emails` (the columns the pipeline writes). -/
structure EmailRow where
  id : Nat
  user_id : Int
  sender_email : GoString
  sender_name : GoString
  subject : GoString
  preview : GoString
  body : GoString
  email_type : GoString
  attachments : GoString
  message_id : GoString
  timestamp : Nat
  created_at : Nat
  deriving DecidableEq, Repr

/-- The errors the pipeline functions return. -/
inductive Err
  /-- "failed to initialize AWS session: %v" -/
  | initAWS
  /-- "failed to list objects: %v" -/
  | listObjects
  /-- "failed to parse email: %v" -/
  | parseEmail
  /-- "failed to parse recipient addresses" -/
  | parseRecipient
  /-- The error returned by `DeleteObject`. -/
  | deleteObject
  /-- "failed to insert raw email: %v" -/
  | insertRawEmail
  /-- "failed to upload to S3: %v" -/
  | uploadS3
  /-- The error returned by a database call, passed on unchanged. -/
  | db
  /-- "failed to fetch raw emails: %v" -/
  | fetchRawEmails
  deriving DecidableEq, Repr

/-- The external calls of the pipeline, recorded in the order they are issued,
whatever their outcome. -/
inductive Event
  | getObject (key : GoString)
  | putObject (key : GoString)
  | deleteObject (key : GoString)
  | selectUser (email : GoString)
  | insertIncoming (message_id : GoString)
  | countInbox (user_id : Int)
  | selectOldest (user_id : Int)
  | deleteEmail (id : Nat)
  | selectIncoming (email_send_to : GoString)
  | insertEmail (message_id : GoString)
  | deleteIncoming (id : Nat)
  deriving DecidableEq, Repr

/-- The object store (one bucket), the database tables the pipeline touches,
their `AUTO_INCREMENT` counters, and the record of the external calls. -/
structure World where
  objects : GoString → Option GoString
  users : List UserRow
  incoming_emails : List IncomingRow
  emails : List EmailRow
  incomingSeq : Nat
  emailSeq : Nat
  trace : List Event

/-- Append one external call to the record. -/
def World.record (w : World) (e : Event) : World :=
  { w with trace := w.trace ++ [e] }

/-- S3 `GetObject` followed by reading the body: the bytes stored under `key`,
or `none` when the call fails (`fails`, or no such key). -/
def getObject (w : World) (key : GoString) (fails : Bool) : World × Option GoString :=
  (w.record (.getObject key), if fails then none else w.objects key)

/-- S3 `DeleteObject`: when the call succeeds the key is gone (deleting an
absent key succeeds too); when it fails the bucket is unchanged. -/
def deleteObject (w : World) (key : GoString) (fails : Bool) : World × Option Err :=
  let w := w.record (.deleteObject key)
  if fails then (w, some .deleteObject)
  else ({ w with objects := fun k => if k = key then none else w.objects k }, none)

/-- S3 `PutObject`. -/
def putObject (w : World) (key content : GoString) (fails : Bool) : World × Bool :=
  let w := w.record (.putObject key)
  if fails then (w, false)
  else ({ w with objects := fun k => if k = key then some content else w.objects k }, true)

/-- `SELECT id FROM users WHERE email = ?` through `DB.Get`: the id of the
first matching row; an error when the call fails or no row matches. -/
def selectUserID (w : World) (email : GoString) (fails : Bool) : World × Option Int :=
  (w.record (.selectUser email),
    if fails then none else (w.users.find? (fun u => u.email = email)).map (fun u => u.id))

/-- `buf.Bytes()` after `buf.ReadFrom(output.Body)` on a fresh `bytes.Buffer`:
`ReadFrom` grows the buffer before its first read, so the slice is allocated
(not `nil`) also when the body has no bytes; `none` stands for `nil`. -/
def bufferBytes (body : GoString) : Option GoString := some body

/-! ## Two-phase ingestion, phase one (`handler.go`, lines 1372-1519, 1682-1704) -/

/-- Source `parseAddresses`. `strings.Split(addr.Address, "@")[0]` is the part
of the address before its first `@`. -/
def parseAddresses (L : Lib) (addresses : GoString) : List EmailAddress :=
  match L.ParseAddressList addresses with
  | none => []
  | some parsed =>
    parsed.map (fun addr =>
      if addr.Name = [] then
        { Name := addr.Address.takeWhile (fun b => b != 64), Address := addr.Address }
      else
        { Name := addr.Name, Address := addr.Address })

/-- Source `extractRecipientEmail`. -/
def extractRecipientEmail (L : Lib) (emailContent : GoString) : Except Err (GoString × Nat) :=
  match L.ReadEnvelope emailContent with
  | none => .error .parseEmail
  | some env =>
    let dateT := env.Date
    match parseAddresses L (env.GetHeader (lit "To")) with
    | [] => .error .parseRecipient
    | to0 :: _ => .ok (to0.Address, dateT)

/-- Source `pkg.DeleteS3ByMessageID`. -/
def DeleteS3ByMessageID (w : World) (messageID : GoString) (fails : Bool) : World × Option Err :=
  deleteObject w messageID fails

/-- The outcomes of the external calls made while one listed object is handled
(`true`: the call fails), and the database clock `NOW()`. -/
structure SyncFaults where
  getObject : Bool
  selectUser : Bool
  deleteUnknown : Bool
  insert : Bool
  deleteObject : Bool
  now : Nat
  deriving DecidableEq, Repr

/-- An entry of `page.Contents` together with the outcomes of the calls made
for it. -/
structure Listed where
  key : GoString
  faults : SyncFaults
  deriving DecidableEq, Repr

/-- The `INSERT INTO incoming_emails` of `storeRawEmail`. -/
def insertIncoming (w : World) (sendEmailTo messageID emailContent : GoString) (dateEmail : Nat)
    (f : SyncFaults) : World × Bool :=
  let w := w.record (.insertIncoming messageID)
  if f.insert then (w, false)
  else
    ({ w with
        incoming_emails := w.incoming_emails ++
          [{ id := w.incomingSeq, email_send_to := sendEmailTo, message_id := messageID,
             email_data := emailContent, created_at := f.now, processed := false,
             email_date := dateEmail }]
        incomingSeq := w.incomingSeq + 1 }, true)

/-- Source `storeRawEmail`. When the user lookup fails the object is deleted,
and the function returns there only if that delete fails. -/
def storeRawEmail (L : Lib) (w : World) (messageID emailContent : GoString) (f : SyncFaults) :
    World × Option Err :=
  match extractRecipientEmail L emailContent with
  | .error err => (w, some err)
  | .ok (sendEmailTo, dateEmail) =>
    let (w, userID) := selectUserID w sendEmailTo f.selectUser
    let (w, early) :=
      match userID with
      | some _ => (w, none)
      | none => DeleteS3ByMessageID w messageID f.deleteUnknown
    match early with
    | some err => (w, some err)
    | none =>
      let (w, ok) := insertIncoming w sendEmailTo messageID emailContent dateEmail f
      if ok then (w, none) else (w, some .insertRawEmail)

/-- The body of the loop `for _, obj := range page.Contents` of `SyncEmails`. -/
def syncObject (L : Lib) (w : World) (obj : Listed) : World :=
  let messageID := obj.key
  if messageID = [] then w
  else
    match getObject w messageID obj.faults.getObject with
    | (w, none) => w
    | (w, some body) =>
      match bufferBytes body with
      | none => w
      | some emailContent =>
        match storeRawEmail L w messageID emailContent obj.faults with
        | (w, some _) => w
        | (w, none) => (deleteObject w messageID obj.faults.deleteObject).1

/-- The line the loop body of `SyncEmails` prints when it leaves an object
with `continue`: `Failed to get object`, `emailContent is empty`,
`Failed to store raw email` with the error of `storeRawEmail`, or
`Failed to delete object`. -/
inductive SyncLine
  | getFailed
  | emptyContent
  | storeFailed (err : Err)
  | deleteFailed
  deriving DecidableEq, Repr

/-- The body of the loop of `SyncEmails`, as `syncObject`, together with the
line it prints on leaving the object; `none` when the key is empty and when
the object is staged and deleted. -/
def syncObjectLine (L : Lib) (w : World) (obj : Listed) : World × Option SyncLine :=
  let messageID := obj.key
  if messageID = [] then (w, none)
  else
    match getObject w messageID obj.faults.getObject with
    | (w, none) => (w, some .getFailed)
    | (w, some body) =>
      match bufferBytes body with
      | none => (w, some .emptyContent)
      | some emailContent =>
        match storeRawEmail L w messageID emailContent obj.faults with
        | (w, some err) => (w, some (.storeFailed err))
        | (w, none) =>
          match deleteObject w messageID obj.faults.deleteObject with
          | (w, some _) => (w, some .deleteFailed)
          | (w, none) => (w, none)

/-- Source `SyncEmails`. `pages` are the listing pages `ListObjectsV2Pages`
delivers to the callback (which asks for the next page until the last one),
`listFails` tells whether the listing call ends with an error. -/
def SyncEmails (L : Lib) (w : World) (initFails : Bool) (pages : List (List Listed))
    (listFails : Bool) : World × Option Err :=
  if initFails then (w, some .initAWS)
  else
    let w := pages.foldl (fun w page => page.foldl (syncObject L) w) w
    if listFails then (w, some .listObjects) else (w, none)

/-! ## Attachment upload (`pkg/aws.go`, lines 125-156) and JSON encoding -/

/-- How an `UploadAttachment` call ends: it returns the URL and no error, it
returns the empty string and an error, or it panics. -/
inductive Uploaded
  | url (s3URL : GoString)
  | error (err : Err)
  | panic
  deriving DecidableEq, Repr

/-- Source `pkg.UploadAttachment`. The error of `InitAWS` is discarded
(`sess, _ := InitAWS()`): when the session cannot be created (`initFails`),
`s3.New` is called on the `nil` session and panics before any put. Otherwise
the object is put and the URL is built from the bucket, the region and the
key. -/
def UploadAttachment (cfg : Config) (w : World) (content key _contentType : GoString)
    (initFails fails : Bool) : World × Uploaded :=
  let bucketName := cfg.S3_BUCKET_NAME
  let region := cfg.AWS_REGION
  if initFails then (w, .panic)
  else
    match putObject w key content fails with
    | (w, false) => (w, .error .uploadS3)
    | (w, true) =>
      (w, .url (lit "https://" ++ bucketName ++ lit ".s3." ++ region ++ lit ".amazonaws.com/"
        ++ key))

/-- A lower-case hexadecimal digit. -/
def hexDigit (n : Nat) : Nat := if n < 10 then 48 + n else 87 + n

/-- Go `encoding/json` encoding of the contents of one string (HTML escaping
on, as `json.Marshal` has it): quote and backslash are escaped, control bytes
and `<`, `>`, `&` are written as `\u00XX` (with the short forms for backspace,
form feed, newline, carriage return and tab), an ill-formed byte as `\ufffd`,
U+2028 and U+2029 as `\u2028` and `\u2029`. -/
def jsonEscape (s : GoString) : GoString :=
  (runes s).flatMap (fun p =>
    let r := p.1
    if r < 0x80 then
      if r = 34 ∨ r = 92 then [92, r]
      else if r = 8 then [92, 98]
      else if r = 12 then [92, 102]
      else if r = 10 then [92, 110]
      else if r = 13 then [92, 114]
      else if r = 9 then [92, 116]
      else if r < 0x20 ∨ r = 60 ∨ r = 62 ∨ r = 38 then
        [92, 117, 48, 48, hexDigit (r / 16), hexDigit (r % 16)]
      else [r]
    else if r = 0xFFFD ∧ p.2.length = 1 then [92, 117, 102, 102, 102, 100]
    else if r = 0x2028 ∨ r = 0x2029 then [92, 117, 50, 48, 50, hexDigit (r % 16)]
    else p.2)

/-- Go `json.Marshal` of a `[]string`. The slice `attachmentURLs` starts as
`nil` and only grows by `append`, so it is `nil` exactly when it has no
element, and a `nil` slice is encoded as `null`. -/
def jsonMarshalStrings (urls : List GoString) : GoString :=
  match urls with
  | [] => lit "null"
  | _ => [91] ++ List.intercalate [44] (urls.map (fun u => [34] ++ jsonEscape u ++ [34])) ++ [93]

/-! ### Decoding (`encoding/json`, as used by `getAttachmentURLs`) -/

/-- The escape `jsonEscape` writes for one rune of the string. -/
def escapeRune (p : Nat × GoString) : GoString :=
  let r := p.1
  if r < 0x80 then
    if r = 34 ∨ r = 92 then [92, r]
    else if r = 8 then [92, 98]
    else if r = 12 then [92, 102]
    else if r = 10 then [92, 110]
    else if r = 13 then [92, 114]
    else if r = 9 then [92, 116]
    else if r < 0x20 ∨ r = 60 ∨ r = 62 ∨ r = 38 then
      [92, 117, 48, 48, hexDigit (r / 16), hexDigit (r % 16)]
    else [r]
  else if r = 0xFFFD ∧ p.2.length = 1 then [92, 117, 102, 102, 102, 100]
  else if r = 0x2028 ∨ r = 0x2029 then [92, 117, 50, 48, 50, hexDigit (r % 16)]
  else p.2

/-- The value of a hexadecimal digit, upper or lower case. -/
def hexVal (c : Nat) : Option Nat :=
  if 48 ≤ c ∧ c ≤ 57 then some (c - 48)
  else if 97 ≤ c ∧ c ≤ 102 then some (c - 87)
  else if 65 ≤ c ∧ c ≤ 70 then some (c - 55)
  else none

/-- Go `encoding/json` `getu4`: the code unit of a `\uXXXX` escape at the head
of the input. -/
def getu4 : GoString → Option Nat
  | 92 :: 117 :: a :: b :: c :: d :: _ =>
    match hexVal a, hexVal b, hexVal c, hexVal d with
    | some a, some b, some c, some d => some (a * 4096 + b * 256 + c * 16 + d)
    | _, _, _, _ => none
  | _ => none

/-- The byte a one-letter escape of a JSON string stands for. -/
def simpleEscape (e : Nat) : Option Nat :=
  if e = 34 ∨ e = 92 ∨ e = 47 then some e
  else if e = 98 then some 8
  else if e = 102 then some 12
  else if e = 110 then some 10
  else if e = 114 then some 13
  else if e = 116 then some 9
  else none

/-- Go `encoding/json` decoding of a string literal, read from behind its
opening quote: the decoded string and the input behind the closing quote,
`none` when the literal is not well formed (a raw control byte, an unknown
escape, no closing quote). A `\u` escape of a surrogate half is combined with a
following low half, or else replaced by U+FFFD; ill-formed UTF-8 is replaced by
U+FFFD. The first argument bounds the number of steps; the length of the input
always suffices. -/
def unquoteAux : Nat → GoString → Option (GoString × GoString)
  | 0, _ => none
  | _ + 1, [] => none
  | n + 1, c :: cs =>
    if c = 34 then some ([], cs)
    else if c = 92 then
      match cs with
      | [] => none
      | e :: cs1 =>
        if e = 117 then
          match getu4 (c :: cs) with
          | none => none
          | some rr =>
            let rest := cs.drop 5
            if 0xD800 ≤ rr ∧ rr ≤ 0xDFFF then
              match getu4 rest with
              | some rr1 =>
                if rr < 0xDC00 ∧ 0xDC00 ≤ rr1 ∧ rr1 ≤ 0xDFFF then
                  (unquoteAux n (rest.drop 6)).map (fun q =>
                    (encodeRune (0x10000 + (rr - 0xD800) * 1024 + (rr1 - 0xDC00)) ++ q.1, q.2))
                else (unquoteAux n rest).map (fun q => (encodeRune 0xFFFD ++ q.1, q.2))
              | none => (unquoteAux n rest).map (fun q => (encodeRune 0xFFFD ++ q.1, q.2))
            else (unquoteAux n rest).map (fun q => (encodeRune rr ++ q.1, q.2))
        else
          match simpleEscape e with
          | some b => (unquoteAux n cs1).map (fun q => (b :: q.1, q.2))
          | none => none
    else if c < 0x20 then none
    else if c < 0x80 then (unquoteAux n cs).map (fun q => (c :: q.1, q.2))
    else
      (unquoteAux n ((c :: cs).drop (decodeRune (c :: cs)).2)).map (fun q =>
        (encodeRune (decodeRune (c :: cs)).1 ++ q.1, q.2))

/-- JSON white space is skipped. -/
def skipSpace : GoString → GoString
  | [] => []
  | c :: cs => if c = 32 ∨ c = 9 ∨ c = 10 ∨ c = 13 then skipSpace cs else c :: cs

/-- One element of a JSON array decoded into a Go `string`: a string literal,
or `null`, which leaves the element empty. Any other value is an error. -/
def parseElement (fuel : Nat) : GoString → Option (GoString × GoString)
  | 34 :: cs => unquoteAux fuel cs
  | 110 :: 117 :: 108 :: 108 :: cs => some ([], cs)
  | _ => none

/-- The elements of a non-empty JSON array, read from behind `[` or `,` up to
the closing `]`. -/
def parseElements : Nat → GoString → Option (List GoString × GoString)
  | 0, _ => none
  | n + 1, s =>
    match parseElement s.length (skipSpace s) with
    | none => none
    | some (v, rest) =>
      match skipSpace rest with
      | 44 :: rest1 => (parseElements n rest1).map (fun p => (v :: p.1, p.2))
      | 93 :: rest1 => some ([v], rest1)
      | _ => none

/-- Go `json.Unmarshal(data, &urls)` for `var urls []string`: `none` is any
error (input that is not JSON, or a value that is no array of strings). The
JSON value `null` leaves `urls` without elements. -/
def jsonUnmarshalStrings (data : GoString) : Option (List GoString) :=
  match skipSpace data with
  | 110 :: 117 :: 108 :: 108 :: rest => if skipSpace rest = [] then some [] else none
  | 91 :: rest =>
    match skipSpace rest with
    | 93 :: rest1 => if skipSpace rest1 = [] then some [] else none
    | _ =>
      match parseElements data.length rest with
      | some (vs, rest1) => if skipSpace rest1 = [] then some vs else none
      | none => none
  | _ => none

/-! ## Two-phase ingestion, phase two (`handler.go`, lines 1797-1970) -/

/-- Source `PEmail` (the fields `processIncomingEmails` fills). -/
structure PEmail where
  ID : GoString
  From : List EmailAddress
  To : List EmailAddress
  Cc : List EmailAddress
  Bcc : List EmailAddress
  Subject : GoString
  Date : Nat
  TextBody : GoString
  HTMLBody : GoString
  deriving DecidableEq, Repr

/-- The outcomes of the external calls made for one pending raw message
(`true`: the call fails; `session i` is the outcome of `InitAWS` and `upload i`
that of the put in the upload of its i-th attachment), and the database clock
`NOW()`. -/
structure MsgFaults where
  session : Nat → Bool
  upload : Nat → Bool
  selectUser : Bool
  insert : Bool
  deleteIncoming : Bool
  now : Nat

/-- The outcomes of the external calls of one `processIncomingEmails` call;
`message i` holds those of its i-th pending raw message. -/
structure ProcFaults where
  countInbox : Bool
  selectOldest : Bool
  deleteOldest : Bool
  selectIncoming : Bool
  message : Nat → MsgFaults

/-- How a call ends: it returns `nil`, returns an error, or panics. -/
inductive Result
  | ok
  | error (err : Err)
  | panic
  deriving DecidableEq, Repr

/-- The rows `WHERE user_id = ? and email_type = 'inbox'` of table `emails`. -/
def inboxRows (w : World) (userID : Int) : List EmailRow :=
  w.emails.filter (fun e => e.user_id = userID ∧ e.email_type = lit "inbox")

/-- The row `ORDER BY created_at ASC LIMIT 1` selects: a row with the least
`created_at`; among several such rows the first of the table is taken (the
database may pick any of them). -/
def oldestRow : List EmailRow → Option EmailRow
  | [] => none
  | r :: rest =>
    match oldestRow rest with
    | none => some r
    | some b => if b.created_at < r.created_at then some b else some r

/-- `DELETE FROM emails WHERE id = ?`. -/
def deleteEmail (w : World) (id : Nat) (fails : Bool) : World × Bool :=
  let w := w.record (.deleteEmail id)
  if fails then (w, false)
  else ({ w with emails := w.emails.filter (fun e => e.id ≠ id) }, true)

/-- `DELETE FROM incoming_emails WHERE id = ?`. -/
def deleteIncoming (w : World) (id : Nat) (fails : Bool) : World × Bool :=
  let w := w.record (.deleteIncoming id)
  if fails then (w, false)
  else ({ w with incoming_emails := w.incoming_emails.filter (fun r => r.id ≠ id) }, true)

/-- The `INSERT INTO emails` of `processIncomingEmails`; `row.id` and
`row.created_at` are set by the database. -/
def insertEmail (w : World) (row : EmailRow) (fails : Bool) (now : Nat) : World × Bool :=
  let w := w.record (.insertEmail row.message_id)
  if fails then (w, false)
  else
    ({ w with
        emails := w.emails ++ [{ row with id := w.emailSeq, created_at := now }]
        emailSeq := w.emailSeq + 1 }, true)

/-- The loop `for _, att := range env.Attachments`: a failed upload is logged
and skipped, the URL of a successful one is appended; `none` when an upload
panics. `initFails i` and `fails i` are the outcomes of `InitAWS` and of the
put in the i-th upload still to come. -/
def uploadAttachments (cfg : Config) (emailID : GoString) :
    World → (Nat → Bool) → (Nat → Bool) → List Part → List GoString →
      World × Option (List GoString)
  | w, _, _, [], attachmentURLs => (w, some attachmentURLs)
  | w, initFails, fails, att :: rest, attachmentURLs =>
    let attachmentKey := lit "attachments/" ++ emailID ++ lit "/" ++ att.FileName
    match UploadAttachment cfg w att.Content attachmentKey att.ContentType (initFails 0)
        (fails 0) with
    | (w, .panic) => (w, none)
    | (w, .error _) =>
      uploadAttachments cfg emailID w (fun i => initFails (i + 1)) (fun i => fails (i + 1)) rest
        attachmentURLs
    | (w, .url attachmentURL) =>
      uploadAttachments cfg emailID w (fun i => initFails (i + 1)) (fun i => fails (i + 1)) rest
        (attachmentURLs ++ [attachmentURL])

/-- The body of the loop `for _, rawEmail := range rawEmails` of
`processIncomingEmails`. The flag returned is `true` when the iteration
panics: in an upload, or at `email.From[0]` on an empty list. -/
def processRawEmail (L : Lib) (cfg : Config) (w : World) (emailSendTo : GoString)
    (rawEmail : IncomingRow) (f : MsgFaults) : World × Bool :=
  match L.ReadEnvelope rawEmail.email_data with
  | none => (w, false)
  | some env =>
    let dateT := env.Date
    let email : PEmail :=
      { ID := rawEmail.message_id
        From := parseAddresses L (env.GetHeader (lit "From"))
        To := parseAddresses L (env.GetHeader (lit "To"))
        Cc := parseAddresses L (env.GetHeader (lit "Cc"))
        Bcc := parseAddresses L (env.GetHeader (lit "Bcc"))
        Subject := env.GetHeader (lit "Subject")
        Date := dateT
        TextBody := env.Text
        HTMLBody := env.HTML }
    match uploadAttachments cfg email.ID w f.session f.upload env.Attachments [] with
    | (w, none) => (w, true)
    | (w, some attachmentURLs) =>
      let attachmentsJSON := jsonMarshalStrings attachmentURLs
      let bodyEmail := if email.HTMLBody ≠ [] then email.HTMLBody else email.TextBody
      let preview := generatePreview L email.TextBody email.HTMLBody
      match selectUserID w emailSendTo f.selectUser with
      | (w, none) => (w, false)
      | (w, some userID) =>
        match email.From with
        | [] => (w, true)
        | from0 :: _ =>
          match insertEmail w
              { id := 0, user_id := userID, sender_email := from0.Address,
                sender_name := from0.Name, subject := email.Subject, preview := preview,
                body := bodyEmail, email_type := lit "inbox", attachments := attachmentsJSON,
                message_id := email.ID, timestamp := email.Date, created_at := 0 }
              f.insert f.now with
          | (w, false) => (w, false)
          | (w, true) => ((deleteIncoming w rawEmail.id f.deleteIncoming).1, false)

/-- The loop over the pending raw messages; it stops when an iteration
panics. `f i` holds the outcomes for the i-th message still to come. -/
def processRawEmails (L : Lib) (cfg : Config) (emailSendTo : GoString) :
    World → (Nat → MsgFaults) → List IncomingRow → World × Bool
  | w, _, [] => (w, false)
  | w, f, rawEmail :: rest =>
    match processRawEmail L cfg w emailSendTo rawEmail (f 0) with
    | (w, true) => (w, true)
    | (w, false) => processRawEmails L cfg emailSendTo w (fun i => f (i + 1)) rest

/-- The retention step of `processIncomingEmails` (lines 1800-1838): count
the inbox rows of the user and, when there are more than 10, delete the one
the `ORDER BY created_at ASC LIMIT 1` query selects. -/
def enforceRetention (w : World) (userID : Int) (f : ProcFaults) : World × Option Err :=
  let w := w.record (.countInbox userID)
  if f.countInbox then (w, some .db)
  else
    let emailCount := (inboxRows w userID).length
    if emailCount > 10 then
      let w := w.record (.selectOldest userID)
      match (if f.selectOldest then none else oldestRow (inboxRows w userID)) with
      | none => (w, some .db)
      | some oldest =>
        match deleteEmail w oldest.id f.deleteOldest with
        | (w, false) => (w, some .db)
        | (w, true) => (w, none)
    else (w, none)

/-- The rows `WHERE email_send_to = ? AND processed = FALSE` of table
`incoming_emails`. -/
def pendingRows (w : World) (emailSendTo : GoString) : List IncomingRow :=
  w.incoming_emails.filter (fun r => r.email_send_to = emailSendTo ∧ r.processed = false)

/-- Source `processIncomingEmails`. -/
def processIncomingEmails (L : Lib) (cfg : Config) (w : World) (userID : Int)
    (emailSendTo : GoString) (f : ProcFaults) : World × Result :=
  match enforceRetention w userID f with
  | (w, some err) => (w, .error err)
  | (w, none) =>
    let w := w.record (.selectIncoming emailSendTo)
    if f.selectIncoming then (w, .error .fetchRawEmails)
    else
      let rawEmails := pendingRows w emailSendTo
      match processRawEmails L cfg emailSendTo w f.message rawEmails with
      | (w, true) => (w, .panic)
      | (w, false) => (w, .ok)

/-! ## Single-phase ingestion (`handler.go`, lines 1521-1680) -/

/-- Source `SyncStats`. -/
structure SyncStats where
  TotalEmails : Nat
  NewEmails : Nat
  SkippedEmails : Nat
  FailedEmails : Nat
  deriving DecidableEq, Repr

/-- The outcomes of the external calls made while `SyncBucketInboxHandler`
handles one listed object (`true`: the call fails): the fetch, `InitAWS` and
the put in the upload of the i-th attachment, and the user lookup and the
insert made for the i-th `From` address; and the database clock `NOW()`. -/
structure BucketFaults where
  getObject : Bool
  session : Nat → Bool
  upload : Nat → Bool
  selectUser : Nat → Bool
  insert : Nat → Bool
  now : Nat

/-- An entry of `page.Contents` together with the outcomes of the calls made
for it. -/
structure BucketListed where
  key : GoString
  faults : BucketFaults

/-- What the handler answers: a JSON error with status 500, the statistics
with status 200, or no answer because it panicked. -/
inductive BucketResponse
  | internalServerError (error : GoString)
  | ok (stats : SyncStats)
  | panic
  deriving DecidableEq, Repr

/-- The loop `for _, emailFrom := range email.From` of
`SyncBucketInboxHandler`: one user lookup and one insert per sender. A failed
lookup is only logged, and `userID` keeps its zero value. -/
def insertPerSender (email : PEmail) (preview bodyEmail attachmentsJSON sendEmailTo : GoString)
    (now : Nat) :
    (Nat → Bool) → (Nat → Bool) → List EmailAddress → World → SyncStats → World × SyncStats
  | _, _, [], w, stats => (w, stats)
  | selectFails, insertFailsAt, emailFrom :: rest, w, stats =>
    match selectUserID w sendEmailTo (selectFails 0) with
    | (w, found) =>
      let userID : Int := found.getD 0
      match insertEmail w
          { id := 0, user_id := userID, sender_email := emailFrom.Address,
            sender_name := emailFrom.Name, subject := email.Subject, preview := preview,
            body := bodyEmail, email_type := lit "inbox", attachments := attachmentsJSON,
            message_id := email.ID, timestamp := email.Date, created_at := 0 }
          (insertFailsAt 0) now with
      | (w, false) =>
        insertPerSender email preview bodyEmail attachmentsJSON sendEmailTo now
          (fun i => selectFails (i + 1)) (fun i => insertFailsAt (i + 1)) rest w
          { stats with FailedEmails := stats.FailedEmails + 1 }
      | (w, true) =>
        insertPerSender email preview bodyEmail attachmentsJSON sendEmailTo now
          (fun i => selectFails (i + 1)) (fun i => insertFailsAt (i + 1)) rest w
          { stats with NewEmails := stats.NewEmails + 1 }

/-- The body of the loop `for _, obj := range page.Contents` of
`SyncBucketInboxHandler`. The flag returned is `true` when the iteration
panics: in an upload, or at `email.To[0]` on an empty list. -/
def bucketObject (L : Lib) (cfg : Config) (w : World) (stats : SyncStats) (obj : BucketListed) :
    World × SyncStats × Bool :=
  let stats := { stats with TotalEmails := stats.TotalEmails + 1 }
  let messageID := obj.key
  if messageID = [] then (w, { stats with SkippedEmails := stats.SkippedEmails + 1 }, false)
  else
    match getObject w messageID obj.faults.getObject with
    | (w, none) => (w, { stats with FailedEmails := stats.FailedEmails + 1 }, false)
    | (w, some emailContent) =>
      match L.ReadEnvelope emailContent with
      | none => (w, { stats with FailedEmails := stats.FailedEmails + 1 }, false)
      | some env =>
        let dateT := env.Date
        let email : PEmail :=
          { ID := messageID
            From := parseAddresses L (env.GetHeader (lit "From"))
            To := parseAddresses L (env.GetHeader (lit "To"))
            Cc := parseAddresses L (env.GetHeader (lit "Cc"))
            Bcc := parseAddresses L (env.GetHeader (lit "Bcc"))
            Subject := env.GetHeader (lit "Subject")
            Date := dateT
            TextBody := env.Text
            HTMLBody := env.HTML }
        match uploadAttachments cfg email.ID w obj.faults.session obj.faults.upload
            env.Attachments [] with
        | (w, none) => (w, stats, true)
        | (w, some attachmentURLs) =>
          let attachmentsJSON := jsonMarshalStrings attachmentURLs
          let bodyEmail := if email.HTMLBody ≠ [] then email.HTMLBody else email.TextBody
          let preview := generatePreview L email.TextBody email.HTMLBody
          let email := if email.ID = [] then { email with ID := lit "NOTVALID" } else email
          match email.To with
          | [] => (w, stats, true)
          | to0 :: _ =>
            let sendEmailTo := to0.Address
            match insertPerSender email preview bodyEmail attachmentsJSON sendEmailTo
                obj.faults.now obj.faults.selectUser obj.faults.insert email.From w stats with
            | (w, stats) => (w, stats, false)

/-- The listed objects handled one after the other, until one panics. -/
def bucketObjects (L : Lib) (cfg : Config) :
    List BucketListed → World → SyncStats → World × SyncStats × Bool
  | [], w, stats => (w, stats, false)
  | obj :: rest, w, stats =>
    match bucketObject L cfg w stats obj with
    | (w, stats, true) => (w, stats, true)
    | (w, stats, false) => bucketObjects L cfg rest w stats

/-- Source `SyncBucketInboxHandler`. `pages` are the listing pages delivered
to the callback, which handles them in order; `listFails` tells whether the
listing call ends with an error. No call of this handler deletes an object. -/
def SyncBucketInboxHandler (L : Lib) (cfg : Config) (w : World) (initFails : Bool)
    (pages : List (List BucketListed)) (listFails : Bool) : World × BucketResponse :=
  if initFails then (w, .internalServerError (lit "Failed to initialize AWS session"))
  else
    match bucketObjects L cfg pages.flatten w
        { TotalEmails := 0, NewEmails := 0, SkippedEmails := 0, FailedEmails := 0 } with
    | (w, _, true) => (w, .panic)
    | (w, stats, false) =>
      if listFails then (w, .internalServerError (lit "Failed to list objects"))
      else (w, .ok stats)

/-! ## Reading the attachment list (`handler.go`, lines 1032-1053; `model.go`) -/

/-- Source `Attachment` (`model.go`). -/
structure Attachment where
  Filename : GoString
  ContentType : GoString
  Content : GoString
  URL : GoString
  deriving DecidableEq, Repr

/-- Go `strings.Split(s, sep)` for a separator of one byte. -/
def splitByte (sep : Nat) : GoString → List GoString
  | [] => [[]]
  | c :: cs =>
    if c = sep then [] :: splitByte sep cs
    else
      match splitByte sep cs with
      | [] => [[c]]
      | p :: ps => (c :: p) :: ps

/-- Source `getAttachmentURLs`. -/
def getAttachmentURLs (attachmentsJSON : GoString) : List Attachment :=
  match jsonUnmarshalStrings attachmentsJSON with
  | none => []
  | some urls =>
    urls.map (fun url =>
      let parts := splitByte 47 url
      let filename := parts.getLast?.getD []
      { URL := url, ContentType := [], Filename := filename, Content := [] })

/-! ## Send limit (`domain/email/handler.go`, lines 44-79 and 1761-1773) -/

/-- Go `time.Hour` and `time.Minute`, in nanoseconds. -/
def hour : Int := 3600000000000

def minute : Int := 60000000000

/-- Go `Time.Sub`: the difference as a `Duration`, which is an `int64` and
saturates at its bounds. -/
def timeSub (t u : Int) : Int :=
  if t - u < -(2 ^ 63) then -(2 ^ 63) else if 2 ^ 63 - 1 < t - u then 2 ^ 63 - 1 else t - u

/-- A row of table `users`, with the columns the login and the send-limit code
read and write (source `User`, `domain/user/model.go`). Times are in
nanoseconds; `none` is SQL `NULL` (a `nil` pointer in Go). -/
structure Account where
  ID : Int
  Email : GoString
  Password : GoString
  RoleID : Int
  LastLogin : Option Int
  SentEmails : Int
  LastEmailTime : Option Int
  deriving DecidableEq, Repr

/-- A row of table `user_login_attempts`. -/
structure LoginAttempt where
  username : GoString
  failed_attempts : Int
  last_attempt_time : Int
  blocked_until : Option Int
  deriving DecidableEq, Repr

/-- The tables behind login and send limit. -/
structure AuthState where
  users : List Account
  user_login_attempts : List LoginAttempt
  deriving DecidableEq, Repr

/-- How `CheckEmailLimit` returns: `nil`, the database error, the limit
error, or a panic (`*user.LastEmailTime` on a `nil` pointer). -/
inductive LimitResult
  /-- The call returns `nil`. -/
  | ok
  /-- The error of the database call is returned. -/
  | dbError
  /-- "daily email limit exceeded (3 emails per 24 hours)" -/
  | limitExceeded
  /-- The call panics on the `nil` dereference. -/
  | panic
  deriving DecidableEq, Repr

/-- `UPDATE users SET ... WHERE id = ?`. -/
def updateUsers (st : AuthState) (userID : Int) (g : Account → Account) : AuthState :=
  { st with users := st.users.map (fun u => if u.ID = userID then g u else u) }

/-- Source `CheckEmailLimit` (`domain/email/handler.go`, lines 44-79).
`getFails` and `execFails` are the outcomes of the database calls, `now` is
the clock read by `time.Since` and by `NOW()`. -/
def CheckEmailLimit (st : AuthState) (userID : Int) (now : Int) (getFails execFails : Bool) :
    AuthState × LimitResult :=
  match (if getFails then none else st.users.find? (fun u => u.ID = userID)) with
  | none => (st, .dbError)
  | some user =>
    if user.SentEmails ≥ 3 then (st, .limitExceeded)
    else if user.SentEmails = 0 then
      if execFails then (st, .dbError)
      else (updateUsers st userID
        (fun u => { u with SentEmails := 0, LastEmailTime := some now }), .ok)
    else
      match user.LastEmailTime with
      | none => (st, .panic)
      | some last =>
        if timeSub now last > 24 * hour then
          if execFails then (st, .dbError)
          else (updateUsers st userID
            (fun u => { u with SentEmails := 0, LastEmailTime := some now }), .ok)
        else (st, .ok)

/-- Source `updateLimitSentEmails` (lines 1761-1773); `true` stands for the
error. -/
def updateLimitSentEmails (st : AuthState) (userID : Int) (now : Int) (execFails : Bool) :
    AuthState × Bool :=
  if execFails then (st, true)
  else (updateUsers st userID
    (fun u => { u with SentEmails := u.SentEmails + 1, LastLogin := some now }), false)

/-! ## Login (`domain/user/handler.go`, lines 28-207) -/

/-- The functions of `utils` whose code is library code (`bcrypt`, `jwt`):
`CheckPasswordHash password hash`, and `GenerateJWT`, `none` being its
error. -/
structure AuthLib where
  CheckPasswordHash : GoString → GoString → Bool
  GenerateJWT : Int → GoString → Int → Option GoString

/-- The outcomes of the calls one `LoginHandler` call makes (`true`: the call
fails): binding the request, and the database calls in source order; and
`lastLoginTime`, the `time.Now()` that `updateLastLogin` reads after them. -/
structure LoginFaults where
  bind : Bool
  selectAttempts : Bool
  insertAttempts : Bool
  reselectAttempts : Bool
  resetAfterBlock : Bool
  selectUser : Bool
  updateAttempts : Bool
  resetOnSuccess : Bool
  updateLastLogin : Bool
  lastLoginTime : Int
  deriving DecidableEq, Repr

/-- What `LoginHandler` answers. -/
inductive LoginResponse
  /-- 400, the bind error. -/
  | badRequest
  /-- 500 "Internal server error". -/
  | internalServerError
  /-- 429 "Account temporarily locked. Please try again in ...", with the time
  remaining. -/
  | locked (remaining : Int)
  /-- 429 "Too many failed login attempts. Account locked for 5 minutes." -/
  | tooManyAttempts
  /-- 429 "Careful! One more failed attempt will disable login for 5 minutes." -/
  | careful
  /-- 401 "Invalid email or password". -/
  | unauthorized
  /-- 200 with the token. -/
  | ok (token : GoString)
  deriving DecidableEq, Repr

/-- The HTTP status of an answer. -/
def LoginResponse.status : LoginResponse → Nat
  | .badRequest => 400
  | .internalServerError => 500
  | .locked _ => 429
  | .tooManyAttempts => 429
  | .careful => 429
  | .unauthorized => 401
  | .ok _ => 200

/-- `UPDATE user_login_attempts SET ... WHERE username = ?`; a failed call
changes nothing. -/
def updateAttempts (st : AuthState) (username : GoString) (g : LoginAttempt → LoginAttempt)
    (fails : Bool) : AuthState :=
  if fails then st
  else { st with user_login_attempts :=
    st.user_login_attempts.map (fun r => if r.username = username then g r else r) }

/-- The two places of `LoginHandler` that count a failed attempt (user not
found, lines 114-135; password mismatch, lines 141-181): the counter read is
incremented and written back, from 4 on together with `blocked_until`; the
error of the update is only logged. `found` tells the password branch, which
alone has the warning at 3. -/
def countFailure (st : AuthState) (username : GoString) (failedAttempts : Int) (now : Int)
    (found : Bool) (fails : Bool) : AuthState × LoginResponse :=
  let failedAttempts := failedAttempts + 1
  if failedAttempts ≥ 4 then
    let blockedUntil := now + 5 * minute
    (updateAttempts st username
        (fun r => { r with
          failed_attempts := failedAttempts
          last_attempt_time := now
          blocked_until := some blockedUntil }) fails,
      .tooManyAttempts)
  else if found ∧ failedAttempts = 3 then
    (updateAttempts st username
        (fun r => { r with failed_attempts := failedAttempts, last_attempt_time := now }) fails,
      .careful)
  else
    (updateAttempts st username
        (fun r => { r with failed_attempts := failedAttempts, last_attempt_time := now }) fails,
      .unauthorized)

/-- Source `LoginHandler` (`domain/user/handler.go`, lines 28-207), from the
lookup of the user on; `failedAttempts` is `attempts.FailedAttempts` at that
point. -/
def loginUser (A : AuthLib) (st : AuthState) (email password : GoString) (now : Int)
    (f : LoginFaults) (failedAttempts : Int) : AuthState × LoginResponse :=
  if f.selectUser then (st, .internalServerError)
  else
    match st.users.find? (fun u => u.Email = email) with
    | none => countFailure st email failedAttempts now false f.updateAttempts
    | some user =>
      if ! A.CheckPasswordHash password user.Password then
        countFailure st email failedAttempts now true f.updateAttempts
      else if f.resetOnSuccess then (st, .internalServerError)
      else
        let st := updateAttempts st email
          (fun r => { r with failed_attempts := 0, blocked_until := none }) false
        match A.GenerateJWT user.ID user.Email user.RoleID with
        | none => (st, .internalServerError)
        | some token =>
          if f.updateLastLogin then (st, .internalServerError)
          else (updateUsers st user.ID (fun u => { u with LastLogin := some f.lastLoginTime }),
            .ok token)

/-- Source `LoginHandler`, from the block check on; `attempts` is the row
read. -/
def loginChecked (A : AuthLib) (st : AuthState) (email password : GoString) (now : Int)
    (f : LoginFaults) (attempts : LoginAttempt) : AuthState × LoginResponse :=
  match attempts.blocked_until with
  | none => loginUser A st email password now f attempts.failed_attempts
  | some blockedUntil =>
    if blockedUntil > now then (st, .locked (timeSub blockedUntil now))
    else if blockedUntil < now then
      if f.resetAfterBlock then (st, .internalServerError)
      else
        loginUser A (updateAttempts st email
          (fun r => { r with failed_attempts := 0, blocked_until := none }) false)
          email password now f 0
    else loginUser A st email password now f attempts.failed_attempts

/-- Source `LoginHandler`. `now` is `time.Now()`. -/
def LoginHandler (A : AuthLib) (st : AuthState) (email password : GoString) (now : Int)
    (f : LoginFaults) : AuthState × LoginResponse :=
  if f.bind then (st, .badRequest)
  else if f.selectAttempts then (st, .internalServerError)
  else
    match st.user_login_attempts.find? (fun r => r.username = email) with
    | some attempts => loginChecked A st email password now f attempts
    | none =>
      if f.insertAttempts then (st, .internalServerError)
      else
        let st := { st with user_login_attempts := st.user_login_attempts ++
          [{ username := email, failed_attempts := 0, last_attempt_time := now,
             blocked_until := none }] }
        if f.reselectAttempts then (st, .internalServerError)
        else
          match st.user_login_attempts.find? (fun r => r.username = email) with
          | some attempts => loginChecked A st email password now f attempts
          | none => (st, .internalServerError)

/-! ## Obfuscated ids (`utils/hashing.go`, lines 28-84) -/

/-- The decimal digits of `n`, most significant first; the first argument
bounds the number of digits, and any bound above `n` suffices. -/
def natDigits : Nat → Nat → GoString
  | 0, _ => []
  | f + 1, n => if n < 10 then [48 + n] else natDigits f (n / 10) ++ [48 + n % 10]

/-- Go `strconv.Itoa`. -/
def Itoa (i : Int) : GoString :=
  if i < 0 then 45 :: natDigits (i.natAbs + 1) i.natAbs else natDigits (i.natAbs + 1) i.natAbs

/-- The value of a string of decimal digits read after `acc`; `none` when a
byte is no digit. -/
def parseUint : GoString → Nat → Option Nat
  | [], acc => some acc
  | c :: cs, acc => if 48 ≤ c ∧ c ≤ 57 then parseUint cs (acc * 10 + (c - 48)) else none

/-- Go `strconv.Atoi` for a 64-bit `int`: an optional sign, then at least one
decimal digit and nothing else, the value within the `int64` range; `none` is
the error. -/
def Atoi (s : GoString) : Option Int :=
  match s with
  | [] => none
  | c :: cs =>
    let ds := if c = 45 ∨ c = 43 then cs else s
    if ds = [] then none
    else
      match parseUint ds 0 with
      | none => none
      | some n =>
        if c = 45 then (if n ≤ 2 ^ 63 then some (-(n : Int)) else none)
        else if n < 2 ^ 63 then some (n : Int) else none

/-- The alphabet of `base64.RawURLEncoding`. -/
def b64Char (n : Nat) : Nat :=
  if n < 26 then 65 + n
  else if n < 52 then 71 + n
  else if n < 62 then n - 4
  else if n = 62 then 45
  else 95

/-- The 6-bit value of a character of the alphabet. -/
def b64Val (c : Nat) : Option Nat :=
  if 65 ≤ c ∧ c ≤ 90 then some (c - 65)
  else if 97 ≤ c ∧ c ≤ 122 then some (c - 71)
  else if 48 ≤ c ∧ c ≤ 57 then some (c + 4)
  else if c = 45 then some 62
  else if c = 95 then some 63
  else none

/-- The 6-bit groups of a byte sequence, without padding. -/
def sextets : GoString → List Nat
  | [] => []
  | [a] => [a / 4, a % 4 * 16]
  | [a, b] => [a / 4, a % 4 * 16 + b / 16, b % 16 * 4]
  | a :: b :: c :: rest =>
    a / 4 :: (a % 4 * 16 + b / 16) :: (b % 16 * 4 + c / 64) :: c % 64 :: sextets rest

/-- Go `base64.RawURLEncoding.EncodeToString`. -/
def base64Encode (data : GoString) : GoString := (sextets data).map b64Char

/-- The bytes a sequence of 6-bit groups stands for; a single group left over
is an error, and the bits left over in a last group of two or three are
dropped. -/
def unsextets : List Nat → Option GoString
  | [] => some []
  | [_] => none
  | [a, b] => some [a * 4 + b / 16]
  | [a, b, c] => some [a * 4 + b / 16, b % 16 * 16 + c / 4]
  | a :: b :: c :: d :: rest =>
    (unsextets rest).map (fun r =>
      (a * 4 + b / 16) :: (b % 16 * 16 + c / 4) :: (c % 4 * 64 + d) :: r)

/-- The 6-bit values of the characters of a text; `none` when one of them is
not in the alphabet. -/
def b64Vals : GoString → Option (List Nat)
  | [] => some []
  | c :: cs =>
    match b64Val c with
    | none => none
    | some v => (b64Vals cs).map (fun vs => v :: vs)

/-- Go `base64.RawURLEncoding.DecodeString`: carriage returns and newlines
are skipped, any other character outside the alphabet (the padding `=`
included) is an error; `none` is the error. -/
def base64Decode (s : GoString) : Option GoString :=
  match b64Vals (s.filter (fun c => c ≠ 13 ∧ c ≠ 10)) with
  | none => none
  | some vs => unsextets vs

/-- Go `fmt.Sprintf("%x", b)` for a byte slice: two lower-case hexadecimal
digits per byte. -/
def hexBytes (b : GoString) : GoString :=
  b.flatMap (fun x => [hexDigit (x / 16 % 16), hexDigit (x % 16)])

/-- Source `EncodeID` (`utils/hashing.go`, lines 28-43). `mac key message` is
HMAC-SHA256 (library code), `secret` the configured `JWT_SECRET`. -/
def EncodeID (mac : GoString → GoString → GoString) (secret : GoString) (id : Int) : GoString :=
  let idStr := Itoa id
  let hash := (mac secret idStr).take 6
  let data := idStr ++ lit ":" ++ hexBytes hash
  base64Encode data

/-- The errors of `DecodeID`. -/
inductive IDError
  /-- "failed to decode: %w" -/
  | decode
  /-- "invalid encoded string format" -/
  | format
  /-- "invalid ID format: %w" -/
  | idFormat
  /-- "hash mismatch: invalid encoded ID" -/
  | hashMismatch
  deriving DecidableEq, Repr

/-- The loop `for i, char := range parts` of `DecodeID`: the byte index of the
first rune `:`; `i` is the index of the rune at the head. -/
def sepIndexFrom : List (Nat × GoString) → Nat → Option Nat
  | [], _ => none
  | p :: ps, i => if p.1 = 58 then some i else sepIndexFrom ps (i + p.2.length)

/-- Source `DecodeID` (`utils/hashing.go`, lines 45-84). -/
def DecodeID (mac : GoString → GoString → GoString) (secret : GoString) (encoded : GoString) :
    Except IDError Int :=
  match base64Decode encoded with
  | none => .error .decode
  | some parts =>
    match sepIndexFrom (runes parts) 0 with
    | none => .error .format
    | some sepIndex =>
      let originalIDStr := parts.take sepIndex
      match Atoi originalIDStr with
      | none => .error .idFormat
      | some originalID =>
        let expectedHash := hexBytes ((mac secret originalIDStr).take 6)
        if expectedHash ≠ parts.drop (sepIndex + 1) then .error .hashMismatch
        else .ok originalID

/-! ## Relative time (`domain/email/handler.go`, lines 1072-1096) -/

/-- Go conversion `int(x)` of a `float64`: the fraction is cut off. -/
def truncate (x : ℚ) : Int := if 0 ≤ x then ⌊x⌋ else ⌈x⌉

/-- Go `Duration.Minutes`: `float64(min) + float64(nsec)/(60*1e9)` with
`min := d / Minute` and `nsec := d % Minute`. `R` is the rounding of an exact
result to `float64`, made at the two conversions, the division and the
addition. -/
def durationMinutes (R : ℚ → ℚ) (d : Int) : ℚ :=
  let min := Int.tdiv d minute
  let nsec := Int.tmod d minute
  R (R (min : ℚ) + R (R (nsec : ℚ) / (60 * 1000000000)))

/-- Go `Duration.Hours`: `float64(hour) + float64(nsec)/(60*60*1e9)`. -/
def durationHours (R : ℚ → ℚ) (d : Int) : ℚ :=
  let h := Int.tdiv d hour
  let nsec := Int.tmod d hour
  R (R (h : ℚ) + R (R (nsec : ℚ) / (60 * 60 * 1000000000)))

/-- Source `formatRelativeTime` (`domain/email/handler.go`, lines 1072-1096).
`now` is `time.Now()`, `formatDate t` is `t.Format("02 Jan 2006")` (library
code), `R` the `float64` rounding. -/
def formatRelativeTime (R : ℚ → ℚ) (formatDate : Int → GoString) (now t : Int) : GoString :=
  let diff := timeSub now t
  if diff < minute then lit "Just now"
  else if diff < hour then
    let minutes := truncate (durationMinutes R diff)
    if minutes = 1 then lit "1 Minute ago"
    else Itoa minutes ++ lit " Minutes ago"
  else if diff < 24 * hour then
    let hours := truncate (durationHours R diff)
    if hours = 1 then lit "1 Hour ago"
    else Itoa hours ++ lit " Hours ago"
  else if diff < 48 * hour then lit "Yesterday"
  else formatDate t

/-! ## Observations on a state, used to state the properties -/

/-- The keys of the `GetObject` calls of a record, in the order they were issued. -/
def fetchedKeys (tr : List Event) : List GoString :=
  tr.filterMap (fun e => match e with
    | .getObject k => some k
    | _ => none)

/-- The staging rows with a given `message_id`. -/
def stagedFor (w : World) (k : GoString) : List IncomingRow :=
  w.incoming_emails.filter (fun r => r.message_id = k)

/-- What handling the listed object `key` leaves untouched: tables `emails`
and `users`, every other object of the bucket, absent objects, and the
deletes and staging rows of every other key. -/
structure SyncFrame (w w' : World) (key : GoString) : Prop where
  emails : w'.emails = w.emails
  users : w'.users = w.users
  objects_other : ∀ k, k ≠ key → w'.objects k = w.objects k
  objects_none : ∀ k, w.objects k = none → w'.objects k = none
  deletes_other : ∀ k, k ≠ key →
    w'.trace.count (.deleteObject k) = w.trace.count (.deleteObject k)
  staged_other : ∀ k, k ≠ key → stagedFor w' k = stagedFor w k

/-- The URL `UploadAttachment` returns for an attachment of message `emailID`
once its upload has succeeded. -/
def attachmentURL (cfg : Config) (emailID : GoString) (att : Part) : GoString :=
  lit "https://" ++ cfg.S3_BUCKET_NAME ++ lit ".s3." ++ cfg.AWS_REGION ++ lit ".amazonaws.com/"
    ++ (lit "attachments/" ++ emailID ++ lit "/" ++ att.FileName)

/-- The URLs of the attachments whose upload succeeds, in attachment order;
`fails i` tells whether the upload of attachment number `i` fails, the first
attachment of the list having number `i0`. -/
def successfulURLs (cfg : Config) (emailID : GoString) (fails : Nat → Bool) :
    Nat → List Part → List GoString
  | _, [] => []
  | i0, att :: rest =>
    (if fails i0 then [] else [attachmentURL cfg emailID att])
      ++ successfulURLs cfg emailID fails (i0 + 1) rest

/-- Source `generatePreview`'s last step: a text of more than 200 bytes is cut
to its first 200 bytes and `...` is appended. -/
def truncate200 (text : GoString) : GoString :=
  if text.length > 200 then text.take 200 ++ lit "..." else text

/-- What the single-phase handler leaves in place: no object disappears and
no `DeleteObject` is issued. -/
structure KeepsObjects (w w' : World) : Prop where
  present : ∀ k, (w.objects k).isSome = true → (w'.objects k).isSome = true
  deletes : ∀ k, w'.trace.count (.deleteObject k) = w.trace.count (.deleteObject k)

/-- A Unicode scalar value: a code point up to U+10FFFF that is not a
surrogate. -/
def validScalar (r : Nat) : Prop := r < 0xD800 ∨ (0xE000 ≤ r ∧ r ≤ 0x10FFFF)

/-- A rune as `runes` yields it: an ill-formed byte read as U+FFFD, or a
scalar value with its encoding. -/
def RuneOK (p : Nat × GoString) : Prop :=
  (p.1 = 0xFFFD ∧ p.2.length = 1) ∨ (validScalar p.1 ∧ p.2 = encodeRune p.1)

/-- A string with every ill-formed byte replaced by U+FFFD, as a JSON round
trip leaves it. -/
def coerceUTF8 (s : GoString) : GoString := (runes s).flatMap (fun p => encodeRune p.1)

/-- Whether a text starts, behind white space, with the `[` of a JSON array. -/
def startsArray (v : GoString) : Bool := (skipSpace v).head? == some 91

/-- The text `jsonMarshalStrings` writes for the elements of a non-empty
slice, up to the closing bracket. -/
def elementsText : List GoString → GoString
  | [] => [93]
  | [u] => [34] ++ jsonEscape u ++ [34, 93]
  | u :: v :: us => [34] ++ jsonEscape u ++ [34, 44] ++ elementsText (v :: us)

/-- The five replacements of line-break tags `html2text` starts with. -/
def lineBreaks (s : GoString) : GoString :=
  replaceAll (replaceAll (replaceAll (replaceAll (replaceAll s (lit "<br>") [10])
    (lit "<br/>") [10]) (lit "<br />") [10]) (lit "</p>") [10]) (lit "</div>") [10]

/-- The five removals `html2text` makes under `Remove zero-width spaces`. -/
def zeroWidth (s : GoString) : GoString :=
  replaceAll (replaceAll (replaceAll (replaceAll (replaceAll s [0xE2, 0x80, 0x8B] [])
    [0xE2, 0x80, 0x8C] []) [0xE2, 0x80, 0x8D] []) [0xE2, 0x80] []) [0xE2] []

/-- Whether the calls a failed login makes all succeed. -/
def LoginFaults.quiet (f : LoginFaults) : Bool :=
  !f.bind && !f.selectAttempts && !f.selectUser && !f.updateAttempts

/-- Consecutive `LoginHandler` calls for one e-mail address, each with its
password, its clock reading and its call outcomes; the answers in order. -/
def loginSequence (A : AuthLib) (email : GoString) :
    AuthState → List (GoString × Int × LoginFaults) → AuthState × List LoginResponse
  | st, [] => (st, [])
  | st, (password, now, f) :: rest =>
    let r := LoginHandler A st email password now f
    let q := loginSequence A email r.1 rest
    (q.1, r.2 :: q.2)

/-- What the code needs of the `float64` rounding: it does not cross a number
`m / 2^k` with `m < 2^53` (and `k ≤ 64`), which is a `float64`. Rounding to
nearest has this property. -/
def RoundsToFloat64 (R : ℚ → ℚ) : Prop :=
  ∀ (x : ℚ) (m k : Nat), m < 2 ^ 53 → k ≤ 64 →
    (x ≤ (m : ℚ) / 2 ^ k → R x ≤ (m : ℚ) / 2 ^ k) ∧
    ((m : ℚ) / 2 ^ k ≤ x → (m : ℚ) / 2 ^ k ≤ R x)

/-! ## Concrete inputs -/

/-- The envelope of a sample message with `n` attachments (`a.txt`, `b.txt`,
...), addressed to `rcpt`, sent by `sender@example.org`, subject `Hi`, HTML
body `<p>Hello</p>` and no plain-text body. -/
def demoEnvelope (n : Nat) (rcpt : GoString) : Envelope where
  GetHeader := fun h =>
    if h = lit "To" then rcpt
    else if h = lit "From" then lit "sender@example.org"
    else if h = lit "Subject" then lit "Hi"
    else []
  Date := 7
  Text := []
  HTML := lit "<p>Hello</p>"
  Attachments := (List.range n).map (fun i =>
    { FileName := [97 + i] ++ lit ".txt", ContentType := lit "text/plain",
      Content := List.replicate 10 120 })

/-- A small instance of the library functions, on which the definitions are
run. A raw message whose first byte is 0 (or that is empty) does not parse; a
raw message `n + 1 :: rcpt` is the sample message with `n` attachments and
`To` header `rcpt`. An address list is one address without display name, and
the empty header does not parse. -/
def demoLib : Lib where
  decodeEntities := fun s => s
  inPrintRanges := fun _ => true
  ReadEnvelope := fun raw =>
    match raw with
    | [] => none
    | 0 :: _ => none
    | (n + 1) :: rcpt => some (demoEnvelope n rcpt)
  ParseAddressList := fun h => if h = [] then none else some [{ Name := [], Address := h }]

/-- A sample configuration. -/
def demoConfig : Config :=
  { S3_BUCKET_NAME := lit "bucket", S3_PREFIX := [], AWS_REGION := lit "ap-1" }

/-- No call made for a listed object fails. -/
def noFaults : SyncFaults :=
  { getObject := false, selectUser := false, deleteUnknown := false, insert := false,
    deleteObject := false, now := 100 }

/-- The database is down while the object is handled: the user lookup and the
staging insert fail; the calls to the object store succeed. -/
def databaseDown : SyncFaults :=
  { getObject := false, selectUser := true, deleteUnknown := false, insert := true,
    deleteObject := false, now := 100 }

/-- A bucket with four raw objects: `ok` (addressed to the registered
`user1@example.com`), `unknown` (addressed to an unregistered address), `bad`
(unparseable) and `noto` (parseable, without `To` header); one registered
user; empty tables. -/
def demoWorld : World where
  objects := fun k =>
    if k = lit "ok" then some (1 :: lit "user1@example.com")
    else if k = lit "unknown" then some (1 :: lit "nobody@example.com")
    else if k = lit "bad" then some [0]
    else if k = lit "noto" then some [1]
    else none
  users := [{ id := 1, email := lit "user1@example.com" }]
  incoming_emails := []
  emails := []
  incomingSeq := 1
  emailSeq := 1
  trace := []

/-- A listing of the four objects of `demoWorld` in two pages. -/
def demoPages : List (List Listed) :=
  [[⟨lit "bad", noFaults⟩, ⟨lit "unknown", noFaults⟩],
   [⟨lit "noto", noFaults⟩, ⟨lit "ok", noFaults⟩]]

/-- The objects listed before `ok` in `demoPages`. -/
def demoBeforeOk : List Listed :=
  [⟨lit "bad", noFaults⟩, ⟨lit "unknown", noFaults⟩, ⟨lit "noto", noFaults⟩]

/-- No call of a `processIncomingEmails` run fails. -/
def noProcFaults : ProcFaults :=
  { countInbox := false, selectOldest := false, deleteOldest := false, selectIncoming := false,
    message := fun _ =>
      { session := fun _ => false, upload := fun _ => false, selectUser := false,
        insert := false, deleteIncoming := false, now := 200 } }

/-- As `noProcFaults`, but the upload of the second attachment of every
message fails. -/
def secondUploadFails : ProcFaults :=
  { countInbox := false, selectOldest := false, deleteOldest := false, selectIncoming := false,
    message := fun _ =>
      { session := fun _ => false, upload := fun i => i == 1, selectUser := false,
        insert := false, deleteIncoming := false, now := 200 } }

/-- As `noProcFaults`, but `InitAWS` fails in the upload of the second
attachment of every message. -/
def secondSessionFails : ProcFaults :=
  { countInbox := false, selectOldest := false, deleteOldest := false, selectIncoming := false,
    message := fun _ =>
      { session := fun i => i == 1, upload := fun _ => false, selectUser := false,
        insert := false, deleteIncoming := false, now := 200 } }

/-- The staged raw message number `i` of `mailbox`. -/
def stagedMessage (attachments i : Nat) : IncomingRow :=
  { id := i + 1, email_send_to := lit "user1@example.com", message_id := [109, 48 + i],
    email_data := (attachments + 1) :: lit "user1@example.com", created_at := 150,
    processed := false, email_date := 7 }

/-- A mailbox state: account 1 (`user1@example.com`) with `rows` inbox rows
created at times `1 .. rows`, and `pending` staged raw messages with
`attachments` attachments each. -/
def mailbox (rows pending attachments : Nat) : World where
  objects := fun _ => none
  users := [{ id := 1, email := lit "user1@example.com" }]
  incoming_emails := (List.range pending).map (stagedMessage attachments)
  emails := (List.range rows).map (fun i =>
    { id := i + 1, user_id := 1, sender_email := lit "sender@example.org",
      sender_name := lit "sender", subject := lit "Hi", preview := lit "Hello",
      body := lit "<p>Hello</p>", email_type := lit "inbox", attachments := lit "null",
      message_id := [111, 48 + i], timestamp := 7, created_at := i + 1 })
  incomingSeq := pending + 1
  emailSeq := rows + 1
  trace := []

/-- The text of `n` letters `é` (U+00E9, two bytes each). -/
def accented (n : Nat) : GoString := (List.replicate n [0xC3, 0xA9]).flatten

/-- As `noProcFaults`, but every insert into `emails` fails. -/
def insertFails : ProcFaults :=
  { countInbox := false, selectOldest := false, deleteOldest := false, selectIncoming := false,
    message := fun _ =>
      { session := fun _ => false, upload := fun _ => false, selectUser := false,
        insert := true, deleteIncoming := false, now := 200 } }

/-- No call made for a listed object of the single-phase handler fails. -/
def noBucketFaults : BucketFaults :=
  { getObject := false, session := fun _ => false, upload := fun _ => false,
    selectUser := fun _ => false, insert := fun _ => false, now := 100 }

/-- As `noProcFaults`, but every upload fails. -/
def uploadsFail : ProcFaults :=
  { countInbox := false, selectOldest := false, deleteOldest := false, selectIncoming := false,
    message := fun _ =>
      { session := fun _ => false, upload := fun _ => true, selectUser := false,
        insert := false, deleteIncoming := false, now := 200 } }

/-- An envelope without any header, body or attachment. -/
def bareEnvelope : Envelope where
  GetHeader := fun _ => []
  Date := 0
  Text := []
  HTML := []
  Attachments := []

/-- As `demoLib`, but every raw message parses, as a message without
headers. -/
def bareLib : Lib :=
  { demoLib with ReadEnvelope := fun _ => some bareEnvelope }

/-- The sample bucket with one more object, `empty`, of zero bytes. -/
def emptyObjectWorld : World :=
  { demoWorld with objects := fun k => if k = lit "empty" then some [] else demoWorld.objects k }

/-- The text `€` (U+20AC). -/
def euro : GoString := [0xE2, 0x82, 0xAC]

/-- The text `—` (U+2014). -/
def emDash : GoString := [0xE2, 0x80, 0x94]

/-- No call fails; `updateLastLogin` reads the clock at 60. -/
def noLoginFaults : LoginFaults :=
  { bind := false, selectAttempts := false, insertAttempts := false, reselectAttempts := false,
    resetAfterBlock := false, selectUser := false, updateAttempts := false,
    resetOnSuccess := false, updateLastLogin := false, lastLoginTime := 60 }

/-- A sample password check and token: the hash of a password is the password
itself, the token is the e-mail address. -/
def demoAuthLib : AuthLib :=
  { CheckPasswordHash := fun password hash => password == hash
    GenerateJWT := fun _ email _ => some email }

/-- One account, `user1@example.com` with password `secret`, `sent` e-mails
sent, the last one at time `last`; and its attempts row with `failed` failed
attempts and `blocked_until` as given. -/
def authState (sent : Int) (last : Option Int) (failed : Int) (blockedUntil : Option Int) :
    AuthState :=
  { users := [{ ID := 1, Email := lit "user1@example.com", Password := lit "secret", RoleID := 1,
                LastLogin := none, SentEmails := sent, LastEmailTime := last }]
    user_login_attempts := [{ username := lit "user1@example.com", failed_attempts := failed,
                              last_attempt_time := 0, blocked_until := blockedUntil }] }

/-- A sample keyed hash: 32 bytes made from the lengths of key and message. -/
def demoMac (key message : GoString) : GoString :=
  List.replicate 32 ((7 * key.length + 13 * message.length + 171) % 256)

/-- A sample date format: the day number since the epoch. -/
def demoFormatDate (t : Int) : GoString := lit "day " ++ Itoa (t / (24 * hour))

/-! ## Properties -/

set_option maxRecDepth 100000

/-! ### Text cleaning on ASCII input -/

theorem replaceAllAux_append_of_not_mem (o : Nat) (old new : GoString) (a b : GoString)
    (h : o ∉ a) :
    replaceAllAux (o :: old) new 0 (a ++ b) = a ++ replaceAllAux (o :: old) new 0 b := by
  induction a with
  | nil => simp
  | cons c a ih =>
    simp only [List.mem_cons, not_or] at h
    have hc : (o == c) = false := by simpa using h.1
    simp [replaceAllAux, List.isPrefixOf, hc, ih h.2]

theorem replaceAll_of_not_mem (o : Nat) (old new s : GoString) (h : o ∉ s) :
    replaceAll s (o :: old) new = s := by
  have := replaceAllAux_append_of_not_mem o old new s [] h
  simpa [replaceAll, replaceAllAux] using this

theorem stripTagsAux_of_not_mem (s : GoString) (h : 60 ∉ s) : stripTagsAux false s = s := by
  induction s with
  | nil => simp [stripTagsAux]
  | cons c s ih =>
    simp only [List.mem_cons, not_or] at h
    have hc : c ≠ 60 := fun e => h.1 e.symm
    simp [stripTagsAux, hc, ih h.2]

theorem runesAux_ascii (s : GoString) (h : ∀ b ∈ s, b < 128) (n : Nat) (hn : s.length ≤ n) :
    runesAux n s = s.map (fun b => (b, [b])) := by
  induction s generalizing n with
  | nil => cases n <;> simp [runesAux]
  | cons c s ih =>
    cases n with
    | zero => simp at hn
    | succ n =>
      have hc : c < 128 := h c (by simp)
      simp only [List.length_cons, Nat.add_le_add_iff_right] at hn
      simp [runesAux, decodeRune, hc, ih (fun b hb => h b (by simp [hb])) n hn]

theorem runes_ascii (s : GoString) (h : ∀ b ∈ s, b < 128) :
    runes s = s.map (fun b => (b, [b])) :=
  runesAux_ascii s h _ le_rfl

theorem flatMap_map_singleton (s : GoString) :
    (s.map (fun b => (b, [b]))).flatMap (fun p : Nat × GoString => p.2) = s := by
  induction s with
  | nil => rfl
  | cons c s ih => simp [List.flatMap_cons, ih]

theorem removeNonPrintable_ascii (L : Lib) (s : GoString) (h : ∀ b ∈ s, b < 128) :
    removeNonPrintable L s = s.filter (fun b => 0x20 ≤ b && b ≤ 0x7E) := by
  rw [removeNonPrintable, runes_ascii s h]
  induction s with
  | nil => rfl
  | cons c s ih =>
    have hc : c < 128 := h c (by simp)
    have hs : ∀ b ∈ s, b < 128 := fun b hb => h b (by simp [hb])
    have hp : isPrint L c = (decide (0x20 ≤ c) && decide (c ≤ 0x7E)) := by
      have h1 : c ≤ 255 := by omega
      have h2 : ¬ (161 ≤ c) := by omega
      simp [isPrint, h1, h2]
    have he : encodeRune c = [c] := by simp [encodeRune, hc]
    simp only [List.map_cons, List.filter_cons, hp]
    split
    · simp [List.flatMap_cons, he, ih hs]
    · simp [ih hs]

theorem trimSpace_ascii (s : GoString) (h : ∀ b ∈ s, b < 128) :
    trimSpace s = ((s.dropWhile isSpace).reverse.dropWhile isSpace).reverse := by
  rw [trimSpace, runes_ascii s h]
  have e1 : ∀ t : GoString, (t.map (fun b => (b, [b]))).dropWhile (fun p : Nat × GoString => isSpace p.1)
      = (t.dropWhile isSpace).map (fun b => (b, [b])) := by
    intro t
    induction t with
    | nil => rfl
    | cons c t ih =>
      simp only [List.map_cons, List.dropWhile_cons]
      split <;> simp_all
  rw [e1, ← List.map_reverse, e1, ← List.map_reverse, flatMap_map_singleton]

theorem dropWhile_eq_self_of_head {α} (p : α → Bool) (l : List α)
    (h : ∀ a, l.head? = some a → p a = false) : l.dropWhile p = l := by
  cases l with
  | nil => rfl
  | cons a l => simp [List.dropWhile_cons, h a rfl]

/-- `html2text` of a paragraph of printable ASCII text without markup. -/
theorem html2text_wrapped_p (L : Lib) (t : GoString) (hp : ∀ b ∈ t, 32 ≤ b ∧ b ≤ 126)
    (h60 : 60 ∉ t) (h38 : 38 ∉ t)
    (hhead : t.head? ≠ some 32) (hlast : t.getLast? ≠ some 32) :
    html2text L (lit "<p>" ++ t ++ lit "</p>") = t := by
  have key : ∀ (old new x : GoString), replaceAllAux (60 :: old) new 0 (t ++ x)
      = t ++ replaceAllAux (60 :: old) new 0 x :=
    fun old new x => replaceAllAux_append_of_not_mem 60 old new t x h60
  have l1 : lit "<p>" = [60, 112, 62] := by decide
  have l2 : lit "</p>" = [60, 47, 112, 62] := by decide
  have l3 : lit "<br>" = [60, 98, 114, 62] := by decide
  have l4 : lit "<br/>" = [60, 98, 114, 47, 62] := by decide
  have l5 : lit "<br />" = [60, 98, 114, 32, 47, 62] := by decide
  have l6 : lit "</div>" = [60, 47, 100, 105, 118, 62] := by decide
  have hascii : ∀ b ∈ t ++ [10], b < 128 := by
    intro b hb
    rcases List.mem_append.1 hb with hb | hb
    · have := hp b hb; omega
    · simp at hb; omega
  have hE2 : 0xE2 ∉ t ++ [10] := by
    intro hb
    have := hascii _ hb
    omega
  have h60' : 60 ∉ t ++ [10] := by simp [h60]
  have h38' : 38 ∉ t ++ [10] := by simp [h38]
  have step1 : replaceAll (replaceAll (replaceAll (replaceAll (replaceAll
      (lit "<p>" ++ t ++ lit "</p>") (lit "<br>") [10]) (lit "<br/>") [10]) (lit "<br />") [10])
      (lit "</p>") [10]) (lit "</div>") [10] = 60 :: 112 :: 62 :: (t ++ [10]) := by
    rw [l1, l2, l3, l4, l5, l6]
    simp [replaceAll, replaceAllAux, List.isPrefixOf, key]
  have step2 : stripTags (60 :: 112 :: 62 :: (t ++ [10])) = t ++ [10] := by
    simp [stripTags, stripTagsAux, stripTagsAux_of_not_mem _ h60']
  have step3 : removeNonPrintable L (t ++ [10]) = t := by
    rw [removeNonPrintable_ascii L _ hascii, List.filter_append]
    have : t.filter (fun b => decide (0x20 ≤ b) && decide (b ≤ 0x7E)) = t := by
      rw [List.filter_eq_self]
      intro b hb
      have := hp b hb
      simp [this.1, this.2]
    simp [this]
  have hascii' : ∀ b ∈ t, b < 128 := fun b hb => by have := hp b hb; omega
  have hsp : ∀ b ∈ t, isSpace b = true → b = 32 := by
    intro b hb hs
    have := hp b hb
    simp [isSpace] at hs
    omega
  have step4 : trimSpace t = t := by
    rw [trimSpace_ascii t hascii']
    have e1 : t.dropWhile isSpace = t := by
      apply dropWhile_eq_self_of_head
      intro a ha
      by_contra hs
      have hs' : isSpace a = true := by simpa using hs
      have hm : a ∈ t := List.mem_of_mem_head? ha
      exact hhead (by rw [ha, hsp a hm hs'])
    have e2 : t.reverse.dropWhile isSpace = t.reverse := by
      apply dropWhile_eq_self_of_head
      intro a ha
      by_contra hs
      have hs' : isSpace a = true := by simpa using hs
      rw [List.head?_reverse] at ha
      have hm : a ∈ t := List.mem_of_mem_getLast? ha
      exact hlast (by rw [ha, hsp a hm hs'])
    rw [e1, e2, List.reverse_reverse]
  unfold html2text
  simp only [step1, step2]
  rw [unescapeString, if_neg h38']
  rw [replaceAll_of_not_mem _ _ _ _ hE2, replaceAll_of_not_mem _ _ _ _ hE2,
    replaceAll_of_not_mem _ _ _ _ hE2, replaceAll_of_not_mem _ _ _ _ hE2,
    replaceAll_of_not_mem _ _ _ _ hE2, step3, step4]

/-- `html2text` of ASCII text without `<` and `&`: the printable bytes, trimmed. -/
theorem html2text_plain_ascii (L : Lib) (s : GoString) (hascii : ∀ b ∈ s, b < 128)
    (h60 : 60 ∉ s) (h38 : 38 ∉ s) :
    html2text L s
      = (((s.filter (fun b => 0x20 ≤ b && b ≤ 0x7E)).dropWhile isSpace).reverse.dropWhile
          isSpace).reverse := by
  have hE2 : 0xE2 ∉ s := fun hb => by have := hascii _ hb; omega
  have l3 : lit "<br>" = [60, 98, 114, 62] := by decide
  have l4 : lit "<br/>" = [60, 98, 114, 47, 62] := by decide
  have l5 : lit "<br />" = [60, 98, 114, 32, 47, 62] := by decide
  have l2 : lit "</p>" = [60, 47, 112, 62] := by decide
  have l6 : lit "</div>" = [60, 47, 100, 105, 118, 62] := by decide
  unfold html2text
  simp only [l2, l3, l4, l5, l6]
  rw [replaceAll_of_not_mem _ _ _ _ h60, replaceAll_of_not_mem _ _ _ _ h60,
    replaceAll_of_not_mem _ _ _ _ h60, replaceAll_of_not_mem _ _ _ _ h60,
    replaceAll_of_not_mem _ _ _ _ h60, stripTags, stripTagsAux_of_not_mem _ h60,
    unescapeString, if_neg h38,
    replaceAll_of_not_mem _ _ _ _ hE2, replaceAll_of_not_mem _ _ _ _ hE2,
    replaceAll_of_not_mem _ _ _ _ hE2, replaceAll_of_not_mem _ _ _ _ hE2,
    replaceAll_of_not_mem _ _ _ _ hE2, removeNonPrintable_ascii L s hascii,
    trimSpace_ascii]
  intro b hb
  exact hascii b (List.mem_of_mem_filter hb)

theorem html2text_spaces (L : Lib) (n : Nat) : html2text L (List.replicate n 32) = [] := by
  rw [html2text_plain_ascii L _ (fun b hb => by rw [List.eq_of_mem_replicate hb]; omega)
    (fun h => by have := List.eq_of_mem_replicate h; omega)
    (fun h => by have := List.eq_of_mem_replicate h; omega)]
  have h1 : (List.replicate n 32).filter (fun b => decide (0x20 ≤ b) && decide (b ≤ 0x7E))
      = List.replicate n 32 := by
    rw [List.filter_eq_self]
    intro b hb
    rw [List.eq_of_mem_replicate hb]
    decide
  have h2 : (List.replicate n 32).dropWhile isSpace = [] := by
    rw [List.dropWhile_eq_nil_iff]
    intro b hb
    rw [List.eq_of_mem_replicate hb]
    decide
  rw [h1, h2]
  rfl

/-! ### Phase one: what handling a listed object changes -/

theorem SyncFrame.refl (w : World) (key : GoString) : SyncFrame w w key :=
  ⟨rfl, rfl, fun _ _ => rfl, fun _ h => h, fun _ _ => rfl, fun _ _ => rfl⟩

theorem SyncFrame.trans {w1 w2 w3 : World} {key : GoString}
    (h12 : SyncFrame w1 w2 key) (h23 : SyncFrame w2 w3 key) : SyncFrame w1 w3 key where
  emails := h23.emails.trans h12.emails
  users := h23.users.trans h12.users
  objects_other := fun k hk => (h23.objects_other k hk).trans (h12.objects_other k hk)
  objects_none := fun k hk => h23.objects_none k (h12.objects_none k hk)
  deletes_other := fun k hk => (h23.deletes_other k hk).trans (h12.deletes_other k hk)
  staged_other := fun k hk => (h23.staged_other k hk).trans (h12.staged_other k hk)

theorem record_frame (w : World) (e : Event) (key : GoString)
    (he : ∀ k, k ≠ key → e ≠ .deleteObject k) : SyncFrame w (w.record e) key where
  emails := rfl
  users := rfl
  objects_other := fun _ _ => rfl
  objects_none := fun _ h => h
  deletes_other := fun k hk => by
    have := he k hk
    simp [World.record, List.count_append, List.count_cons, this]
  staged_other := fun _ _ => rfl

theorem deleteObject_frame (w : World) (key : GoString) (fails : Bool) :
    SyncFrame w (deleteObject w key fails).1 key := by
  cases fails
  · refine ⟨rfl, rfl, ?_, ?_, ?_, fun _ _ => rfl⟩
    · intro k hk; simp [deleteObject, hk, World.record]
    · intro k hk; simp [deleteObject, hk, World.record]
    · intro k hk
      have : ¬ key = k := fun h => hk h.symm
      simp [deleteObject, World.record, List.count_append, List.count_cons, this]
  · refine ⟨rfl, rfl, fun _ _ => rfl, fun _ h => h, ?_, fun _ _ => rfl⟩
    intro k hk
    have : ¬ key = k := fun h => hk h.symm
    simp [deleteObject, World.record, List.count_append, List.count_cons, this]

theorem storeRawEmail_frame (L : Lib) (w : World) (key c : GoString) (f : SyncFaults) :
    SyncFrame w (storeRawEmail L w key c f).1 key := by
  unfold storeRawEmail
  cases hx : extractRecipientEmail L c with
  | error e => exact SyncFrame.refl w key
  | ok p =>
    obtain ⟨addr, date⟩ := p
    simp only [selectUserID, DeleteS3ByMessageID, deleteObject, insertIncoming]
    cases hu : (if f.selectUser = true then none
        else Option.map (fun u => u.id) (List.find? (fun u => decide (u.email = addr)) w.users)) with
    | some uid =>
      cases hi : f.insert <;>
      · refine ⟨rfl, rfl, fun _ _ => rfl, fun _ h => h, ?_, ?_⟩
        · intro k hk
          simp [World.record, List.count_append, List.count_cons]
        · intro k hk
          have : ¬ key = k := fun h => hk h.symm
          simp [World.record, stagedFor, List.filter_append, List.filter_cons, this]
    | none =>
      cases hd : f.deleteUnknown <;> cases hi : f.insert <;>
      · refine ⟨rfl, rfl, ?_, ?_, ?_, ?_⟩
        · intro k hk
          simp [World.record, hk]
        · intro k hk
          simp [World.record, hk]
        · intro k hk
          have : ¬ key = k := fun h => hk h.symm
          simp [World.record, List.count_append, List.count_cons, this]
        · intro k hk
          have : ¬ key = k := fun h => hk h.symm
          simp [World.record, stagedFor, List.filter_append, List.filter_cons, this]

/-- Handling one listed object touches only what belongs to its key. -/
theorem syncObject_frame (L : Lib) (w : World) (o : Listed) :
    SyncFrame w (syncObject L w o) o.key := by
  unfold syncObject
  simp only []
  split
  · exact SyncFrame.refl w o.key
  · have h1 : SyncFrame w (w.record (.getObject o.key)) o.key :=
      record_frame w _ o.key (fun _ _ => by simp)
    simp only [getObject, bufferBytes]
    split
    · rename_i w1 heq
      simp only [Prod.mk.injEq] at heq
      rw [← heq.1]; exact h1
    · rename_i w1 body heq
      simp only [Prod.mk.injEq] at heq
      rw [← heq.1]
      have h2 := storeRawEmail_frame L (w.record (.getObject o.key)) o.key body o.faults
      split
      · rename_i w2 e heq2
        have : w2 = (storeRawEmail L (w.record (.getObject o.key)) o.key body o.faults).1 := by
          rw [heq2]
        rw [this]; exact h1.trans h2
      · rename_i w2 heq2
        have : w2 = (storeRawEmail L (w.record (.getObject o.key)) o.key body o.faults).1 := by
          rw [heq2]
        rw [this]
        exact (h1.trans h2).trans (deleteObject_frame _ _ _)

theorem storeRawEmail_fetched (L : Lib) (w : World) (key c : GoString) (f : SyncFaults) :
    fetchedKeys (storeRawEmail L w key c f).1.trace = fetchedKeys w.trace := by
  unfold storeRawEmail
  cases hx : extractRecipientEmail L c with
  | error e => rfl
  | ok p =>
    obtain ⟨addr, date⟩ := p
    simp only [selectUserID, DeleteS3ByMessageID, deleteObject, insertIncoming]
    cases hu : (if f.selectUser = true then none
        else Option.map (fun u => u.id) (List.find? (fun u => decide (u.email = addr)) w.users)) with
    | some uid =>
      cases hi : f.insert <;> simp [World.record, fetchedKeys, List.filterMap_append]
    | none =>
      cases hd : f.deleteUnknown <;> cases hi : f.insert <;>
        simp [World.record, fetchedKeys, List.filterMap_append]

theorem syncObject_of_fetched (L : Lib) (w : World) (o : Listed) (body : GoString)
    (hkey : o.key ≠ []) (hget : o.faults.getObject = false) (hbody : w.objects o.key = some body) :
    syncObject L w o =
      if (storeRawEmail L (w.record (.getObject o.key)) o.key body o.faults).2.isSome then
        (storeRawEmail L (w.record (.getObject o.key)) o.key body o.faults).1
      else
        (deleteObject (storeRawEmail L (w.record (.getObject o.key)) o.key body o.faults).1
          o.key o.faults.deleteObject).1 := by
  have hb : (w.record (.getObject o.key)).objects o.key = some body := hbody
  simp only [syncObject, hkey, getObject, hget, hb, hbody, bufferBytes, if_false,
    Bool.false_eq_true]
  rcases storeRawEmail L (w.record (.getObject o.key)) o.key body o.faults with ⟨w2, _ | e⟩ <;> simp

theorem syncObject_of_not_fetched (L : Lib) (w : World) (o : Listed)
    (hkey : o.key ≠ []) (h : o.faults.getObject = true ∨ w.objects o.key = none) :
    syncObject L w o = w.record (.getObject o.key) := by
  have hb : (w.record (.getObject o.key)).objects o.key = w.objects o.key := rfl
  rcases h with h | h
  · simp [syncObject, hkey, getObject, h]
  · simp [syncObject, hkey, getObject, hb, h]

theorem syncObject_fetched (L : Lib) (w : World) (o : Listed) :
    fetchedKeys (syncObject L w o).trace
      = fetchedKeys w.trace ++ (if o.key = [] then [] else [o.key]) := by
  by_cases hkey : o.key = []
  · simp [syncObject, hkey]
  · have hrec : fetchedKeys (w.record (.getObject o.key)).trace = fetchedKeys w.trace ++ [o.key] := by
      simp [World.record, fetchedKeys, List.filterMap_append]
    rw [if_neg hkey]
    by_cases hget : o.faults.getObject = true
    · rw [syncObject_of_not_fetched L w o hkey (Or.inl hget), hrec]
    · cases hb : w.objects o.key with
      | none => rw [syncObject_of_not_fetched L w o hkey (Or.inr hb), hrec]
      | some body =>
        rw [syncObject_of_fetched L w o body hkey (by simpa using hget) hb]
        have h2 := storeRawEmail_fetched L (w.record (.getObject o.key)) o.key body o.faults
        rw [hrec] at h2
        split
        · exact h2
        · rw [← h2]
          cases o.faults.deleteObject <;>
            simp [deleteObject, World.record, fetchedKeys, List.filterMap_append]

theorem storeRawEmail_of_error (L : Lib) (w : World) (key c : GoString) (f : SyncFaults)
    (e : Err) (hx : extractRecipientEmail L c = .error e) :
    storeRawEmail L w key c f = (w, some e) := by
  simp [storeRawEmail, hx]

theorem storeRawEmail_of_known (L : Lib) (w : World) (key c : GoString) (f : SyncFaults)
    (addr : GoString) (date : Nat) (u : UserRow)
    (hx : extractRecipientEmail L c = .ok (addr, date)) (hsel : f.selectUser = false)
    (hu : w.users.find? (fun u => u.email = addr) = some u) :
    storeRawEmail L w key c f =
      if f.insert then
        ((w.record (.selectUser addr)).record (.insertIncoming key), some .insertRawEmail)
      else
        ({ (w.record (.selectUser addr)).record (.insertIncoming key) with
            incoming_emails := w.incoming_emails ++
              [{ id := w.incomingSeq, email_send_to := addr, message_id := key,
                 email_data := c, created_at := f.now, processed := false,
                 email_date := date }]
            incomingSeq := w.incomingSeq + 1 }, none) := by
  have hu' : (w.record (.selectUser addr)).users.find? (fun u => u.email = addr) = some u := hu
  cases hi : f.insert <;>
    simp [storeRawEmail, hx, selectUserID, hsel, hu, hu', insertIncoming, hi, World.record]

theorem storeRawEmail_of_unknown (L : Lib) (w : World) (key c : GoString) (f : SyncFaults)
    (addr : GoString) (date : Nat)
    (hx : extractRecipientEmail L c = .ok (addr, date))
    (hu : f.selectUser = true ∨ w.users.find? (fun u => u.email = addr) = none)
    (hdel : f.deleteUnknown = false) :
    (storeRawEmail L w key c f).1.objects key = none := by
  have hlook : (selectUserID w addr f.selectUser).2 = none := by
    rcases hu with h | h
    · simp [selectUserID, h]
    · simp only [selectUserID, World.record]
      rw [h]
      simp
  simp only [selectUserID] at hlook
  cases hi : f.insert <;>
    simp [storeRawEmail, hx, selectUserID, hlook, DeleteS3ByMessageID, deleteObject, hdel,
      insertIncoming, hi, World.record]

theorem foldl_pages {α β : Type} (f : α → β → α) (pages : List (List β)) (a : α) :
    pages.foldl (fun a page => page.foldl f a) a = pages.flatten.foldl f a := by
  induction pages generalizing a with
  | nil => rfl
  | cons p ps ih => simp [List.foldl_append, ih]

/-- `SyncEmails` handles the objects of all pages in listing order. -/
theorem SyncEmails_eq (L : Lib) (w : World) (pages : List (List Listed)) (listFails : Bool) :
    SyncEmails L w false pages listFails =
      (pages.flatten.foldl (syncObject L) w, if listFails then some .listObjects else none) := by
  simp only [SyncEmails, foldl_pages]
  cases listFails <;> simp

theorem foldl_syncObject_frame (L : Lib) (objs : List Listed) (w : World) (key : GoString)
    (h : ∀ p ∈ objs, p.key ≠ key) :
    (objs.foldl (syncObject L) w).objects key = w.objects key ∧
    (objs.foldl (syncObject L) w).trace.count (.deleteObject key)
      = w.trace.count (.deleteObject key) ∧
    stagedFor (objs.foldl (syncObject L) w) key = stagedFor w key := by
  induction objs generalizing w with
  | nil => exact ⟨rfl, rfl, rfl⟩
  | cons o objs ih =>
    have ho : key ≠ o.key := fun e => h o (by simp) e.symm
    have hf := syncObject_frame L w o
    have := ih (syncObject L w o) (fun p hp => h p (by simp [hp]))
    simp only [List.foldl_cons]
    rw [this.1, this.2.1, this.2.2, hf.objects_other key ho, hf.deletes_other key ho,
      hf.staged_other key ho]
    exact ⟨rfl, rfl, rfl⟩

theorem foldl_syncObject_global (L : Lib) (objs : List Listed) (w : World) :
    (objs.foldl (syncObject L) w).emails = w.emails ∧
    (objs.foldl (syncObject L) w).users = w.users ∧
    (∀ k, w.objects k = none → (objs.foldl (syncObject L) w).objects k = none) := by
  induction objs generalizing w with
  | nil => exact ⟨rfl, rfl, fun _ h => h⟩
  | cons o objs ih =>
    have hf := syncObject_frame L w o
    have := ih (syncObject L w o)
    simp only [List.foldl_cons]
    refine ⟨this.1.trans hf.emails, this.2.1.trans hf.users, fun k hk => ?_⟩
    exact this.2.2 k (hf.objects_none k hk)

theorem foldl_syncObject_fetched (L : Lib) (objs : List Listed) (w : World) :
    fetchedKeys (objs.foldl (syncObject L) w).trace
      = fetchedKeys w.trace ++ (objs.map (fun o => o.key)).filter (fun k => k ≠ []) := by
  induction objs generalizing w with
  | nil => simp
  | cons o objs ih =>
    simp only [List.foldl_cons, ih, syncObject_fetched, List.map_cons, List.filter_cons]
    by_cases hk : o.key = [] <;> simp [hk]

theorem syncObject_retained (L : Lib) (w : World) (o : Listed) (body : GoString)
    (hbody : w.objects o.key = some body)
    (h : (∃ e, extractRecipientEmail L body = .error e) ∨
      (∃ addr date u, extractRecipientEmail L body = .ok (addr, date) ∧
        o.faults.selectUser = false ∧ w.users.find? (fun u => u.email = addr) = some u ∧
        o.faults.insert = true)) :
    (syncObject L w o).objects o.key = some body ∧
    (syncObject L w o).trace.count (.deleteObject o.key) = w.trace.count (.deleteObject o.key) ∧
    (syncObject L w o).incoming_emails = w.incoming_emails ∧
    (syncObject L w o).emails = w.emails := by
  have hrec : ∀ e : Event, e ≠ .deleteObject o.key →
      (w.record e).trace.count (.deleteObject o.key) = w.trace.count (.deleteObject o.key) := by
    intro e he
    simp [World.record, List.count_append, List.count_cons, he]
  by_cases hkey : o.key = []
  · simp [syncObject, hkey] at hbody ⊢
    exact hbody
  by_cases hget : o.faults.getObject = true
  · rw [syncObject_of_not_fetched L w o hkey (Or.inl hget)]
    exact ⟨hbody, hrec _ (by simp), rfl, rfl⟩
  rw [syncObject_of_fetched L w o body hkey (by simpa using hget) hbody]
  rcases h with ⟨e, he⟩ | ⟨addr, date, u, hx, hsel, hu, hins⟩
  · rw [storeRawEmail_of_error L (w.record (.getObject o.key)) o.key body o.faults e he]
    exact ⟨hbody, hrec _ (by simp), rfl, rfl⟩
  · rw [storeRawEmail_of_known L (w.record (.getObject o.key)) o.key body o.faults addr date u
      hx hsel hu]
    simp only [hins, if_true, Option.isSome_some]
    refine ⟨hbody, ?_, rfl, rfl⟩
    simp [World.record, List.count_append, List.count_cons]

/-! ### Phase two: uploads, inserts and the retention step -/

/-- The attachment loop leaves the database tables alone, whatever its
uploads do. -/
theorem uploadAttachments_frame (cfg : Config) (emailID : GoString) (atts : List Part)
    (w : World) (initFails fails : Nat → Bool) (acc : List GoString) :
    (uploadAttachments cfg emailID w initFails fails atts acc).1.users = w.users ∧
    (uploadAttachments cfg emailID w initFails fails atts acc).1.emails = w.emails ∧
    (uploadAttachments cfg emailID w initFails fails atts acc).1.emailSeq = w.emailSeq ∧
    (uploadAttachments cfg emailID w initFails fails atts acc).1.incoming_emails
      = w.incoming_emails := by
  induction atts generalizing w initFails fails acc with
  | nil => simp [uploadAttachments]
  | cons att rest ih =>
    cases hi : initFails 0
    · cases hf : fails 0
      · have := ih ({ w.record (.putObject (lit "attachments/" ++ emailID ++ lit "/" ++ att.FileName))
            with objects := fun k =>
              if k = lit "attachments/" ++ emailID ++ lit "/" ++ att.FileName then some att.Content
              else w.objects k }) (fun i => initFails (i + 1)) (fun i => fails (i + 1))
          (acc ++ [attachmentURL cfg emailID att])
        simpa [uploadAttachments, UploadAttachment, putObject, hi, hf, World.record,
          attachmentURL] using this
      · have := ih (w.record (.putObject (lit "attachments/" ++ emailID ++ lit "/"
            ++ att.FileName))) (fun i => initFails (i + 1)) (fun i => fails (i + 1)) acc
        simpa [uploadAttachments, UploadAttachment, putObject, hi, hf, World.record] using this
    · simp [uploadAttachments, UploadAttachment, hi]

/-- When every session is created, the attachment loop does not panic: it
collects the URLs of the successful uploads, and leaves the database tables
alone. -/
theorem uploadAttachments_spec (cfg : Config) (emailID : GoString) (atts : List Part)
    (w : World) (initFails fails : Nat → Bool) (i0 : Nat) (acc : List GoString)
    (hsess : ∀ i, initFails i = false) :
    (uploadAttachments cfg emailID w initFails (fun i => fails (i0 + i)) atts acc).2
      = some (acc ++ successfulURLs cfg emailID fails i0 atts) ∧
    (uploadAttachments cfg emailID w initFails (fun i => fails (i0 + i)) atts acc).1.users
      = w.users ∧
    (uploadAttachments cfg emailID w initFails (fun i => fails (i0 + i)) atts acc).1.emails
      = w.emails ∧
    (uploadAttachments cfg emailID w initFails (fun i => fails (i0 + i)) atts acc).1.emailSeq
      = w.emailSeq ∧
    (uploadAttachments cfg emailID w initFails (fun i => fails (i0 + i)) atts acc).1.incoming_emails
      = w.incoming_emails := by
  refine ⟨?_, uploadAttachments_frame cfg emailID atts w initFails _ acc⟩
  induction atts generalizing w initFails i0 acc with
  | nil => simp [uploadAttachments, successfulURLs]
  | cons att rest ih =>
    have hshift : (fun i => fails (i0 + (i + 1))) = (fun i => fails (i0 + 1 + i)) := by
      funext i; congr 1; omega
    have hi : initFails 0 = false := hsess 0
    have hs : ∀ i, (fun i => initFails (i + 1)) i = false := fun i => hsess (i + 1)
    cases hf : fails i0
    · have := ih ({ w.record (.putObject (lit "attachments/" ++ emailID ++ lit "/" ++ att.FileName))
          with objects := fun k =>
            if k = lit "attachments/" ++ emailID ++ lit "/" ++ att.FileName then some att.Content
            else w.objects k }) (fun i => initFails (i + 1)) (i0 + 1)
        (acc ++ [attachmentURL cfg emailID att]) hs
      simpa [uploadAttachments, UploadAttachment, putObject, hi, hf, successfulURLs, hshift,
        attachmentURL, World.record] using this
    · have := ih (w.record (.putObject (lit "attachments/" ++ emailID ++ lit "/" ++ att.FileName)))
        (fun i => initFails (i + 1)) (i0 + 1) acc hs
      simpa [uploadAttachments, UploadAttachment, putObject, hi, hf, successfulURLs, hshift,
        World.record] using this

theorem processRawEmail_emails (L : Lib) (cfg : Config) (w : World)
    (emailSendTo : GoString) (rawEmail : IncomingRow) (f : MsgFaults) :
    ∃ l : List EmailRow, l.length ≤ 1 ∧
      (processRawEmail L cfg w emailSendTo rawEmail f).1.emails = w.emails ++ l := by
  unfold processRawEmail
  cases henv : L.ReadEnvelope rawEmail.email_data with
  | none => exact ⟨[], by simp, by simp⟩
  | some env =>
    have hup := uploadAttachments_frame cfg rawEmail.message_id env.Attachments w f.session
      f.upload []
    obtain ⟨-, hemails, -, -⟩ := hup
    simp only
    rcases hres : uploadAttachments cfg rawEmail.message_id w f.session f.upload
      env.Attachments [] with ⟨w1, _ | urls⟩
    · rw [hres] at hemails
      exact ⟨[], by simp, by simpa using hemails⟩
    rw [hres] at hemails
    simp only at hemails
    simp only [selectUserID, World.record]
    cases hlook : (if f.selectUser = true then none
        else Option.map (fun u => u.id)
          (List.find? (fun u => decide (u.email = emailSendTo)) w1.users)) with
    | none => exact ⟨[], by simp, by simp [hemails]⟩
    | some uid =>
      simp only
      cases hfrom : parseAddresses L (env.GetHeader (lit "From")) with
      | nil => exact ⟨[], by simp, by simp [World.record, hemails]⟩
      | cons from0 froms =>
        simp only
        cases hins : f.insert
        · cases hd : f.deleteIncoming <;>
            exact ⟨[_], by simp, by
              simp [insertEmail, hins, deleteIncoming, hd, World.record, hemails]; rfl⟩
        · exact ⟨[], by simp, by simp [insertEmail, hins, World.record, hemails]⟩

theorem inboxRows_length_append_le (w w' : World) (l : List EmailRow) (u : Int)
    (h : w'.emails = w.emails ++ l) :
    (inboxRows w' u).length ≤ (inboxRows w u).length + l.length := by
  simp only [inboxRows, h, List.filter_append, List.length_append]
  have := List.length_filter_le (fun e => decide (e.user_id = u ∧ e.email_type = lit "inbox")) l
  omega

theorem processRawEmails_inbox_le (L : Lib) (cfg : Config) (emailSendTo : GoString)
    (rows : List IncomingRow) (w : World) (f : Nat → MsgFaults) (u : Int) :
    (inboxRows (processRawEmails L cfg emailSendTo w f rows).1 u).length
      ≤ (inboxRows w u).length + rows.length := by
  induction rows generalizing w f with
  | nil => simp [processRawEmails]
  | cons r rows ih =>
    obtain ⟨l, hl, he⟩ := processRawEmail_emails L cfg w emailSendTo r (f 0)
    have h1 := inboxRows_length_append_le w _ l u he
    unfold processRawEmails
    rcases hres : processRawEmail L cfg w emailSendTo r (f 0) with ⟨w1, flag⟩
    rw [hres] at h1
    simp only at h1
    cases flag
    · have := ih w1 (fun i => f (i + 1))
      simp only [List.length_cons]
      omega
    · simp only [List.length_cons]
      omega

theorem oldestRow_mem (l : List EmailRow) (r : EmailRow) (h : oldestRow l = some r) : r ∈ l := by
  induction l generalizing r with
  | nil => simp [oldestRow] at h
  | cons a l ih =>
    unfold oldestRow at h
    cases hb : oldestRow l with
    | none =>
      rw [hb] at h
      simp only [Option.some.injEq] at h
      simp [← h]
    | some b =>
      rw [hb] at h
      simp only at h
      split at h
      · simp only [Option.some.injEq] at h
        rw [← h]
        exact List.mem_cons_of_mem _ (ih b hb)
      · simp only [Option.some.injEq] at h
        simp [← h]

/-- The retention step never adds an inbox row, and when it succeeds on an
inbox of more than 10 rows it removes at least one. -/
theorem enforceRetention_spec (w : World) (userID : Int) (f : ProcFaults) :
    (enforceRetention w userID f).1.incoming_emails = w.incoming_emails ∧
    (∀ u, (inboxRows (enforceRetention w userID f).1 u).length ≤ (inboxRows w u).length) ∧
    ((enforceRetention w userID f).2 = none → 10 < (inboxRows w userID).length →
      (inboxRows (enforceRetention w userID f).1 userID).length + 1
        ≤ (inboxRows w userID).length) := by
  have hrec : ∀ e, inboxRows (w.record e) = inboxRows w := fun _ => rfl
  unfold enforceRetention
  cases hc : f.countInbox
  · simp only [Bool.false_eq_true, if_false]
    by_cases hn : (inboxRows (w.record (.countInbox userID)) userID).length > 10
    · simp only [hn, if_true]
      cases hsel : (if f.selectOldest = true then none
          else oldestRow (inboxRows ((w.record (.countInbox userID)).record (.selectOldest userID))
            userID)) with
      | none => exact ⟨rfl, fun _ => le_rfl, by simp⟩
      | some oldest =>
        simp only
        cases hd : f.deleteOldest
        · have hmem : oldest ∈ inboxRows w userID := by
            by_cases hs : f.selectOldest = true
            · simp [hs] at hsel
            · simp only [hs, if_false] at hsel
              exact oldestRow_mem _ _ hsel
          have hfilter : ∀ u, inboxRows
              { ((w.record (.countInbox userID)).record (.selectOldest userID)).record
                  (.deleteEmail oldest.id) with
                emails := w.emails.filter (fun e => e.id ≠ oldest.id) } u
              = (inboxRows w u).filter (fun e => e.id ≠ oldest.id) := by
            intro u
            simp only [inboxRows, List.filter_filter]
            congr 1
            funext e
            simp [Bool.and_comm]
          refine ⟨rfl, fun u => ?_, fun _ _ => ?_⟩
          · simp only [deleteEmail, hd, Bool.false_eq_true, if_false, World.record] at hfilter ⊢
            rw [hfilter u]
            exact List.length_filter_le _ _
          · simp only [deleteEmail, hd, Bool.false_eq_true, if_false, World.record] at hfilter ⊢
            rw [hfilter userID]
            have : ((inboxRows w userID).filter (fun e => decide (e.id ≠ oldest.id))).length
                < (inboxRows w userID).length := by
              rw [List.length_filter_lt_length_iff_exists]
              exact ⟨oldest, hmem, by simp⟩
            omega
        · exact ⟨rfl, fun _ => le_rfl, by simp [deleteEmail, hd]⟩
    · simp only [hn, if_false]
      exact ⟨rfl, fun _ => le_rfl, fun _ h => absurd h hn⟩
  · simp only [if_true]
    exact ⟨rfl, fun _ => le_rfl, by simp⟩

/-- A call adds at most one inbox row per pending raw message, however it
ends. -/
theorem processIncomingEmails_inbox_le (L : Lib) (cfg : Config) (w : World)
    (userID : Int) (emailSendTo : GoString) (f : ProcFaults) (u : Int) :
    (inboxRows (processIncomingEmails L cfg w userID emailSendTo f).1 u).length
      ≤ (inboxRows w u).length + (pendingRows w emailSendTo).length := by
  obtain ⟨hinc, hle, -⟩ := enforceRetention_spec w userID f
  unfold processIncomingEmails
  rcases hres : enforceRetention w userID f with ⟨w1, _ | err⟩
  · rw [hres] at hinc hle
    simp only at hinc hle ⊢
    have h2 := hle u
    cases hs : f.selectIncoming
    · simp only [Bool.false_eq_true, if_false]
      have hpend : pendingRows (w1.record (.selectIncoming emailSendTo)) emailSendTo
          = pendingRows w emailSendTo := by
        simp [pendingRows, World.record, hinc]
      rw [hpend]
      have hloop := processRawEmails_inbox_le L cfg emailSendTo
        (pendingRows w emailSendTo) (w1.record (.selectIncoming emailSendTo)) f.message u
      have hrec : inboxRows (w1.record (.selectIncoming emailSendTo)) u = inboxRows w1 u := rfl
      rw [hrec] at hloop
      rcases hloop' : processRawEmails L cfg emailSendTo
        (w1.record (.selectIncoming emailSendTo)) f.message (pendingRows w emailSendTo)
        with ⟨w2, flag⟩
      rw [hloop'] at hloop
      simp only at hloop
      cases flag <;> simp only <;> omega
    · simp only [if_true]
      have hrec : inboxRows (w1.record (.selectIncoming emailSendTo)) u = inboxRows w1 u := rfl
      rw [hrec]
      omega
  · rw [hres] at hle
    simp only at hle ⊢
    have := hle u
    omega

/-! ### Further facts on previews, the ingestion loop and the single-phase handler -/

/-- `generatePreview` is the truncation of the cleaned text. -/
theorem generatePreview_eq_truncate200 (L : Lib) (plainText htmlBody : GoString) :
    generatePreview L plainText htmlBody
      = truncate200 (html2text L (if plainText ≠ [] then plainText else htmlBody)) := by
  unfold generatePreview truncate200
  by_cases hp : plainText = [] <;> simp [hp]

/-- The calls of the attachment loop are puts, whatever its uploads do. -/
theorem uploadAttachments_events (cfg : Config) (emailID : GoString) (atts : List Part)
    (w : World) (initFails fails : Nat → Bool) (acc : List GoString) :
    ∃ evs : List Event,
      (uploadAttachments cfg emailID w initFails fails atts acc).1.trace = w.trace ++ evs ∧
      ∀ e ∈ evs, ∃ k, e = Event.putObject k := by
  induction atts generalizing w initFails fails acc with
  | nil => exact ⟨[], by simp [uploadAttachments], by simp⟩
  | cons att rest ih =>
    cases hi : initFails 0
    · cases hf : fails 0
      · obtain ⟨evs, h1, h2⟩ := ih ({ w.record (.putObject (lit "attachments/" ++ emailID ++ lit "/" ++ att.FileName))
            with objects := fun k =>
              if k = lit "attachments/" ++ emailID ++ lit "/" ++ att.FileName then some att.Content
              else w.objects k }) (fun i => initFails (i + 1)) (fun i => fails (i + 1))
          (acc ++ [attachmentURL cfg emailID att])
        refine ⟨Event.putObject (lit "attachments/" ++ emailID ++ lit "/" ++ att.FileName) :: evs,
          ?_, ?_⟩
        · simpa [uploadAttachments, UploadAttachment, putObject, hi, hf, World.record,
            attachmentURL] using h1
        · intro e he
          rcases List.mem_cons.1 he with rfl | he
          · exact ⟨_, rfl⟩
          · exact h2 e he
      · obtain ⟨evs, h1, h2⟩ := ih (w.record (.putObject (lit "attachments/" ++ emailID
            ++ lit "/" ++ att.FileName))) (fun i => initFails (i + 1)) (fun i => fails (i + 1))
          acc
        refine ⟨Event.putObject (lit "attachments/" ++ emailID ++ lit "/" ++ att.FileName) :: evs,
          ?_, ?_⟩
        · simpa [uploadAttachments, UploadAttachment, putObject, hi, hf, World.record] using h1
        · intro e he
          rcases List.mem_cons.1 he with rfl | he
          · exact ⟨_, rfl⟩
          · exact h2 e he
    · exact ⟨[], by simp [uploadAttachments, UploadAttachment, hi], by simp⟩

/-- When every session is created, the attachment loop issues one put per
attachment, in order. -/
theorem uploadAttachments_trace (cfg : Config) (emailID : GoString) (atts : List Part)
    (w : World) (initFails fails : Nat → Bool) (acc : List GoString)
    (hsess : ∀ i, initFails i = false) :
    (uploadAttachments cfg emailID w initFails fails atts acc).1.trace
      = w.trace ++ atts.map (fun att =>
          Event.putObject (lit "attachments/" ++ emailID ++ lit "/" ++ att.FileName)) := by
  induction atts generalizing w initFails fails acc with
  | nil => simp [uploadAttachments]
  | cons att rest ih =>
    have hi : initFails 0 = false := hsess 0
    have hs : ∀ i, (fun i => initFails (i + 1)) i = false := fun i => hsess (i + 1)
    cases hf : fails 0 <;>
      simp [uploadAttachments, UploadAttachment, putObject, hi, hf, ih _ _ _ _ hs, World.record]

/-- The puts of the attachment loop are those of a prefix of the attachment
list: the loop stops at the first attachment whose session is not created. -/
theorem uploadAttachments_puts (cfg : Config) (emailID : GoString) (atts : List Part)
    (w : World) (initFails fails : Nat → Bool) (acc : List GoString) :
    ∃ n, n ≤ atts.length ∧
      (uploadAttachments cfg emailID w initFails fails atts acc).1.trace
        = w.trace ++ (atts.take n).map (fun att =>
            Event.putObject (lit "attachments/" ++ emailID ++ lit "/" ++ att.FileName)) ∧
      (n < atts.length → initFails n = true) := by
  induction atts generalizing w initFails fails acc with
  | nil => exact ⟨0, by simp, by simp [uploadAttachments], by simp⟩
  | cons att rest ih =>
    cases hi : initFails 0
    · cases hf : fails 0
      · obtain ⟨n, hn, h1, h2⟩ := ih ({ w.record (.putObject (lit "attachments/" ++ emailID ++ lit "/" ++ att.FileName))
            with objects := fun k =>
              if k = lit "attachments/" ++ emailID ++ lit "/" ++ att.FileName then some att.Content
              else w.objects k }) (fun i => initFails (i + 1)) (fun i => fails (i + 1))
          (acc ++ [attachmentURL cfg emailID att])
        refine ⟨n + 1, by simpa using hn, ?_, fun h => h2 (by simpa using h)⟩
        simpa [uploadAttachments, UploadAttachment, putObject, hi, hf, World.record,
          attachmentURL] using h1
      · obtain ⟨n, hn, h1, h2⟩ := ih (w.record (.putObject (lit "attachments/" ++ emailID
            ++ lit "/" ++ att.FileName))) (fun i => initFails (i + 1)) (fun i => fails (i + 1))
          acc
        refine ⟨n + 1, by simpa using hn, ?_, fun h => h2 (by simpa using h)⟩
        simpa [uploadAttachments, UploadAttachment, putObject, hi, hf, World.record] using h1
    · exact ⟨0, by simp, by simp [uploadAttachments, UploadAttachment, hi], fun _ => hi⟩

theorem html2text_accented (L : Lib) : html2text L (accented 101) = accented 101 := by
  have h60 : 60 ∉ accented 101 := by decide
  have h38 : 38 ∉ accented 101 := by decide
  have hE2 : 0xE2 ∉ accented 101 := by decide
  have l3 : lit "<br>" = [60, 98, 114, 62] := by decide
  have l4 : lit "<br/>" = [60, 98, 114, 47, 62] := by decide
  have l5 : lit "<br />" = [60, 98, 114, 32, 47, 62] := by decide
  have l2 : lit "</p>" = [60, 47, 112, 62] := by decide
  have l6 : lit "</div>" = [60, 47, 100, 105, 118, 62] := by decide
  have hr : runes (accented 101) = List.replicate 101 (0xE9, [0xC3, 0xA9]) := by decide
  have hp : removeNonPrintable L (accented 101) = accented 101 := by
    unfold removeNonPrintable
    rw [hr, List.filter_eq_self.2 (fun p hp => by
      rw [List.eq_of_mem_replicate hp]; rfl)]
    decide
  have ht : trimSpace (accented 101) = accented 101 := by decide
  unfold html2text
  simp only [l2, l3, l4, l5, l6]
  rw [replaceAll_of_not_mem _ _ _ _ h60, replaceAll_of_not_mem _ _ _ _ h60,
    replaceAll_of_not_mem _ _ _ _ h60, replaceAll_of_not_mem _ _ _ _ h60,
    replaceAll_of_not_mem _ _ _ _ h60, stripTags, stripTagsAux_of_not_mem _ h60,
    unescapeString, if_neg h38,
    replaceAll_of_not_mem _ _ _ _ hE2, replaceAll_of_not_mem _ _ _ _ hE2,
    replaceAll_of_not_mem _ _ _ _ hE2, replaceAll_of_not_mem _ _ _ _ hE2,
    replaceAll_of_not_mem _ _ _ _ hE2, hp, ht]

/-- The row one iteration of the ingestion loop inserts, when the message
parses, has a sender, the session of every upload is created, and the user
lookup and the insert succeed. -/
theorem processRawEmail_row (L : Lib) (cfg : Config) (w : World)
    (emailSendTo : GoString) (rawEmail : IncomingRow) (f : MsgFaults) (env : Envelope)
    (from0 : EmailAddress) (froms : List EmailAddress) (u : UserRow)
    (henv : L.ReadEnvelope rawEmail.email_data = some env)
    (hfrom : parseAddresses L (env.GetHeader (lit "From")) = from0 :: froms)
    (hsess : ∀ i, f.session i = false)
    (hsel : f.selectUser = false)
    (hu : w.users.find? (fun u => u.email = emailSendTo) = some u)
    (hins : f.insert = false) :
    (processRawEmail L cfg w emailSendTo rawEmail f).1.emails = w.emails ++
      [{ id := w.emailSeq, user_id := u.id, sender_email := from0.Address,
         sender_name := from0.Name, subject := env.GetHeader (lit "Subject"),
         preview := generatePreview L env.Text env.HTML,
         body := if env.HTML ≠ [] then env.HTML else env.Text,
         email_type := lit "inbox",
         attachments := jsonMarshalStrings
           (successfulURLs cfg rawEmail.message_id f.upload 0 env.Attachments),
         message_id := rawEmail.message_id, timestamp := env.Date, created_at := f.now }] := by
  have hup := uploadAttachments_spec cfg rawEmail.message_id env.Attachments w f.session
    f.upload 0 [] hsess
  simp only [Nat.zero_add, List.nil_append] at hup
  obtain ⟨h2, husers, hemails, hseq, -⟩ := hup
  unfold processRawEmail
  simp only [henv, hfrom]
  rcases hres : uploadAttachments cfg rawEmail.message_id w f.session f.upload env.Attachments []
    with ⟨w1, urls⟩
  rw [hres] at h2 husers hemails hseq
  simp only at h2 husers hemails hseq
  subst h2
  have hu1 : w1.users.find? (fun u => u.email = emailSendTo) = some u := by rw [husers]; exact hu
  cases hd : f.deleteIncoming <;>
    simp [selectUserID, hsel, hu1, insertEmail, hins, deleteIncoming, hd, World.record,
      hemails, hseq]

/-- What one iteration of the ingestion loop does to table `emails` and to the
record of calls: it appends at most one row, none when the insert fails, and
it issues no delete on `emails`. -/
theorem processRawEmail_effects (L : Lib) (cfg : Config) (w : World)
    (emailSendTo : GoString) (rawEmail : IncomingRow) (f : MsgFaults) :
    ∃ (added : List EmailRow) (evs : List Event),
      (processRawEmail L cfg w emailSendTo rawEmail f).1.emails = w.emails ++ added ∧
      (processRawEmail L cfg w emailSendTo rawEmail f).1.trace = w.trace ++ evs ∧
      (∀ id, Event.deleteEmail id ∉ evs) ∧
      (f.insert = true → added = []) := by
  unfold processRawEmail
  cases henv : L.ReadEnvelope rawEmail.email_data with
  | none => exact ⟨[], [], by simp, by simp, by simp, fun _ => rfl⟩
  | some env =>
    have hup := uploadAttachments_frame cfg rawEmail.message_id env.Attachments w f.session
      f.upload []
    obtain ⟨puts, htr, hputs⟩ := uploadAttachments_events cfg rawEmail.message_id
      env.Attachments w f.session f.upload []
    have hnd : ∀ id, Event.deleteEmail id ∉ puts := by
      intro id hid
      obtain ⟨k, hk⟩ := hputs _ hid
      cases hk
    obtain ⟨-, hemails, -, -⟩ := hup
    simp only
    rcases hres : uploadAttachments cfg rawEmail.message_id w f.session f.upload
      env.Attachments [] with ⟨w1, _ | urls⟩
    · rw [hres] at hemails htr
      exact ⟨[], puts, by simpa using hemails, htr, hnd, fun _ => rfl⟩
    rw [hres] at hemails htr
    simp only at hemails htr
    simp only [selectUserID, World.record]
    cases hlook : (if f.selectUser = true then none
        else Option.map (fun u => u.id)
          (List.find? (fun u => decide (u.email = emailSendTo)) w1.users)) with
    | none =>
      refine ⟨[], puts ++ _, by simp [hemails], by simp only [htr, List.append_assoc]; rfl, ?_,
        fun _ => rfl⟩
      intro id
      simp [hnd id]
    | some uid =>
      simp only
      cases hfrom : parseAddresses L (env.GetHeader (lit "From")) with
      | nil =>
        refine ⟨[], puts ++ _, by simp [hemails], by simp only [htr, List.append_assoc]; rfl,
          ?_, fun _ => rfl⟩
        intro id
        simp [hnd id]
      | cons from0 froms =>
        simp only
        cases hins : f.insert
        · cases hd : f.deleteIncoming
          · refine ⟨[_], puts ++ _, by
              simp [insertEmail, hins, deleteIncoming, hd, World.record, hemails]; rfl, by
              simp only [insertEmail, hins, deleteIncoming, hd, World.record, htr,
                List.append_assoc, Bool.false_eq_true, if_false]; rfl, ?_, by simp⟩
            intro id
            simp [hnd id]
          · refine ⟨[_], puts ++ _, by
              simp [insertEmail, hins, deleteIncoming, hd, World.record, hemails]; rfl, by
              simp only [insertEmail, hins, deleteIncoming, hd, World.record, htr,
                List.append_assoc, Bool.false_eq_true, if_false, if_true]; rfl, ?_, by simp⟩
            intro id
            simp [hnd id]
        · refine ⟨[], puts ++ _, by simp [insertEmail, hins, World.record, hemails], by
            simp only [insertEmail, hins, World.record, htr, List.append_assoc, if_true]; rfl,
            ?_, fun _ => rfl⟩
          intro id
          simp [hnd id]

theorem processRawEmails_effects (L : Lib) (cfg : Config) (emailSendTo : GoString)
    (rows : List IncomingRow) (w : World) (f : Nat → MsgFaults) :
    ∃ (added : List EmailRow) (evs : List Event),
      (processRawEmails L cfg emailSendTo w f rows).1.emails = w.emails ++ added ∧
      (processRawEmails L cfg emailSendTo w f rows).1.trace = w.trace ++ evs ∧
      (∀ id, Event.deleteEmail id ∉ evs) ∧
      ((∀ i, (f i).insert = true) → added = []) := by
  induction rows generalizing w f with
  | nil => exact ⟨[], [], by simp [processRawEmails], by simp [processRawEmails], by simp,
      fun _ => rfl⟩
  | cons r rows ih =>
    obtain ⟨a1, e1, h1, h2, h3, h4⟩ := processRawEmail_effects L cfg w emailSendTo r (f 0)
    unfold processRawEmails
    rcases hres : processRawEmail L cfg w emailSendTo r (f 0) with ⟨w1, flag⟩
    rw [hres] at h1 h2
    simp only at h1 h2
    cases flag
    · obtain ⟨a2, e2, k1, k2, k3, k4⟩ := ih w1 (fun i => f (i + 1))
      refine ⟨a1 ++ a2, e1 ++ e2, ?_, ?_, ?_, ?_⟩
      · simp only [k1, h1, List.append_assoc]
      · simp only [k2, h2, List.append_assoc]
      · intro id hm
        rcases List.mem_append.1 hm with hm | hm
        · exact h3 id hm
        · exact k3 id hm
      · intro hall
        rw [h4 (hall 0), k4 (fun i => hall (i + 1))]
        rfl
    · exact ⟨a1, e1, h1, h2, h3, fun hall => h4 (hall 0)⟩

/-- The row `oldestRow` selects has the least `created_at`. -/
theorem oldestRow_min (l : List EmailRow) (r : EmailRow) (h : oldestRow l = some r) :
    ∀ a ∈ l, r.created_at ≤ a.created_at := by
  induction l generalizing r with
  | nil => simp
  | cons a l ih =>
    unfold oldestRow at h
    cases hb : oldestRow l with
    | none =>
      rw [hb] at h
      simp only [Option.some.injEq] at h
      have hl : l = [] := by
        cases l with
        | nil => rfl
        | cons c cs =>
          unfold oldestRow at hb
          split at hb
          · simp at hb
          · split at hb <;> simp at hb
      subst hl
      intro x hx
      simp only [List.mem_singleton] at hx
      rw [hx, h]
    | some b =>
      rw [hb] at h
      simp only at h
      have hmin := ih b hb
      split at h
      · simp only [Option.some.injEq] at h
        subst h
        intro x hx
        rcases List.mem_cons.1 hx with hx | hx
        · rw [hx]; omega
        · exact hmin x hx
      · simp only [Option.some.injEq] at h
        subst h
        intro x hx
        rcases List.mem_cons.1 hx with hx | hx
        · rw [hx]
        · have := hmin x hx
          omega

theorem oldestRow_isSome (l : List EmailRow) (h : l ≠ []) : ∃ r, oldestRow l = some r := by
  cases l with
  | nil => exact absurd rfl h
  | cons a l =>
    unfold oldestRow
    cases oldestRow l with
    | none => exact ⟨a, rfl⟩
    | some b =>
      simp only
      split
      · exact ⟨b, rfl⟩
      · exact ⟨a, rfl⟩

/-- The retention step on an inbox of more than 10 rows, when its three
database calls succeed: the row selected is an oldest inbox row of the user,
and the rows with its id are deleted. -/
theorem enforceRetention_evicts (w : World) (userID : Int) (f : ProcFaults)
    (hcount : 10 < (inboxRows w userID).length)
    (hc : f.countInbox = false) (hs : f.selectOldest = false) (hd : f.deleteOldest = false) :
    ∃ victim, victim ∈ inboxRows w userID ∧
      (∀ r ∈ inboxRows w userID, victim.created_at ≤ r.created_at) ∧
      enforceRetention w userID f =
        ({ w with
            emails := w.emails.filter (fun e => e.id ≠ victim.id)
            trace := w.trace ++
              [.countInbox userID, .selectOldest userID, .deleteEmail victim.id] }, none) := by
  have hne : inboxRows w userID ≠ [] := by
    intro h
    rw [h] at hcount
    simp at hcount
  obtain ⟨victim, hv⟩ := oldestRow_isSome _ hne
  refine ⟨victim, oldestRow_mem _ _ hv, oldestRow_min _ _ hv, ?_⟩
  have hrec : ∀ (w0 : World) (e : Event), inboxRows (w0.record e) userID = inboxRows w0 userID :=
    fun _ _ => rfl
  have hcount2 : (inboxRows w userID).length > 10 := hcount
  simp only [enforceRetention, hc, hs, hd, Bool.false_eq_true, if_false, hrec, hcount2, if_true,
    hv, deleteEmail]
  simp [World.record]

/-- With distinct ids, deleting by id removes exactly one row. -/
theorem filter_ne_id_eq_erase (l : List EmailRow) (victim : EmailRow)
    (hids : (l.map (fun e => e.id)).Nodup) (hmem : victim ∈ l) :
    l.filter (fun e => e.id ≠ victim.id) = l.erase victim := by
  induction l with
  | nil => simp at hmem
  | cons a l ih =>
    simp only [List.map_cons, List.nodup_cons] at hids
    by_cases ha : a = victim
    · subst ha
      have hrest : l.filter (fun e => decide (e.id ≠ a.id)) = l := by
        rw [List.filter_eq_self]
        intro e he
        have : e.id ≠ a.id := fun h => hids.1 (by rw [← h]; exact List.mem_map_of_mem _ he)
        simpa using this
      have hdec : decide (a.id ≠ a.id) = false := by simp
      rw [List.erase_cons_head, List.filter_cons, hdec]
      simpa using hrest
    · have hmem2 : victim ∈ l := by
        rcases List.mem_cons.1 hmem with h | h
        · exact absurd h.symm ha
        · exact h
      have hid : a.id ≠ victim.id := fun h =>
        hids.1 (by rw [h]; exact List.mem_map_of_mem _ hmem2)
      have hbeq : (a == victim) = false := by simpa using ha
      have hdec : decide (a.id ≠ victim.id) = true := by simpa using hid
      rw [List.erase_cons, hbeq, List.filter_cons, hdec, ih hids.2 hmem2]
      simp

/-- The state after the retention step has evicted a row, in terms of the
rest of the call. -/
theorem processIncomingEmails_after_eviction (L : Lib) (cfg : Config) (w : World)
    (userID : Int) (emailSendTo : GoString) (f : ProcFaults)
    (hcount : 10 < (inboxRows w userID).length)
    (hc : f.countInbox = false) (hs : f.selectOldest = false) (hd : f.deleteOldest = false) :
    ∃ (victim : EmailRow) (added : List EmailRow) (evs : List Event),
      victim ∈ inboxRows w userID ∧
      (∀ r ∈ inboxRows w userID, victim.created_at ≤ r.created_at) ∧
      (processIncomingEmails L cfg w userID emailSendTo f).1.emails
        = w.emails.filter (fun e => e.id ≠ victim.id) ++ added ∧
      (processIncomingEmails L cfg w userID emailSendTo f).1.trace
        = w.trace ++ [.countInbox userID, .selectOldest userID, .deleteEmail victim.id] ++ evs ∧
      (∀ id, Event.deleteEmail id ∉ evs) ∧
      ((∀ i, (f.message i).insert = true) → added = []) := by
  obtain ⟨victim, hmem, hmin, hret⟩ := enforceRetention_evicts w userID f hcount hc hs hd
  refine ⟨victim, ?_⟩
  unfold processIncomingEmails
  rw [hret]
  simp only
  cases hsi : f.selectIncoming
  · simp only [Bool.false_eq_true, if_false]
    obtain ⟨added, evs, h1, h2, h3, h4⟩ := processRawEmails_effects L cfg emailSendTo
      (pendingRows (World.record
        { w with
          emails := w.emails.filter (fun e => e.id ≠ victim.id)
          trace := w.trace ++
            [.countInbox userID, .selectOldest userID, .deleteEmail victim.id] }
        (.selectIncoming emailSendTo)) emailSendTo)
      (World.record
        { w with
          emails := w.emails.filter (fun e => e.id ≠ victim.id)
          trace := w.trace ++
            [.countInbox userID, .selectOldest userID, .deleteEmail victim.id] }
        (.selectIncoming emailSendTo)) f.message
    refine ⟨added, .selectIncoming emailSendTo :: evs, hmem, hmin, ?_, ?_, ?_, h4⟩
    · split <;> simp_all [World.record]
    · split <;> simp_all [World.record]
    · intro id hm
      rcases List.mem_cons.1 hm with hm | hm
      · cases hm
      · exact h3 id hm
  · refine ⟨[], [.selectIncoming emailSendTo], hmem, hmin, ?_, ?_, ?_, fun _ => rfl⟩
    · simp [World.record]
    · simp [World.record]
    · intro id hm
      simp at hm

theorem KeepsObjects.same (w : World) : KeepsObjects w w := ⟨fun _ h => h, fun _ => rfl⟩

theorem KeepsObjects.andThen {w1 w2 w3 : World} (h12 : KeepsObjects w1 w2)
    (h23 : KeepsObjects w2 w3) : KeepsObjects w1 w3 :=
  ⟨fun k h => h23.present k (h12.present k h), fun k => (h23.deletes k).trans (h12.deletes k)⟩

theorem KeepsObjects.record (w : World) (e : Event) (he : ∀ k, e ≠ .deleteObject k) :
    KeepsObjects w (w.record e) :=
  ⟨fun _ h => h, fun k => by
    have := he k
    simp [World.record, List.count_append, List.count_cons, this]⟩

theorem uploadAttachments_keeps (cfg : Config) (emailID : GoString) (atts : List Part)
    (w : World) (initFails fails : Nat → Bool) (acc : List GoString) :
    KeepsObjects w (uploadAttachments cfg emailID w initFails fails atts acc).1 := by
  induction atts generalizing w initFails fails acc with
  | nil => exact KeepsObjects.same w
  | cons att rest ih =>
    unfold uploadAttachments
    simp only [UploadAttachment, putObject]
    cases hi : initFails 0
    · cases hf : fails 0
      · simp only [Bool.false_eq_true, if_false]
        refine KeepsObjects.andThen ?_ (ih _ _ _ _)
        refine ⟨fun k hk => ?_, fun k => ?_⟩
        · simp only [World.record]
          split
          · rfl
          · exact hk
        · simp [World.record, List.count_append, List.count_cons]
      · simp only [Bool.false_eq_true, if_false, if_true]
        exact KeepsObjects.andThen (KeepsObjects.record w _ (fun _ => by simp)) (ih _ _ _ _)
    · simp only [if_true]
      exact KeepsObjects.same w

theorem insertPerSender_keeps (email : PEmail)
    (preview bodyEmail attachmentsJSON sendEmailTo : GoString) (now : Nat)
    (froms : List EmailAddress) (sel ins : Nat → Bool) (w : World) (stats : SyncStats) :
    KeepsObjects w (insertPerSender email preview bodyEmail attachmentsJSON sendEmailTo now
      sel ins froms w stats).1 := by
  induction froms generalizing sel ins w stats with
  | nil => exact KeepsObjects.same w
  | cons a rest ih =>
    unfold insertPerSender
    simp only [selectUserID, insertEmail]
    cases hi : ins 0
    · simp only [Bool.false_eq_true, if_false]
      refine KeepsObjects.andThen ?_ (ih _ _ _ _)
      refine ⟨fun k hk => hk, fun k => ?_⟩
      simp [World.record, List.count_append, List.count_cons]
    · simp only [if_true]
      refine KeepsObjects.andThen ?_ (ih _ _ _ _)
      refine ⟨fun k hk => hk, fun k => ?_⟩
      simp [World.record, List.count_append, List.count_cons]

theorem bucketObject_keeps (L : Lib) (cfg : Config) (w : World) (stats : SyncStats)
    (obj : BucketListed) : KeepsObjects w (bucketObject L cfg w stats obj).1 := by
  unfold bucketObject
  simp only
  split
  · exact KeepsObjects.same w
  · have h1 : KeepsObjects w (w.record (.getObject obj.key)) :=
      KeepsObjects.record w _ (fun _ => by simp)
    have hg1 : (getObject w obj.key obj.faults.getObject).1 = w.record (.getObject obj.key) := rfl
    rcases hget : getObject w obj.key obj.faults.getObject with ⟨w0, r⟩
    rw [hget] at hg1
    simp only at hg1
    subst hg1
    cases r with
    | none => exact h1
    | some emailContent =>
      simp only
      cases henv : L.ReadEnvelope emailContent with
      | none => exact h1
      | some env =>
        simp only
        have h2 := uploadAttachments_keeps cfg obj.key env.Attachments
          (w.record (.getObject obj.key)) obj.faults.session obj.faults.upload []
        rcases hres : uploadAttachments cfg obj.key (w.record (.getObject obj.key))
          obj.faults.session obj.faults.upload env.Attachments [] with ⟨w1, _ | urls⟩
        · rw [hres] at h2
          exact h1.andThen h2
        rw [hres] at h2
        simp only at h2 ⊢
        split
        · exact h1.andThen h2
        · exact (h1.andThen h2).andThen (insertPerSender_keeps _ _ _ _ _ _ _ _ _ _ _)

theorem bucketObjects_keeps (L : Lib) (cfg : Config) (objs : List BucketListed) (w : World)
    (stats : SyncStats) : KeepsObjects w (bucketObjects L cfg objs w stats).1 := by
  induction objs generalizing w stats with
  | nil => exact KeepsObjects.same w
  | cons o rest ih =>
    have h1 := bucketObject_keeps L cfg w stats o
    unfold bucketObjects
    rcases hres : bucketObject L cfg w stats o with ⟨w1, stats1, flag⟩
    rw [hres] at h1
    cases flag
    · exact h1.andThen (ih w1 stats1)
    · exact h1

/-! ### UTF-8: reading runes back from their encoding -/

theorem isCont_iff (b : Nat) : isCont b = true ↔ 0x80 ≤ b ∧ b ≤ 0xBF := by
  simp [isCont]

theorem decodeRune_encodeRune (r : Nat) (rest : GoString) (hr : validScalar r) :
    decodeRune (encodeRune r ++ rest) = (r, (encodeRune r).length) := by
  unfold validScalar at hr
  by_cases h1 : r < 0x80
  · simp [encodeRune, h1, decodeRune]
  by_cases h2 : r < 0x800
  · have e : encodeRune r = [0xC0 + r / 64, 0x80 + r % 64] := by simp [encodeRune, h1, h2]
    have a1 : ¬ (0xC0 + r / 64 < 0x80) := by omega
    have a2 : 0xC2 ≤ 0xC0 + r / 64 ∧ 0xC0 + r / 64 ≤ 0xDF := by omega
    have a3 : isCont (0x80 + r % 64) = true := by rw [isCont_iff]; omega
    have a4 : (0xC0 + r / 64 - 0xC0) * 64 + (0x80 + r % 64 - 0x80) = r := by omega
    rw [e]
    simp only [List.cons_append, List.nil_append, decodeRune, a1, a2, a3, a4, if_false, if_true,
      and_self, List.length_cons, List.length_nil]
  have h3 : ¬ ((0xD800 ≤ r ∧ r ≤ 0xDFFF) ∨ 0x10FFFF < r) := by omega
  by_cases h4 : r < 0x10000
  · have e : encodeRune r = [0xE0 + r / 4096, 0x80 + r / 64 % 64, 0x80 + r % 64] := by
      simp [encodeRune, h1, h2, h3, h4]
    have a1 : ¬ (0xE0 + r / 4096 < 0x80) := by omega
    have a2 : ¬ (0xC2 ≤ 0xE0 + r / 4096 ∧ 0xE0 + r / 4096 ≤ 0xDF) := by omega
    have a3 : 0xE0 ≤ 0xE0 + r / 4096 ∧ 0xE0 + r / 4096 ≤ 0xEF := by omega
    have a5 : isCont (0x80 + r % 64) = true := by rw [isCont_iff]; omega
    have a6 : (0xE0 + r / 4096 - 0xE0) * 4096 + (0x80 + r / 64 % 64 - 0x80) * 64
        + (0x80 + r % 64 - 0x80) = r := by omega
    have a7 : (if 0xE0 + r / 4096 = 0xE0 then 0xA0 else 0x80) ≤ 0x80 + r / 64 % 64 := by
      split <;> omega
    have a8 : 0x80 + r / 64 % 64 ≤ (if 0xE0 + r / 4096 = 0xED then 0x9F else 0xBF) := by
      split <;> omega
    rw [e]
    simp only [List.cons_append, List.nil_append, decodeRune, a1, a2, a3, a5, a6, a7, a8,
      if_false, if_true, and_self, List.length_cons, List.length_nil]
  · have e : encodeRune r
        = [0xF0 + r / 262144, 0x80 + r / 4096 % 64, 0x80 + r / 64 % 64, 0x80 + r % 64] := by
      simp [encodeRune, h1, h2, h3, h4]
    have a1 : ¬ (0xF0 + r / 262144 < 0x80) := by omega
    have a2 : ¬ (0xC2 ≤ 0xF0 + r / 262144 ∧ 0xF0 + r / 262144 ≤ 0xDF) := by omega
    have a3 : ¬ (0xE0 ≤ 0xF0 + r / 262144 ∧ 0xF0 + r / 262144 ≤ 0xEF) := by omega
    have a4 : 0xF0 ≤ 0xF0 + r / 262144 ∧ 0xF0 + r / 262144 ≤ 0xF4 := by omega
    have a5 : isCont (0x80 + r % 64) = true := by rw [isCont_iff]; omega
    have a5' : isCont (0x80 + r / 64 % 64) = true := by rw [isCont_iff]; omega
    have a6 : (0xF0 + r / 262144 - 0xF0) * 262144 + (0x80 + r / 4096 % 64 - 0x80) * 4096
        + (0x80 + r / 64 % 64 - 0x80) * 64 + (0x80 + r % 64 - 0x80) = r := by omega
    have a7 : (if 0xF0 + r / 262144 = 0xF0 then 0x90 else 0x80) ≤ 0x80 + r / 4096 % 64 := by
      split <;> omega
    have a8 : 0x80 + r / 4096 % 64 ≤ (if 0xF0 + r / 262144 = 0xF4 then 0x8F else 0xBF) := by
      split <;> omega
    rw [e]
    simp only [List.cons_append, List.nil_append, decodeRune, a1, a2, a3, a4, a5, a5', a6, a7,
      a8, if_false, if_true, and_self, List.length_cons, List.length_nil]

/-- What `decodeRune` returns on a non-empty string: either the byte at the
head starts no well-formed encoding (U+FFFD, width 1), or the rune is a scalar
value whose encoding is the bytes consumed. -/
theorem decodeRune_cases (b : Nat) (rest : GoString) :
    (decodeRune (b :: rest) = (0xFFFD, 1) ∧ 0x80 ≤ b) ∨
    (validScalar (decodeRune (b :: rest)).1 ∧
      (b :: rest).take (decodeRune (b :: rest)).2 = encodeRune (decodeRune (b :: rest)).1 ∧
      1 ≤ (decodeRune (b :: rest)).2 ∧
      (0x2000 ≤ (decodeRune (b :: rest)).1 → (decodeRune (b :: rest)).1 ≤ 0x2FFF → b = 0xE2) ∧
      ((decodeRune (b :: rest)).1 < 0x80 → decodeRune (b :: rest) = (b, 1))) := by
  by_cases h1 : b < 0x80
  · right
    simp [decodeRune, h1, validScalar, encodeRune]
    omega
  by_cases h2 : 0xC2 ≤ b ∧ b ≤ 0xDF
  · rcases rest with _ | ⟨b1, rest⟩
    · left; simp [decodeRune, h1, h2]; omega
    · by_cases c1 : isCont b1 = true
      · right
        have hc := (isCont_iff b1).1 c1
        have hd : decodeRune (b :: b1 :: rest) = ((b - 0xC0) * 64 + (b1 - 0x80), 2) := by
          simp [decodeRune, h1, h2, c1]
        have hv1 : ¬ ((b - 0xC0) * 64 + (b1 - 0x80) < 0x80) := by omega
        have hv2 : (b - 0xC0) * 64 + (b1 - 0x80) < 0x800 := by omega
        have e1 : 0xC0 + ((b - 0xC0) * 64 + (b1 - 0x80)) / 64 = b := by omega
        have e2 : 0x80 + ((b - 0xC0) * 64 + (b1 - 0x80)) % 64 = b1 := by omega
        rw [hd]
        refine ⟨Or.inl (by show _ < _; omega), ?_, by simp, fun h => by omega, fun h => by
          exact absurd h hv1⟩
        simp only [encodeRune, hv1, hv2, if_false, if_true, e1, e2, List.take_succ_cons,
          List.take_zero]
      · left; simp [decodeRune, h1, h2, c1]; omega
  by_cases h3 : 0xE0 ≤ b ∧ b ≤ 0xEF
  · rcases rest with _ | ⟨b1, _ | ⟨b2, rest⟩⟩
    · left; simp [decodeRune, h1, h2, h3]; omega
    · left; simp [decodeRune, h1, h2, h3]; omega
    · by_cases c1 : (if b = 0xE0 then 0xA0 else 0x80) ≤ b1 ∧ b1 ≤ (if b = 0xED then 0x9F else 0xBF)
          ∧ isCont b2 = true
      · right
        have hc := (isCont_iff b2).1 c1.2.2
        have hlo : 0x80 ≤ b1 := by
          have := c1.1
          split at this <;> omega
        have hhi : b1 ≤ 0xBF := by
          have := c1.2.1
          split at this <;> omega
        have hE0 : b = 0xE0 → 0xA0 ≤ b1 := by
          intro hb
          have := c1.1
          simp only [hb, if_true] at this
          exact this
        have hED : b = 0xED → b1 ≤ 0x9F := by
          intro hb
          have := c1.2.1
          simp only [hb, if_true] at this
          exact this
        have hd : decodeRune (b :: b1 :: b2 :: rest)
            = ((b - 0xE0) * 4096 + (b1 - 0x80) * 64 + (b2 - 0x80), 3) := by
          simp [decodeRune, h1, h2, h3, c1]
        have hv1 : ¬ ((b - 0xE0) * 4096 + (b1 - 0x80) * 64 + (b2 - 0x80) < 0x80) := by
          by_cases hb : b = 0xE0
          · have := hE0 hb
            omega
          · omega
        have hv2 : ¬ ((b - 0xE0) * 4096 + (b1 - 0x80) * 64 + (b2 - 0x80) < 0x800) := by
          by_cases hb : b = 0xE0
          · have := hE0 hb
            omega
          · omega
        have hv3 : ¬ ((0xD800 ≤ (b - 0xE0) * 4096 + (b1 - 0x80) * 64 + (b2 - 0x80) ∧
            (b - 0xE0) * 4096 + (b1 - 0x80) * 64 + (b2 - 0x80) ≤ 0xDFFF) ∨
            0x10FFFF < (b - 0xE0) * 4096 + (b1 - 0x80) * 64 + (b2 - 0x80)) := by
          by_cases hb : b = 0xED
          · have := hED hb
            omega
          · omega
        have hv4 : (b - 0xE0) * 4096 + (b1 - 0x80) * 64 + (b2 - 0x80) < 0x10000 := by omega
        have e1 : 0xE0 + ((b - 0xE0) * 4096 + (b1 - 0x80) * 64 + (b2 - 0x80)) / 4096 = b := by
          omega
        have e2 : 0x80 + ((b - 0xE0) * 4096 + (b1 - 0x80) * 64 + (b2 - 0x80)) / 64 % 64 = b1 := by
          omega
        have e3 : 0x80 + ((b - 0xE0) * 4096 + (b1 - 0x80) * 64 + (b2 - 0x80)) % 64 = b2 := by
          omega
        rw [hd]
        refine ⟨?_, ?_, by simp, fun h h' => by omega, fun h => absurd h hv1⟩
        · show _ < _ ∨ _
          omega
        · simp only [encodeRune, hv1, hv2, hv3, hv4, if_false, if_true, e1, e2, e3,
            List.take_succ_cons, List.take_zero]
      · left; simp [decodeRune, h1, h2, h3, c1]; omega
  by_cases h4 : 0xF0 ≤ b ∧ b ≤ 0xF4
  · rcases rest with _ | ⟨b1, _ | ⟨b2, _ | ⟨b3, rest⟩⟩⟩
    · left; simp [decodeRune, h1, h2, h3, h4]; omega
    · left; simp [decodeRune, h1, h2, h3, h4]; omega
    · left; simp [decodeRune, h1, h2, h3, h4]; omega
    · by_cases c1 : (if b = 0xF0 then 0x90 else 0x80) ≤ b1 ∧ b1 ≤ (if b = 0xF4 then 0x8F else 0xBF)
          ∧ isCont b2 = true ∧ isCont b3 = true
      · right
        have hc2 := (isCont_iff b2).1 c1.2.2.1
        have hc3 := (isCont_iff b3).1 c1.2.2.2
        have hlo : 0x80 ≤ b1 := by
          have := c1.1
          split at this <;> omega
        have hhi : b1 ≤ 0xBF := by
          have := c1.2.1
          split at this <;> omega
        have hF0 : b = 0xF0 → 0x90 ≤ b1 := by
          intro hb
          have := c1.1
          simp only [hb, if_true] at this
          exact this
        have hF4 : b = 0xF4 → b1 ≤ 0x8F := by
          intro hb
          have := c1.2.1
          simp only [hb, if_true] at this
          exact this
        have hd : decodeRune (b :: b1 :: b2 :: b3 :: rest)
            = ((b - 0xF0) * 262144 + (b1 - 0x80) * 4096 + (b2 - 0x80) * 64 + (b3 - 0x80), 4) := by
          simp [decodeRune, h1, h2, h3, h4, c1]
        have hlow : 0x10000 ≤ (b - 0xF0) * 262144 + (b1 - 0x80) * 4096 + (b2 - 0x80) * 64
            + (b3 - 0x80) := by
          by_cases hb : b = 0xF0
          · have := hF0 hb
            omega
          · omega
        have hup : (b - 0xF0) * 262144 + (b1 - 0x80) * 4096 + (b2 - 0x80) * 64 + (b3 - 0x80)
            ≤ 0x10FFFF := by
          by_cases hb : b = 0xF4
          · have := hF4 hb
            omega
          · omega
        have hv1 : ¬ ((b - 0xF0) * 262144 + (b1 - 0x80) * 4096 + (b2 - 0x80) * 64 + (b3 - 0x80)
            < 0x80) := by omega
        have hv2 : ¬ ((b - 0xF0) * 262144 + (b1 - 0x80) * 4096 + (b2 - 0x80) * 64 + (b3 - 0x80)
            < 0x800) := by omega
        have hv3 : ¬ ((0xD800 ≤ (b - 0xF0) * 262144 + (b1 - 0x80) * 4096 + (b2 - 0x80) * 64
            + (b3 - 0x80) ∧
            (b - 0xF0) * 262144 + (b1 - 0x80) * 4096 + (b2 - 0x80) * 64 + (b3 - 0x80) ≤ 0xDFFF) ∨
            0x10FFFF < (b - 0xF0) * 262144 + (b1 - 0x80) * 4096 + (b2 - 0x80) * 64
              + (b3 - 0x80)) := by omega
        have hv4 : ¬ ((b - 0xF0) * 262144 + (b1 - 0x80) * 4096 + (b2 - 0x80) * 64 + (b3 - 0x80)
            < 0x10000) := by omega
        have e1 : 0xF0 + ((b - 0xF0) * 262144 + (b1 - 0x80) * 4096 + (b2 - 0x80) * 64
            + (b3 - 0x80)) / 262144 = b := by omega
        have e2 : 0x80 + ((b - 0xF0) * 262144 + (b1 - 0x80) * 4096 + (b2 - 0x80) * 64
            + (b3 - 0x80)) / 4096 % 64 = b1 := by omega
        have e3 : 0x80 + ((b - 0xF0) * 262144 + (b1 - 0x80) * 4096 + (b2 - 0x80) * 64
            + (b3 - 0x80)) / 64 % 64 = b2 := by omega
        have e4 : 0x80 + ((b - 0xF0) * 262144 + (b1 - 0x80) * 4096 + (b2 - 0x80) * 64
            + (b3 - 0x80)) % 64 = b3 := by omega
        rw [hd]
        refine ⟨?_, ?_, by simp, fun h h' => by omega, fun h => absurd h hv1⟩
        · show _ < _ ∨ _
          omega
        · simp only [encodeRune, hv1, hv2, hv3, hv4, if_false, e1, e2, e3, e4,
            List.take_succ_cons, List.take_zero]
      · left; simp [decodeRune, h1, h2, h3, h4, c1]; omega
  · left
    simp [decodeRune, h1, h2, h3, h4]
    omega

theorem decodeRune_width_pos (b : Nat) (rest : GoString) : 1 ≤ (decodeRune (b :: rest)).2 := by
  rcases decodeRune_cases b rest with h | h
  · rw [h.1]
  · exact h.2.2.1

theorem runesAux_fuel (n m : Nat) (s : GoString) (hn : s.length ≤ n) (hm : s.length ≤ m) :
    runesAux n s = runesAux m s := by
  induction n generalizing m s with
  | zero =>
    cases s with
    | nil => cases m <;> rfl
    | cons b rest => simp at hn
  | succ n ih =>
    cases s with
    | nil => cases m <;> rfl
    | cons b rest =>
      cases m with
      | zero => simp at hm
      | succ m =>
        simp only [List.length_cons, Nat.add_le_add_iff_right] at hn hm
        have hw := decodeRune_width_pos b rest
        have hlen : ((b :: rest).drop (decodeRune (b :: rest)).2).length ≤ rest.length := by
          rw [List.length_drop, List.length_cons]
          omega
        simp only [runesAux]
        rw [ih m _ (le_trans hlen hn) (le_trans hlen hm)]

theorem runes_cons (b : Nat) (rest : GoString) :
    runes (b :: rest)
      = ((decodeRune (b :: rest)).1, (b :: rest).take (decodeRune (b :: rest)).2)
          :: runes ((b :: rest).drop (decodeRune (b :: rest)).2) := by
  have hw := decodeRune_width_pos b rest
  have hlen : ((b :: rest).drop (decodeRune (b :: rest)).2).length ≤ rest.length := by
    rw [List.length_drop, List.length_cons]
    omega
  show runesAux (rest.length + 1) (b :: rest) = _
  simp only [runesAux, runes]
  rw [runesAux_fuel _ _ _ hlen le_rfl]

theorem runes_nil : runes [] = [] := rfl

theorem runes_cons_of_invalid (b : Nat) (rest : GoString)
    (h : decodeRune (b :: rest) = (0xFFFD, 1)) :
    runes (b :: rest) = (0xFFFD, [b]) :: runes rest := by
  rw [runes_cons, h]
  rfl

theorem encodeRune_ne_nil (r : Nat) : encodeRune r ≠ [] := by
  unfold encodeRune
  split_ifs <;> simp

theorem runes_encodeRune_append (r : Nat) (rest : GoString) (hr : validScalar r) :
    runes (encodeRune r ++ rest) = (r, encodeRune r) :: runes rest := by
  have hd := decodeRune_encodeRune r rest hr
  rcases he : encodeRune r with _ | ⟨b, tl⟩
  · exact absurd he (encodeRune_ne_nil r)
  · rw [he] at hd
    rw [List.cons_append] at hd ⊢
    rw [runes_cons, hd]
    simp only
    rw [← List.cons_append, List.take_left, List.drop_left]

theorem runes_flatMap_encodeRune (rs : List Nat) (rest : GoString)
    (h : ∀ r ∈ rs, validScalar r) :
    runes (rs.flatMap encodeRune ++ rest) = rs.map (fun r => (r, encodeRune r)) ++ runes rest := by
  induction rs with
  | nil => rfl
  | cons r rs ih =>
    rw [List.flatMap_cons, List.append_assoc,
      runes_encodeRune_append r _ (h r (by simp)), ih (fun x hx => h x (by simp [hx]))]
    rfl

theorem runes_flatMap_encodeRune_self (rs : List Nat) (h : ∀ r ∈ rs, validScalar r) :
    runes (rs.flatMap encodeRune) = rs.map (fun r => (r, encodeRune r)) := by
  have := runes_flatMap_encodeRune rs [] h
  simpa [runes_nil] using this

/-- Every rune read from a string is a scalar value, and one of the block
U+2000..U+2FFF is only read where the string has the byte `0xE2`. -/
theorem runes_scalar_aux (n : Nat) (s : GoString) (hn : s.length ≤ n) :
    ∀ p ∈ runes s, validScalar p.1 ∧ (0x2000 ≤ p.1 → p.1 ≤ 0x2FFF → 0xE2 ∈ s) := by
  induction n generalizing s with
  | zero =>
    cases s with
    | nil => intro p hp; simp [runes_nil] at hp
    | cons b rest => simp at hn
  | succ n ih =>
    cases s with
    | nil => intro p hp; simp [runes_nil] at hp
    | cons b rest =>
      intro p hp
      rw [runes_cons] at hp
      have hw := decodeRune_width_pos b rest
      simp only [List.length_cons, Nat.add_le_add_iff_right] at hn
      rcases List.mem_cons.1 hp with rfl | hp
      · rcases decodeRune_cases b rest with h | h
        · simp only [h.1]
          refine ⟨Or.inr (by decide), fun h1 h2 => ?_⟩
          omega
        · exact ⟨h.1, fun h1 h2 => by rw [h.2.2.2.1 h1 h2]; simp⟩
      · have hlen : ((b :: rest).drop (decodeRune (b :: rest)).2).length ≤ n := by
          rw [List.length_drop, List.length_cons]
          omega
        have := ih _ hlen p hp
        exact ⟨this.1, fun h1 h2 => List.mem_of_mem_drop (this.2 h1 h2)⟩

/-- Every rune read from a string is a scalar value, and one of the block
U+2000..U+2FFF is only read where the string has the byte 0xE2. -/
theorem runes_scalar (s : GoString) :
    ∀ p ∈ runes s, validScalar p.1 ∧ (0x2000 ≤ p.1 → p.1 ≤ 0x2FFF → 0xE2 ∈ s) :=
  runes_scalar_aux s.length s le_rfl

theorem not_mem_replaceAll_single (b : Nat) (s : GoString) : b ∉ replaceAll s [b] [] := by
  unfold replaceAll
  induction s with
  | nil => simp [replaceAllAux]
  | cons c cs ih =>
    by_cases hc : b = c
    · subst hc
      simpa [replaceAllAux] using ih
    · have hc2 : ¬ c = b := fun h => hc h.symm
      simpa [replaceAllAux, hc, hc2] using ih

theorem decodeRune_before_dot (b : Nat) (rest : GoString) (hb : 0x80 ≤ b) :
    decodeRune (b :: 46 :: rest) = (0xFFFD, 1) := by
  have h1 : ¬ b < 0x80 := by omega
  by_cases h2 : 0xC2 ≤ b ∧ b ≤ 0xDF
  · simp [decodeRune, h1, h2, isCont]
  by_cases h3 : 0xE0 ≤ b ∧ b ≤ 0xEF
  · rcases rest with _ | ⟨c, rest⟩
    · simp [decodeRune, h1, h2, h3]
    · have h4 : ¬ (if b = 0xE0 then 0xA0 else 0x80) ≤ 46 := by split <;> omega
      simp [decodeRune, h1, h2, h3, h4]
  by_cases h4 : 0xF0 ≤ b ∧ b ≤ 0xF4
  · rcases rest with _ | ⟨c, _ | ⟨c2, rest⟩⟩
    · simp [decodeRune, h1, h2, h3, h4]
    · simp [decodeRune, h1, h2, h3, h4]
    · have h5 : ¬ (if b = 0xF0 then 0x90 else 0x80) ≤ 46 := by split <;> omega
      simp [decodeRune, h1, h2, h3, h4, h5]
  · simp [decodeRune, h1, h2, h3, h4]

theorem decodeRune_before_dot2 (b b1 : Nat) (rest : GoString) (hb : 0xE0 ≤ b) :
    decodeRune (b :: b1 :: 46 :: rest) = (0xFFFD, 1) := by
  have h1 : ¬ b < 0x80 := by omega
  have h2 : ¬ (0xC2 ≤ b ∧ b ≤ 0xDF) := by omega
  rcases rest with _ | ⟨c, rest⟩ <;> simp [decodeRune, h1, h2, isCont]

theorem decodeRune_before_dot3 (b b1 b2 : Nat) (rest : GoString) (hb : 0xF0 ≤ b) :
    decodeRune (b :: b1 :: b2 :: 46 :: rest) = (0xFFFD, 1) := by
  have h1 : ¬ b < 0x80 := by omega
  have h2 : ¬ (0xC2 ≤ b ∧ b ≤ 0xDF) := by omega
  have h3 : ¬ (0xE0 ≤ b ∧ b ≤ 0xEF) := by omega
  simp [decodeRune, h1, h2, h3, isCont]

theorem decodeRune_continuation (b : Nat) (rest : GoString) (h1 : 0x80 ≤ b) (h2 : b ≤ 0xBF) :
    decodeRune (b :: rest) = (0xFFFD, 1) := by
  have g1 : ¬ b < 0x80 := by omega
  have g2 : ¬ (0xC2 ≤ b ∧ b ≤ 0xDF) := by omega
  have g3 : ¬ (0xE0 ≤ b ∧ b ≤ 0xEF) := by omega
  have g4 : ¬ (0xF0 ≤ b ∧ b ≤ 0xF4) := by omega
  simp [decodeRune, g1, g2, g3, g4]

theorem runes_dots : runes [46, 46, 46] = [(46, [46]), (46, [46]), (46, [46])] := by decide

/-- A proper prefix of the encoding of a rune, followed by `...`, is read as
U+FFFD once per byte and then the three dots. -/
theorem runes_cut_rune (r k : Nat) (hr : validScalar r) (hk : k < (encodeRune r).length) :
    ∀ p ∈ runes ((encodeRune r).take k ++ [46, 46, 46]), p.1 = 0xFFFD ∨ p.1 = 46 := by
  have hdots : ∀ p ∈ runes [46, 46, 46], p.1 = 0xFFFD ∨ p.1 = 46 := by
    rw [runes_dots]
    intro p hp
    simp at hp
    right
    rw [hp]
  by_cases h1 : r < 0x80
  · have he : encodeRune r = [r] := by simp [encodeRune, h1]
    rw [he] at hk ⊢
    simp at hk
    subst hk
    simpa using hdots
  by_cases h2 : r < 0x800
  · have he : encodeRune r = [0xC0 + r / 64, 0x80 + r % 64] := by simp [encodeRune, h1, h2]
    rw [he] at hk ⊢
    simp only [List.length_cons, List.length_nil] at hk
    have hk2 : k = 0 ∨ k = 1 := by omega
    rcases hk2 with rfl | rfl
    · simpa using hdots
    · simp only [List.take_succ_cons, List.take_zero, List.cons_append, List.nil_append]
      rw [runes_cons_of_invalid _ _ (decodeRune_before_dot _ _ (by omega))]
      intro p hp
      rcases List.mem_cons.1 hp with rfl | hp
      · left; rfl
      · exact hdots p hp
  have h3 : ¬ ((0xD800 ≤ r ∧ r ≤ 0xDFFF) ∨ 0x10FFFF < r) := by
    rcases hr with h | h
    · omega
    · omega
  by_cases h4 : r < 0x10000
  · have he : encodeRune r = [0xE0 + r / 4096, 0x80 + r / 64 % 64, 0x80 + r % 64] := by
      simp only [encodeRune, h1, h2, h3, h4, if_false, if_true]
    rw [he] at hk ⊢
    simp only [List.length_cons, List.length_nil] at hk
    have hk2 : k = 0 ∨ k = 1 ∨ k = 2 := by omega
    rcases hk2 with rfl | rfl | rfl
    · simpa using hdots
    · simp only [List.take_succ_cons, List.take_zero, List.cons_append, List.nil_append]
      rw [runes_cons_of_invalid _ _ (decodeRune_before_dot _ _ (by omega))]
      intro p hp
      rcases List.mem_cons.1 hp with rfl | hp
      · left; rfl
      · exact hdots p hp
    · simp only [List.take_succ_cons, List.take_zero, List.cons_append, List.nil_append]
      rw [runes_cons_of_invalid _ _ (decodeRune_before_dot2 _ _ _ (by omega)),
        runes_cons_of_invalid _ _ (decodeRune_before_dot _ _ (by omega))]
      intro p hp
      rcases List.mem_cons.1 hp with rfl | hp
      · left; rfl
      rcases List.mem_cons.1 hp with rfl | hp
      · left; rfl
      · exact hdots p hp
  · have he : encodeRune r
        = [0xF0 + r / 262144, 0x80 + r / 4096 % 64, 0x80 + r / 64 % 64, 0x80 + r % 64] := by
      simp only [encodeRune, h1, h2, h3, h4, if_false]
    rw [he] at hk ⊢
    simp only [List.length_cons, List.length_nil] at hk
    have hk2 : k = 0 ∨ k = 1 ∨ k = 2 ∨ k = 3 := by omega
    rcases hk2 with rfl | rfl | rfl | rfl
    · simpa using hdots
    · simp only [List.take_succ_cons, List.take_zero, List.cons_append, List.nil_append]
      rw [runes_cons_of_invalid _ _ (decodeRune_before_dot _ _ (by omega))]
      intro p hp
      rcases List.mem_cons.1 hp with rfl | hp
      · left; rfl
      · exact hdots p hp
    · simp only [List.take_succ_cons, List.take_zero, List.cons_append, List.nil_append]
      rw [runes_cons_of_invalid _ _ (decodeRune_before_dot2 _ _ _ (by omega)),
        runes_cons_of_invalid _ _ (decodeRune_before_dot _ _ (by omega))]
      intro p hp
      rcases List.mem_cons.1 hp with rfl | hp
      · left; rfl
      rcases List.mem_cons.1 hp with rfl | hp
      · left; rfl
      · exact hdots p hp
    · simp only [List.take_succ_cons, List.take_zero, List.cons_append, List.nil_append]
      rw [runes_cons_of_invalid _ _ (decodeRune_before_dot3 _ _ _ _ (by omega)),
        runes_cons_of_invalid _ _ (decodeRune_continuation _ _ (by omega) (by omega)),
        runes_cons_of_invalid _ _ (decodeRune_before_dot _ _ (by omega))]
      intro p hp
      rcases List.mem_cons.1 hp with rfl | hp
      · left; rfl
      rcases List.mem_cons.1 hp with rfl | hp
      · left; rfl
      rcases List.mem_cons.1 hp with rfl | hp
      · left; rfl
      · exact hdots p hp

/-- The runes of a cut through an encoded rune sequence, followed by `...`:
runes of the sequence, U+FFFD for the bytes of a rune that was cut, and the
dots. -/
theorem runes_take_flatMap_encodeRune (rs : List Nat) (h : ∀ r ∈ rs, validScalar r) (k : Nat) :
    ∀ p ∈ runes ((rs.flatMap encodeRune).take k ++ [46, 46, 46]),
      p.1 ∈ rs ∨ p.1 = 0xFFFD ∨ p.1 = 46 := by
  induction rs generalizing k with
  | nil =>
    intro p hp
    right
    simp only [List.flatMap_nil, List.take_nil, List.nil_append] at hp
    rw [runes_dots] at hp
    simp at hp
    right
    rw [hp]
  | cons r rs ih =>
    intro p hp
    rw [List.flatMap_cons, List.take_append_eq_append_take] at hp
    by_cases hk : k < (encodeRune r).length
    · have h0 : k - (encodeRune r).length = 0 := by omega
      rw [h0, List.take_zero, List.append_nil] at hp
      exact Or.inr (runes_cut_rune r k (h r (by simp)) hk p hp)
    · rw [List.take_of_length_le (by omega), List.append_assoc,
        runes_encodeRune_append r _ (h r (by simp))] at hp
      rcases List.mem_cons.1 hp with rfl | hp
      · left; simp
      · rcases ih (fun x hx => h x (by simp [hx])) _ p hp with h' | h'
        · left; simp [h']
        · right; exact h'

theorem flatMap_snd_of_encoded (ps : List (Nat × GoString)) (h : ∀ p ∈ ps, p.2 = encodeRune p.1) :
    ps.flatMap (fun p => p.2) = (ps.map (fun p => p.1)).flatMap encodeRune := by
  induction ps with
  | nil => rfl
  | cons p ps ih =>
    rw [List.flatMap_cons, List.map_cons, List.flatMap_cons, h p (by simp),
      ih (fun q hq => h q (by simp [hq]))]

theorem flatMap_encodeRune_fst (ps : List (Nat × GoString)) :
    ps.flatMap (fun p => encodeRune p.1) = (ps.map (fun p => p.1)).flatMap encodeRune := by
  induction ps with
  | nil => rfl
  | cons p ps ih => rw [List.flatMap_cons, List.map_cons, List.flatMap_cons, ih]

/-- Go `strings.TrimSpace` on an encoded rune sequence gives the encoding of
some of its runes. -/
theorem trimSpace_flatMap_encodeRune (rs : List Nat) (h : ∀ r ∈ rs, validScalar r) :
    ∃ rs' : List Nat, (∀ r ∈ rs', r ∈ rs) ∧ trimSpace (rs.flatMap encodeRune) = rs'.flatMap encodeRune := by
  let ps := (((rs.map (fun r => (r, encodeRune r))).dropWhile
    (fun p => isSpace p.1)).reverse.dropWhile (fun p => isSpace p.1)).reverse
  have hsub : ∀ p ∈ ps, p ∈ rs.map (fun r => (r, encodeRune r)) := by
    intro p hp
    have h1 := List.mem_reverse.1 hp
    have h2 := (List.dropWhile_sublist _).subset h1
    have h3 := List.mem_reverse.1 h2
    exact (List.dropWhile_sublist _).subset h3
  refine ⟨ps.map (fun p => p.1), ?_, ?_⟩
  · intro r hr
    rcases List.mem_map.1 hr with ⟨p, hp, rfl⟩
    rcases List.mem_map.1 (hsub p hp) with ⟨x, hx, rfl⟩
    exact hx
  · unfold trimSpace
    rw [runes_flatMap_encodeRune_self rs h]
    apply flatMap_snd_of_encoded
    intro p hp
    rcases List.mem_map.1 (hsub p hp) with ⟨x, hx, rfl⟩
    rfl

/-- The text `html2text` returns is the encoding of printable scalar values
outside the block U+2000..U+2FFF. -/
theorem html2text_encoded (L : Lib) (contentHTML : GoString) :
    ∃ rs : List Nat, html2text L contentHTML = rs.flatMap encodeRune ∧
      ∀ r ∈ rs, validScalar r ∧ isPrint L r = true ∧ ¬ (0x2000 ≤ r ∧ r ≤ 0x2FFF) := by
  unfold html2text
  simp only
  generalize replaceAll (replaceAll (replaceAll (replaceAll (unescapeString L (stripTags
    (replaceAll (replaceAll (replaceAll (replaceAll (replaceAll contentHTML (lit "<br>") [10])
      (lit "<br/>") [10]) (lit "<br />") [10]) (lit "</p>") [10]) (lit "</div>") [10])))
    [0xE2, 0x80, 0x8B] []) [0xE2, 0x80, 0x8C] []) [0xE2, 0x80, 0x8D] []) [0xE2, 0x80] [] = t
  have hE2 := not_mem_replaceAll_single 0xE2 t
  generalize replaceAll t [0xE2] [] = u at hE2
  have hall : ∀ r ∈ ((runes u).filter (fun p => isPrint L p.1)).map (fun p => p.1),
      validScalar r ∧ isPrint L r = true ∧ ¬ (0x2000 ≤ r ∧ r ≤ 0x2FFF) := by
    intro r hr
    rcases List.mem_map.1 hr with ⟨p, hp, rfl⟩
    rcases List.mem_filter.1 hp with ⟨hp1, hp2⟩
    have := runes_scalar u p hp1
    exact ⟨this.1, hp2, fun hh => hE2 (this.2 hh.1 hh.2)⟩
  have hrem : removeNonPrintable L u
      = (((runes u).filter (fun p => isPrint L p.1)).map (fun p => p.1)).flatMap encodeRune := by
    unfold removeNonPrintable
    exact flatMap_encodeRune_fst _
  rw [hrem]
  rcases trimSpace_flatMap_encodeRune _ (fun r hr => (hall r hr).1) with ⟨rs', hsub, heq⟩
  exact ⟨rs', heq, fun r hr => hall r (hsub r hr)⟩

/-! ### JSON: reading back what `json.Marshal` wrote -/

theorem unquoteAux_u4 (n a b c d rr : Nat) (rest : GoString)
    (h : getu4 (92 :: 117 :: a :: b :: c :: d :: rest) = some rr)
    (hs : ¬ (0xD800 ≤ rr ∧ rr ≤ 0xDFFF)) :
    unquoteAux (n + 1) (92 :: 117 :: a :: b :: c :: d :: rest)
      = (unquoteAux n rest).map (fun q => (encodeRune rr ++ q.1, q.2)) := by
  have e1 : ¬ (92 = 34) := by decide
  simp only [unquoteAux, e1, if_false, if_true]
  rw [h]
  simp only [hs, if_false, List.drop_succ_cons, List.drop_zero]

theorem getu4_fffd (rest : GoString) :
    getu4 (92 :: 117 :: 102 :: 102 :: 102 :: 100 :: rest) = some 0xFFFD := by
  have h1 : hexVal 102 = some 15 := by simp [hexVal]
  have h2 : hexVal 100 = some 13 := by simp [hexVal]
  simp only [getu4, h1, h2]

theorem getu4_2028 (rest : GoString) :
    getu4 (92 :: 117 :: 50 :: 48 :: 50 :: 56 :: rest) = some 0x2028 := by
  have h1 : hexVal 50 = some 2 := by simp [hexVal]
  have h2 : hexVal 48 = some 0 := by simp [hexVal]
  have h3 : hexVal 56 = some 8 := by simp [hexVal]
  simp only [getu4, h1, h2, h3]

theorem getu4_2029 (rest : GoString) :
    getu4 (92 :: 117 :: 50 :: 48 :: 50 :: 57 :: rest) = some 0x2029 := by
  have h1 : hexVal 50 = some 2 := by simp [hexVal]
  have h2 : hexVal 48 = some 0 := by simp [hexVal]
  have h3 : hexVal 57 = some 9 := by simp [hexVal]
  simp only [getu4, h1, h2, h3]

theorem unquoteAux_ascii (r : Nat) (h1 : r < 0x80) (bs : GoString) (n : Nat) (rest : GoString) :
    unquoteAux (n + 1) (escapeRune (r, bs) ++ rest)
      = (unquoteAux n rest).map (fun q => (encodeRune r ++ q.1, q.2)) := by
  interval_cases r <;>
    simp [escapeRune, unquoteAux, getu4, hexVal, hexDigit, simpleEscape, encodeRune]

theorem hexDigit_8 : hexDigit (0x2028 % 16) = 56 := by norm_num [hexDigit]
theorem hexDigit_9 : hexDigit (0x2029 % 16) = 57 := by norm_num [hexDigit]

theorem escapeRune_2028 (bs : GoString) : escapeRune (0x2028, bs) = [92, 117, 50, 48, 50, 56] := by
  have a1 : ¬ ((0x2028 : Nat) < 0x80) := by omega
  have a2 : ¬ ((0x2028 : Nat) = 0xFFFD ∧ bs.length = 1) := by omega
  simp only [escapeRune, a1, a2, if_false, if_true, hexDigit_8, true_or]

theorem escapeRune_2029 (bs : GoString) : escapeRune (0x2029, bs) = [92, 117, 50, 48, 50, 57] := by
  have a1 : ¬ ((0x2029 : Nat) < 0x80) := by omega
  have a2 : ¬ ((0x2029 : Nat) = 0xFFFD ∧ bs.length = 1) := by omega
  simp only [escapeRune, a1, a2, if_false, if_true, hexDigit_9, or_true]

theorem runes_ok_aux (n : Nat) (s : GoString) (hn : s.length ≤ n) :
    ∀ p ∈ runes s, RuneOK p := by
  induction n generalizing s with
  | zero =>
    cases s with
    | nil => intro p hp; simp [runes_nil] at hp
    | cons b rest => simp at hn
  | succ n ih =>
    cases s with
    | nil => intro p hp; simp [runes_nil] at hp
    | cons b rest =>
      intro p hp
      rw [runes_cons] at hp
      have hw := decodeRune_width_pos b rest
      simp only [List.length_cons, Nat.add_le_add_iff_right] at hn
      rcases List.mem_cons.1 hp with rfl | hp
      · rcases decodeRune_cases b rest with h | h
        · left
          simp [h.1]
        · right
          exact ⟨h.1, h.2.1⟩
      · have hlen : ((b :: rest).drop (decodeRune (b :: rest)).2).length ≤ n := by
          rw [List.length_drop, List.length_cons]
          omega
        exact ih _ hlen p hp

theorem runes_ok (s : GoString) : ∀ p ∈ runes s, RuneOK p :=
  runes_ok_aux s.length s le_rfl

theorem jsonEscape_eq (s : GoString) : jsonEscape s = (runes s).flatMap escapeRune := rfl

theorem encodeRune_head (r : Nat) (h : 0x80 ≤ r) :
    ∃ c tl, encodeRune r = c :: tl ∧ 0x80 ≤ c ∧ 2 ≤ (encodeRune r).length := by
  have h1 : ¬ r < 0x80 := by omega
  unfold encodeRune
  simp only [h1, if_false]
  split_ifs
  · exact ⟨_, _, rfl, by omega, by simp⟩
  · exact ⟨_, _, rfl, by omega, by simp⟩
  · exact ⟨_, _, rfl, by omega, by simp⟩
  · exact ⟨_, _, rfl, by omega, by simp⟩

theorem escapeRune_ne_nil (p : Nat × GoString) (hp : RuneOK p) : escapeRune p ≠ [] := by
  unfold escapeRune
  simp only
  split_ifs <;> try simp
  rcases hp with h | h
  · intro h0
    rw [h0] at h
    simp at h
  · rw [h.2]
    exact encodeRune_ne_nil _

/-- Decoding undoes the escape of one rune. -/
theorem unquoteAux_escapeRune (p : Nat × GoString) (hp : RuneOK p) (n : Nat) (rest : GoString) :
    unquoteAux (n + 1) (escapeRune p ++ rest)
      = (unquoteAux n rest).map (fun q => (encodeRune p.1 ++ q.1, q.2)) := by
  rcases p with ⟨r, bs⟩
  by_cases h1 : r < 0x80
  · exact unquoteAux_ascii r h1 bs n rest
  simp only at hp h1
  by_cases h2 : r = 0xFFFD ∧ bs.length = 1
  · have he : escapeRune (r, bs) = [92, 117, 102, 102, 102, 100] := by
      simp [escapeRune, h2.1, h2.2]
    rw [he, h2.1]
    exact unquoteAux_u4 n _ _ _ _ 0xFFFD rest (getu4_fffd rest) (by omega)
  rcases hp with hp | ⟨hv, hbs⟩
  · exact absurd hp h2
  simp only at hv hbs
  by_cases h3 : r = 0x2028 ∨ r = 0x2029
  · rcases h3 with rfl | rfl
    · rw [escapeRune_2028]
      exact unquoteAux_u4 n _ _ _ _ 0x2028 rest (getu4_2028 rest) (by omega)
    · rw [escapeRune_2029]
      exact unquoteAux_u4 n _ _ _ _ 0x2029 rest (getu4_2029 rest) (by omega)
  · rcases encodeRune_head r (by omega) with ⟨c, tl, he, hc, hlen⟩
    have hesc : escapeRune (r, bs) = c :: tl := by
      simp only [escapeRune, h1, h2, h3, if_false]
      rw [hbs, he]
    have hd := decodeRune_encodeRune r rest hv
    rw [he, List.cons_append] at hd
    have g1 : ¬ c = 34 := by omega
    have g2 : ¬ c = 92 := by omega
    have g3 : ¬ c < 0x20 := by omega
    have g4 : ¬ c < 0x80 := by omega
    rw [hesc, List.cons_append]
    simp only [unquoteAux, g1, g2, g3, g4, if_false, hd]
    rw [← List.cons_append, ← he, List.drop_left]

theorem unquoteAux_flatMap (ps : List (Nat × GoString)) (hps : ∀ p ∈ ps, RuneOK p)
    (n : Nat) (hn : ps.length + 1 ≤ n) (rest : GoString) :
    unquoteAux n (ps.flatMap escapeRune ++ 34 :: rest)
      = some (ps.flatMap (fun p => encodeRune p.1), rest) := by
  induction ps generalizing n with
  | nil =>
    cases n with
    | zero => simp at hn
    | succ n => simp [unquoteAux]
  | cons p ps ih =>
    cases n with
    | zero => simp at hn
    | succ n =>
      simp only [List.length_cons, Nat.add_le_add_iff_right] at hn
      rw [List.flatMap_cons, List.append_assoc,
        unquoteAux_escapeRune p (hps p (by simp)) n, ih (fun q hq => hps q (by simp [hq])) n hn]
      simp

theorem length_le_flatMap_escapeRune (ps : List (Nat × GoString)) (hps : ∀ p ∈ ps, RuneOK p) :
    ps.length ≤ (ps.flatMap escapeRune).length := by
  induction ps with
  | nil => simp
  | cons p ps ih =>
    have h1 := escapeRune_ne_nil p (hps p (by simp))
    have h2 := ih (fun q hq => hps q (by simp [hq]))
    have h3 : 1 ≤ (escapeRune p).length := by
      rcases he : escapeRune p with _ | ⟨c, tl⟩
      · exact absurd he h1
      · simp
    rw [List.flatMap_cons, List.length_append, List.length_cons]
    omega

/-- Decoding a string literal `json.Marshal` wrote gives the string back, with
ill-formed bytes replaced by U+FFFD. -/
theorem unquoteAux_jsonEscape (u rest : GoString) (n : Nat)
    (hn : (jsonEscape u).length + 1 ≤ n) :
    unquoteAux n (jsonEscape u ++ 34 :: rest) = some (coerceUTF8 u, rest) := by
  rw [jsonEscape_eq] at hn ⊢
  have := length_le_flatMap_escapeRune (runes u) (runes_ok u)
  exact unquoteAux_flatMap (runes u) (runes_ok u) n (by omega) rest

theorem jsonMarshalStrings_cons (u : GoString) (us : List GoString) :
    jsonMarshalStrings (u :: us) = 91 :: elementsText (u :: us) := by
  have key : ∀ (u : GoString) (us : List GoString),
      List.intercalate [44] ((u :: us).map (fun u => [34] ++ jsonEscape u ++ [34])) ++ [93]
        = elementsText (u :: us) := by
    intro u us
    induction us generalizing u with
    | nil => simp [List.intercalate, elementsText]
    | cons v us ih =>
      have := ih v
      simp only [List.intercalate, List.map_cons, List.intersperse_cons_cons, List.flatten_cons,
        List.append_assoc] at this ⊢
      simp only [elementsText, List.append_assoc, List.cons_append, List.nil_append,
        List.singleton_append]
      rw [← this]
      simp
  show [91] ++ _ ++ [93] = _
  rw [List.append_assoc, key]
  rfl

theorem skipSpace_quote (tl : GoString) : skipSpace (34 :: tl) = 34 :: tl := by
  simp [skipSpace]

theorem parseElement_quoted (u rest : GoString) (m : Nat) (hm : (jsonEscape u).length + 1 ≤ m) :
    parseElement m (34 :: (jsonEscape u ++ 34 :: rest)) = some (coerceUTF8 u, rest) := by
  simp only [parseElement]
  exact unquoteAux_jsonEscape u rest m hm

theorem parseElements_elementsText (u : GoString) (us : List GoString) (rest : GoString)
    (n : Nat) (hn : (u :: us).length ≤ n) :
    parseElements n (elementsText (u :: us) ++ rest)
      = some ((u :: us).map coerceUTF8, rest) := by
  induction us generalizing u n with
  | nil =>
    cases n with
    | zero => simp at hn
    | succ n =>
      have e : elementsText [u] ++ rest = 34 :: (jsonEscape u ++ 34 :: 93 :: rest) := by
        simp [elementsText]
      rw [e, parseElements, skipSpace_quote]
      rw [parseElement_quoted u _ _ (by simp only [List.length_cons, List.length_append]; omega)]
      simp [skipSpace]
  | cons v us ih =>
    cases n with
    | zero => simp at hn
    | succ n =>
      simp only [List.length_cons, Nat.add_le_add_iff_right] at hn
      have e : elementsText (u :: v :: us) ++ rest
          = 34 :: (jsonEscape u ++ 34 :: 44 :: (elementsText (v :: us) ++ rest)) := by
        simp [elementsText]
      have ih2 := ih v n (by simpa using hn)
      rw [e, parseElements, skipSpace_quote]
      rw [parseElement_quoted u _ _ (by simp only [List.length_cons, List.length_append]; omega)]
      simp [skipSpace, ih2]

theorem length_le_elementsText (us : List GoString) : us.length ≤ (elementsText us).length := by
  induction us with
  | nil => simp
  | cons u us ih =>
    cases us with
    | nil => simp [elementsText]
    | cons v us =>
      simp only [elementsText, List.length_append, List.length_cons] at ih ⊢
      omega

/-- Go `json.Unmarshal` reads back what `json.Marshal` wrote for a `[]string`,
`null` included. -/
theorem jsonUnmarshalStrings_jsonMarshalStrings (urls : List GoString) :
    jsonUnmarshalStrings (jsonMarshalStrings urls) = some (urls.map coerceUTF8) := by
  cases urls with
  | nil => decide
  | cons u us =>
    rw [jsonMarshalStrings_cons]
    have hlen := length_le_elementsText (u :: us)
    have h := parseElements_elementsText u us [] (91 :: elementsText (u :: us)).length
      (by simp only [List.length_cons] at hlen ⊢; omega)
    rw [List.append_nil] at h
    have hq : ∃ tl, elementsText (u :: us) = 34 :: tl := by
      cases us with
      | nil => exact ⟨_, rfl⟩
      | cons v us => exact ⟨_, rfl⟩
    rcases hq with ⟨tl, htl⟩
    have e91 : skipSpace (91 :: elementsText (u :: us)) = 91 :: elementsText (u :: us) := by
      simp [skipSpace]
    have e34 : skipSpace (elementsText (u :: us)) = 34 :: tl := by
      rw [htl]
      exact skipSpace_quote tl
    unfold jsonUnmarshalStrings
    rw [e91]
    simp only []
    rw [e34]
    simp only []
    rw [h]
    simp [skipSpace]

/-- The last part `strings.Split(s, "/")` returns is the part of `s` behind
its last `/`, or all of `s` when it has none. -/
theorem splitByte_last (sep : Nat) (s : GoString) :
    ∃ init last, splitByte sep s = init ++ [last] ∧ sep ∉ last ∧
      (init = [] → s = last) ∧ (init ≠ [] → ∃ pre, s = pre ++ sep :: last) := by
  induction s with
  | nil => exact ⟨[], [], rfl, by simp, fun _ => rfl, fun h => absurd rfl h⟩
  | cons c cs ih =>
    rcases ih with ⟨init, last, hsplit, hlast, h1, h2⟩
    by_cases hc : c = sep
    · refine ⟨[] :: init, last, by simp [splitByte, hc, hsplit], hlast, by simp, fun _ => ?_⟩
      by_cases hi : init = []
      · exact ⟨[], by simp [hc, h1 hi]⟩
      · rcases h2 hi with ⟨pre, hpre⟩
        exact ⟨c :: pre, by simp [hpre]⟩
    · cases init with
      | nil =>
        refine ⟨[], c :: last, by simp [splitByte, hc, hsplit], ?_, ?_, fun h => absurd rfl h⟩
        · simp only [List.mem_cons, not_or]
          exact ⟨fun h => hc h.symm, hlast⟩
        · intro _
          rw [h1 rfl]
      | cons p ps =>
        refine ⟨(c :: p) :: ps, last, by simp [splitByte, hc, hsplit], hlast, by simp, fun _ => ?_⟩
        rcases h2 (by simp) with ⟨pre, hpre⟩
        exact ⟨c :: pre, by simp [hpre]⟩

/-- What `getAttachmentURLs` returns on the text `json.Marshal` wrote. -/
theorem getAttachmentURLs_jsonMarshalStrings (urls : List GoString) :
    getAttachmentURLs (jsonMarshalStrings urls)
      = urls.map (fun u =>
          { URL := coerceUTF8 u, ContentType := [],
            Filename := (splitByte 47 (coerceUTF8 u)).getLast?.getD [], Content := [] }) := by
  unfold getAttachmentURLs
  rw [jsonUnmarshalStrings_jsonMarshalStrings]
  simp [List.map_map]

theorem runes_flatMap_snd_aux (n : Nat) (s : GoString) (hn : s.length ≤ n) :
    (runes s).flatMap (fun p => p.2) = s := by
  induction n generalizing s with
  | zero =>
    cases s with
    | nil => rfl
    | cons b rest => simp at hn
  | succ n ih =>
    cases s with
    | nil => rfl
    | cons b rest =>
      have hw := decodeRune_width_pos b rest
      simp only [List.length_cons, Nat.add_le_add_iff_right] at hn
      have hlen : ((b :: rest).drop (decodeRune (b :: rest)).2).length ≤ n := by
        rw [List.length_drop, List.length_cons]
        omega
      rw [runes_cons, List.flatMap_cons, ih _ hlen]
      exact List.take_append_drop _ _

/-- The bytes the runes of a string were read from make up the string. -/
theorem runes_flatMap_snd (s : GoString) : (runes s).flatMap (fun p => p.2) = s :=
  runes_flatMap_snd_aux s.length s le_rfl

/-- A well-formed string is left as it is by the JSON round trip. -/
theorem coerceUTF8_of_wellFormed (s : GoString) (h : ∀ p ∈ runes s, p.2 = encodeRune p.1) :
    coerceUTF8 s = s := by
  have e : ∀ ps : List (Nat × GoString), (∀ p ∈ ps, p.2 = encodeRune p.1) →
      ps.flatMap (fun p => encodeRune p.1) = ps.flatMap (fun p => p.2) := by
    intro ps hps
    induction ps with
    | nil => rfl
    | cons p ps ih =>
      rw [List.flatMap_cons, List.flatMap_cons, ih (fun q hq => hps q (by simp [hq])),
        hps p (by simp)]
  unfold coerceUTF8
  rw [e _ h, runes_flatMap_snd]

theorem jsonMarshalStrings_startsArray (urls : List GoString) (h : urls ≠ []) :
    startsArray (jsonMarshalStrings urls) = true := by
  cases urls with
  | nil => exact absurd rfl h
  | cons u us =>
    rw [jsonMarshalStrings_cons]
    simp [startsArray, skipSpace]

/-- The attachments `getAttachmentURLs` reads from the text `json.Marshal`
wrote for a list of URLs. -/
theorem getAttachmentURLs_forall₂ (urls : List GoString) :
    List.Forall₂ (fun url a =>
        a.URL = coerceUTF8 url ∧ ((∀ p ∈ runes url, p.2 = encodeRune p.1) → a.URL = url) ∧
        a.ContentType = [] ∧ a.Content = [] ∧ 47 ∉ a.Filename ∧
        (a.URL = a.Filename ∨ ∃ pre, a.URL = pre ++ 47 :: a.Filename))
      urls (getAttachmentURLs (jsonMarshalStrings urls)) := by
  rw [getAttachmentURLs_jsonMarshalStrings]
  induction urls with
  | nil => exact List.Forall₂.nil
  | cons u us ih =>
    refine List.Forall₂.cons ⟨rfl, fun h => coerceUTF8_of_wellFormed u h, rfl, rfl, ?_, ?_⟩ ih
    · rcases splitByte_last 47 (coerceUTF8 u) with ⟨init, last, hsplit, hlast, -, -⟩
      simp only [hsplit]
      simpa using hlast
    · rcases splitByte_last 47 (coerceUTF8 u) with ⟨init, last, hsplit, -, h1, h2⟩
      simp only [hsplit]
      by_cases hi : init = []
      · left
        simpa using h1 hi
      · right
        rcases h2 hi with ⟨pre, hpre⟩
        exact ⟨pre, by simpa using hpre⟩

/-! ### Text cleaning: tags and line breaks -/

theorem not_mem_encodeRune_of_lt (r b : Nat) (hb : b < 0x80) (h : b ∈ encodeRune r) : r = b := by
  unfold encodeRune at h
  split_ifs at h <;> simp at h <;> omega

/-- A byte below 0x80 in the result of `html2text` is a printable rune. -/
theorem html2text_ascii_byte_printable (L : Lib) (s : GoString) (b : Nat) (hb : b < 0x80)
    (h : b ∈ html2text L s) : isPrint L b = true := by
  rcases html2text_encoded L s with ⟨rs, heq, hrs⟩
  rw [heq] at h
  rcases List.mem_flatMap.1 h with ⟨r, hr, hbr⟩
  have := not_mem_encodeRune_of_lt r b hb hbr
  subst this
  exact (hrs r hr).2.1

/-- `html2text` when the text left by the tag removal is ASCII without `&`:
its printable bytes, trimmed. -/
theorem html2text_of_stripped (L : Lib) (s x : GoString) (hx : stripTags (lineBreaks s) = x)
    (hascii : ∀ b ∈ x, b < 128) (h38 : 38 ∉ x) :
    html2text L s
      = (((x.filter (fun b => 0x20 ≤ b && b ≤ 0x7E)).dropWhile isSpace).reverse.dropWhile
          isSpace).reverse := by
  have hE2 : 0xE2 ∉ x := fun hb => by have := hascii _ hb; omega
  unfold lineBreaks at hx
  unfold html2text
  simp only []
  rw [hx, unescapeString, if_neg h38,
    replaceAll_of_not_mem _ _ _ _ hE2, replaceAll_of_not_mem _ _ _ _ hE2,
    replaceAll_of_not_mem _ _ _ _ hE2, replaceAll_of_not_mem _ _ _ _ hE2,
    replaceAll_of_not_mem _ _ _ _ hE2, removeNonPrintable_ascii L x hascii,
    trimSpace_ascii]
  intro b hb
  exact hascii b (List.mem_of_mem_filter hb)

theorem isPrefixOf_closing (pt t b : GoString) (hpt : 62 ∉ pt) (ht : 62 ∉ t) :
    (pt ++ [62]).isPrefixOf (t ++ 62 :: b) = decide (t = pt) := by
  induction pt generalizing t with
  | nil =>
    cases t with
    | nil => simp [List.isPrefixOf]
    | cons c t =>
      simp only [List.mem_cons, not_or] at ht
      have hc : (62 == c) = false := by simpa using ht.1
      simp [List.isPrefixOf, hc]
  | cons p pt ih =>
    simp only [List.mem_cons, not_or] at hpt
    cases t with
    | nil =>
      have hc : (p == 62) = false := by simpa using fun e : p = 62 => hpt.1 e.symm
      simp [List.isPrefixOf, hc]
    | cons c t =>
      simp only [List.mem_cons, not_or] at ht
      have e : (p :: pt ++ [62]).isPrefixOf (c :: t ++ 62 :: b)
          = (p == c && (pt ++ [62]).isPrefixOf (t ++ 62 :: b)) := rfl
      rw [e, ih t hpt.2 ht.2]
      by_cases hpc : p = c
      · subst hpc
        simp
      · have hcp : ¬ c = p := fun e => hpc e.symm
        simp [hpc, hcp]

theorem replaceAllAux_skip (old new x y : GoString) :
    replaceAllAux old new x.length (x ++ y) = replaceAllAux old new 0 y := by
  induction x with
  | nil => rfl
  | cons c x ih => simpa [replaceAllAux] using ih

/-- `strings.ReplaceAll` of a tag pattern on a text with one tag. -/
theorem replaceAll_tag (a t b pt new : GoString) (ha : 60 ∉ a) (ht60 : 60 ∉ t) (ht62 : 62 ∉ t)
    (hb : 60 ∉ b) (hpt : 62 ∉ pt) :
    replaceAll (a ++ 60 :: (t ++ 62 :: b)) (60 :: (pt ++ [62])) new
      = if t = pt then a ++ new ++ b else a ++ 60 :: (t ++ 62 :: b) := by
  unfold replaceAll
  rw [replaceAllAux_append_of_not_mem 60 _ _ a _ ha]
  have hpre : (60 :: (pt ++ [62])).isPrefixOf (60 :: (t ++ 62 :: b)) = decide (t = pt) := by
    simp only [List.isPrefixOf, beq_self_eq_true, Bool.true_and]
    exact isPrefixOf_closing pt t b hpt ht62
  simp only [replaceAllAux, hpre]
  by_cases h : t = pt
  · subst h
    have hlen : (60 :: (t ++ [62])).length - 1 = (t ++ [62]).length := by simp
    have hsplit : t ++ 62 :: b = (t ++ [62]) ++ b := by simp
    simp only [decide_True, if_true]
    rw [hlen, hsplit, replaceAllAux_skip]
    have := replaceAll_of_not_mem 60 (t ++ [62]) new b hb
    unfold replaceAll at this
    rw [this]
    simp
  · have hrest : 60 ∉ t ++ 62 :: b := by
      simp only [List.mem_append, List.mem_cons, not_or]
      exact ⟨ht60, by decide, hb⟩
    have := replaceAll_of_not_mem 60 (pt ++ [62]) new (t ++ 62 :: b) hrest
    unfold replaceAll at this
    simp [h, this]

theorem stripTagsAux_inside (t b : GoString) (ht : 62 ∉ t) :
    stripTagsAux true (t ++ 62 :: b) = stripTagsAux false b := by
  induction t with
  | nil => simp [stripTagsAux]
  | cons c t ih =>
    simp only [List.mem_cons, not_or] at ht
    have hc : ¬ c = 62 := fun e => ht.1 e.symm
    simp [stripTagsAux, hc, ih ht.2]

theorem stripTagsAux_append_of_not_mem (a rest : GoString) (ha : 60 ∉ a) :
    stripTagsAux false (a ++ rest) = a ++ stripTagsAux false rest := by
  induction a with
  | nil => rfl
  | cons c a ih =>
    simp only [List.mem_cons, not_or] at ha
    have hc : c ≠ 60 := fun e => ha.1 e.symm
    simp [stripTagsAux, hc, ih ha.2]

/-- The tag removal on a text with one tag. -/
theorem stripTags_tag (a t b : GoString) (ha : 60 ∉ a) (ht62 : 62 ∉ t) (hb : 60 ∉ b) :
    stripTags (a ++ 60 :: (t ++ 62 :: b)) = a ++ b := by
  unfold stripTags
  rw [stripTagsAux_append_of_not_mem a _ ha]
  simp [stripTagsAux, stripTagsAux_inside t b ht62, stripTagsAux_of_not_mem b hb]

/-- What the line-break replacements and the tag removal leave of a text with
one tag: the text around the tag, with a newline in its place when it is one
of the five line-break tags. -/
theorem stripTags_lineBreaks_tag (a t b : GoString) (ha : 60 ∉ a) (ht60 : 60 ∉ t)
    (ht62 : 62 ∉ t) (hb : 60 ∉ b) :
    stripTags (lineBreaks (a ++ 60 :: (t ++ 62 :: b))) = a ++ b ∨
    stripTags (lineBreaks (a ++ 60 :: (t ++ 62 :: b))) = a ++ 10 :: b := by
  have l3 : lit "<br>" = 60 :: ([98, 114] ++ [62]) := by decide
  have l4 : lit "<br/>" = 60 :: ([98, 114, 47] ++ [62]) := by decide
  have l5 : lit "<br />" = 60 :: ([98, 114, 32, 47] ++ [62]) := by decide
  have l2 : lit "</p>" = 60 :: ([47, 112] ++ [62]) := by decide
  have l6 : lit "</div>" = 60 :: ([47, 100, 105, 118] ++ [62]) := by decide
  have hnl : 60 ∉ a ++ [10] ++ b := by
    simp only [List.mem_append, List.mem_singleton, not_or]
    exact ⟨⟨ha, by decide⟩, hb⟩
  have hdone : ∀ pt : GoString, replaceAll (a ++ [10] ++ b) (60 :: (pt ++ [62])) [10]
      = a ++ [10] ++ b := fun pt => replaceAll_of_not_mem 60 _ _ _ hnl
  have hstrip : stripTags (a ++ [10] ++ b) = a ++ 10 :: b := by
    unfold stripTags
    rw [stripTagsAux_of_not_mem _ hnl]
    simp
  have step : ∀ pt : GoString, 62 ∉ pt →
      replaceAll (a ++ 60 :: (t ++ 62 :: b)) (60 :: (pt ++ [62])) [10] = a ++ [10] ++ b ∨
      replaceAll (a ++ 60 :: (t ++ 62 :: b)) (60 :: (pt ++ [62])) [10]
        = a ++ 60 :: (t ++ 62 :: b) := by
    intro pt hpt
    rw [replaceAll_tag a t b pt [10] ha ht60 ht62 hb hpt]
    by_cases h : t = pt
    · left; simp [h]
    · right; simp [h]
  unfold lineBreaks
  rw [l2, l3, l4, l5, l6]
  rcases step [98, 114] (by decide) with h1 | h1 <;> rw [h1]
  · rw [hdone, hdone, hdone, hdone, hstrip]
    right; rfl
  rcases step [98, 114, 47] (by decide) with h2 | h2 <;> rw [h2]
  · rw [hdone, hdone, hdone, hstrip]
    right; rfl
  rcases step [98, 114, 32, 47] (by decide) with h3 | h3 <;> rw [h3]
  · rw [hdone, hdone, hstrip]
    right; rfl
  rcases step [47, 112] (by decide) with h4 | h4 <;> rw [h4]
  · rw [hdone, hstrip]
    right; rfl
  rcases step [47, 100, 105, 118] (by decide) with h5 | h5 <;> rw [h5]
  · rw [hstrip]
    right; rfl
  · left
    exact stripTags_tag a t b ha ht62 hb

/-- A tag in ASCII text without `&` is removed by `html2text`. -/
theorem html2text_tag (L : Lib) (a t b : GoString) (haa : ∀ c ∈ a, c < 128)
    (hba : ∀ c ∈ b, c < 128) (ha : 60 ∉ a) (hb : 60 ∉ b) (ha38 : 38 ∉ a) (hb38 : 38 ∉ b)
    (ht60 : 60 ∉ t) (ht62 : 62 ∉ t) :
    html2text L (a ++ 60 :: (t ++ 62 :: b)) = html2text L (a ++ b) := by
  have hab : ∀ c ∈ a ++ b, c < 128 := by
    intro c hc
    rcases List.mem_append.1 hc with h | h
    · exact haa c h
    · exact hba c h
  have hab60 : 60 ∉ a ++ b := by simp [ha, hb]
  have hab38 : 38 ∉ a ++ b := by simp [ha38, hb38]
  rw [html2text_plain_ascii L (a ++ b) hab hab60 hab38]
  rcases stripTags_lineBreaks_tag a t b ha ht60 ht62 hb with h | h
  · rw [html2text_of_stripped L _ _ h hab hab38]
  · have hnl : ∀ c ∈ a ++ 10 :: b, c < 128 := by
      intro c hc
      rcases List.mem_append.1 hc with h | h
      · exact haa c h
      · rcases List.mem_cons.1 h with rfl | h
        · decide
        · exact hba c h
    have hnl38 : 38 ∉ a ++ 10 :: b := by
      simp only [List.mem_append, List.mem_cons, not_or]
      exact ⟨ha38, by decide, hb38⟩
    rw [html2text_of_stripped L _ _ h hnl hnl38]
    simp [List.filter_append, List.filter_cons]

/-- Text without markup passes through `html2text` unchanged when it is
well-formed UTF-8 of printable runes, has no byte 0xE2, and does not start or
end with white space. -/
theorem html2text_markup_free (L : Lib) (t : GoString)
    (hwf : ∀ p ∈ runes t, p.2 = encodeRune p.1)
    (hprint : ∀ p ∈ runes t, isPrint L p.1 = true)
    (h60 : 60 ∉ t) (h38 : 38 ∉ t) (hE2 : 0xE2 ∉ t)
    (hhead : ∀ p, (runes t).head? = some p → isSpace p.1 = false)
    (hlast : ∀ p, (runes t).getLast? = some p → isSpace p.1 = false) :
    html2text L t = t := by
  have l3 : lit "<br>" = [60, 98, 114, 62] := by decide
  have l4 : lit "<br/>" = [60, 98, 114, 47, 62] := by decide
  have l5 : lit "<br />" = [60, 98, 114, 32, 47, 62] := by decide
  have l2 : lit "</p>" = [60, 47, 112, 62] := by decide
  have l6 : lit "</div>" = [60, 47, 100, 105, 118, 62] := by decide
  have hrem : removeNonPrintable L t = t := by
    unfold removeNonPrintable
    rw [List.filter_eq_self.2 (fun p hp => hprint p hp)]
    exact coerceUTF8_of_wellFormed t hwf
  have htrim : trimSpace t = t := by
    unfold trimSpace
    rw [dropWhile_eq_self_of_head _ _ hhead,
      dropWhile_eq_self_of_head _ _ (fun p hp => hlast p (by simpa using hp)),
      List.reverse_reverse]
    exact runes_flatMap_snd t
  unfold html2text
  simp only [l2, l3, l4, l5, l6]
  rw [replaceAll_of_not_mem _ _ _ _ h60, replaceAll_of_not_mem _ _ _ _ h60,
    replaceAll_of_not_mem _ _ _ _ h60, replaceAll_of_not_mem _ _ _ _ h60,
    replaceAll_of_not_mem _ _ _ _ h60, stripTags, stripTagsAux_of_not_mem _ h60,
    unescapeString, if_neg h38,
    replaceAll_of_not_mem _ _ _ _ hE2, replaceAll_of_not_mem _ _ _ _ hE2,
    replaceAll_of_not_mem _ _ _ _ hE2, replaceAll_of_not_mem _ _ _ _ hE2,
    replaceAll_of_not_mem _ _ _ _ hE2, hrem, htrim]

/-! ### Login attempts -/

theorem find?_map_update {α : Type} (p : α → Prop) [DecidablePred p] (g : α → α)
    (hg : ∀ x, p (g x) ↔ p x) (rows : List α) (r : α)
    (h : rows.find? (fun x => decide (p x)) = some r) :
    (rows.map (fun x => if p x then g x else x)).find? (fun x => decide (p x)) = some (g r) := by
  induction rows with
  | nil => simp at h
  | cons x rows ih =>
    by_cases hx : p x
    · simp only [List.find?_cons, hx, decide_True] at h
      simp only [Option.some.injEq] at h
      subst h
      simp [List.find?_cons, hx, hg]
    · simp only [List.find?_cons, hx, decide_False] at h
      simp [List.find?_cons, hx, ih h]

theorem find?_updateAttempts (st : AuthState) (email : GoString) (g : LoginAttempt → LoginAttempt)
    (hg : ∀ r, (g r).username = r.username) (row : LoginAttempt)
    (hrow : st.user_login_attempts.find? (fun r => r.username = email) = some row) :
    (updateAttempts st email g false).user_login_attempts.find? (fun r => r.username = email)
      = some (g row) := by
  simp only [updateAttempts, Bool.false_eq_true, if_false]
  exact find?_map_update (fun r : LoginAttempt => r.username = email) g
    (fun x => by show (g x).username = email ↔ x.username = email; rw [hg x]) _ row hrow

theorem quiet_iff (f : LoginFaults) : f.quiet = true ↔
    f.bind = false ∧ f.selectAttempts = false ∧ f.selectUser = false ∧
      f.updateAttempts = false := by
  cases hb : f.bind <;> cases hs : f.selectAttempts <;> cases hu : f.selectUser <;>
    cases ha : f.updateAttempts <;> simp [LoginFaults.quiet, hb, hs, hu, ha]

theorem LoginHandler_eq_countFailure (A : AuthLib) (st : AuthState) (email password : GoString)
    (now : Int) (f : LoginFaults) (row : LoginAttempt) (user : Account)
    (hq : f.quiet = true)
    (hrow : st.user_login_attempts.find? (fun r => r.username = email) = some row)
    (hfree : row.blocked_until = none)
    (huser : st.users.find? (fun u => u.Email = email) = some user)
    (hpw : A.CheckPasswordHash password user.Password = false) :
    LoginHandler A st email password now f
      = countFailure st email row.failed_attempts now true false := by
  obtain ⟨hb, hs, hu, ha⟩ := (quiet_iff f).1 hq
  unfold LoginHandler
  simp only [hb, hs, Bool.false_eq_true, if_false, hrow, loginChecked, hfree, loginUser, hu,
    huser, hpw, Bool.not_false, if_true, ha]

/-- One failed login of an existing account that is not blocked: the counter
goes up by one and is written back, with `blocked_until` from 4 on; the answer
is 401 below 3, the warning at 3 and the lock message from 4 on. -/
theorem LoginHandler_wrong_password (A : AuthLib) (st : AuthState) (email password : GoString)
    (now : Int) (f : LoginFaults) (row : LoginAttempt) (user : Account)
    (hq : f.quiet = true)
    (hrow : st.user_login_attempts.find? (fun r => r.username = email) = some row)
    (hfree : row.blocked_until = none)
    (huser : st.users.find? (fun u => u.Email = email) = some user)
    (hpw : A.CheckPasswordHash password user.Password = false) :
    (LoginHandler A st email password now f).1.users = st.users ∧
    (LoginHandler A st email password now f).1.user_login_attempts.find?
        (fun r => r.username = email)
      = some { username := row.username
               failed_attempts := row.failed_attempts + 1
               last_attempt_time := now
               blocked_until := if row.failed_attempts + 1 ≥ 4 then some (now + 5 * minute)
                 else none } ∧
    (LoginHandler A st email password now f).2
      = (if row.failed_attempts + 1 ≥ 4 then .tooManyAttempts
         else if row.failed_attempts + 1 = 3 then .careful else .unauthorized) := by
  rw [LoginHandler_eq_countFailure A st email password now f row user hq hrow hfree huser hpw]
  unfold countFailure
  by_cases h4 : row.failed_attempts + 1 ≥ 4
  · simp only [h4, if_true]
    refine ⟨rfl, ?_, trivial⟩
    refine find?_updateAttempts st email _ ?_ row hrow
    intro r; rfl
  · simp only [h4, if_false]
    by_cases h3 : row.failed_attempts + 1 = 3
    · simp only [h3, and_self, if_true]
      refine ⟨rfl, ?_, trivial⟩
      refine (find?_updateAttempts st email _ ?_ row hrow).trans ?_
      · intro r; rfl
      · rw [hfree]
    · simp only [h3, and_false, if_false]
      refine ⟨rfl, ?_, trivial⟩
      refine (find?_updateAttempts st email _ ?_ row hrow).trans ?_
      · intro r; rfl
      · rw [hfree]

/-- A login for a user name that is blocked: the answer is the lock message
and nothing is written. -/
theorem LoginHandler_of_blocked (A : AuthLib) (st : AuthState) (email password : GoString)
    (now : Int) (f : LoginFaults) (row : LoginAttempt) (b : Int)
    (hb : f.bind = false) (hs : f.selectAttempts = false)
    (hrow : st.user_login_attempts.find? (fun r => r.username = email) = some row)
    (hblocked : row.blocked_until = some b) (hlater : now < b) :
    LoginHandler A st email password now f = (st, .locked (timeSub b now)) := by
  unfold LoginHandler
  simp only [hb, hs, Bool.false_eq_true, if_false, hrow, loginChecked, hblocked]
  rw [if_pos (by omega)]

/-! ### Obfuscated ids: decoding undoes encoding -/

theorem b64Val_b64Char (n : Nat) (h : n < 64) : b64Val (b64Char n) = some n := by
  interval_cases n <;> rfl

theorem b64Char_ne_newline (n : Nat) : b64Char n ≠ 13 ∧ b64Char n ≠ 10 := by
  unfold b64Char
  split_ifs <;> omega

theorem b64Vals_map_b64Char (vs : List Nat) (h : ∀ v ∈ vs, v < 64) :
    b64Vals (vs.map b64Char) = some vs := by
  induction vs with
  | nil => rfl
  | cons v vs ih =>
    simp [b64Vals, b64Val_b64Char v (h v (by simp)), ih (fun x hx => h x (by simp [hx]))]

theorem sextets_lt (data : GoString) (h : ∀ b ∈ data, b < 256) : ∀ v ∈ sextets data, v < 64 := by
  induction data using sextets.induct with
  | case1 => simp [sextets]
  | case2 a =>
    have ha := h a (by simp)
    intro v hv
    simp only [sextets, List.mem_cons, List.mem_singleton, List.not_mem_nil, or_false] at hv
    rcases hv with rfl | rfl <;> omega
  | case3 a b =>
    have ha := h a (by simp)
    have hb := h b (by simp)
    intro v hv
    simp only [sextets, List.mem_cons, List.mem_singleton, List.not_mem_nil, or_false] at hv
    rcases hv with rfl | rfl | rfl <;> omega
  | case4 a b c rest ih =>
    have ha := h a (by simp)
    have hb := h b (by simp)
    have hc := h c (by simp)
    intro v hv
    simp only [sextets, List.mem_cons] at hv
    rcases hv with rfl | rfl | rfl | rfl | hv
    · omega
    · omega
    · omega
    · omega
    · exact ih (fun x hx => h x (by simp [hx])) v hv

theorem unsextets_sextets (data : GoString) (h : ∀ b ∈ data, b < 256) :
    unsextets (sextets data) = some data := by
  induction data using sextets.induct with
  | case1 => rfl
  | case2 a =>
    have ha := h a (by simp)
    simp only [sextets, unsextets, Option.some.injEq, List.cons.injEq, and_true]
    omega
  | case3 a b =>
    have ha := h a (by simp)
    have hb := h b (by simp)
    simp only [sextets, unsextets, Option.some.injEq, List.cons.injEq, and_true]
    constructor <;> omega
  | case4 a b c rest ih =>
    have ha := h a (by simp)
    have hb := h b (by simp)
    have hc := h c (by simp)
    have e1 : a / 4 * 4 + (a % 4 * 16 + b / 16) / 16 = a := by omega
    have e2 : (a % 4 * 16 + b / 16) % 16 * 16 + (b % 16 * 4 + c / 64) / 4 = b := by omega
    have e3 : (b % 16 * 4 + c / 64) % 4 * 64 + c % 64 = c := by omega
    simp only [sextets, unsextets, ih (fun x hx => h x (by simp [hx])), Option.map_some', e1, e2,
      e3]

/-- Decoding undoes the encoding of `base64.RawURLEncoding`. -/
theorem base64Decode_base64Encode (data : GoString) (h : ∀ b ∈ data, b < 256) :
    base64Decode (base64Encode data) = some data := by
  unfold base64Decode base64Encode
  have hf : ((sextets data).map b64Char).filter (fun c => decide (c ≠ 13 ∧ c ≠ 10))
      = (sextets data).map b64Char := by
    rw [List.filter_eq_self]
    intro c hc
    rcases List.mem_map.1 hc with ⟨v, -, rfl⟩
    simpa using b64Char_ne_newline v
  rw [hf, b64Vals_map_b64Char _ (sextets_lt data h)]
  exact unsextets_sextets data h

theorem parseUint_append_singleton (l : GoString) (c acc : Nat) :
    parseUint (l ++ [c]) acc
      = (parseUint l acc).bind (fun v =>
          if 48 ≤ c ∧ c ≤ 57 then some (v * 10 + (c - 48)) else none) := by
  induction l generalizing acc with
  | nil => simp [parseUint]
  | cons x l ih =>
    simp only [List.cons_append, parseUint]
    split
    · exact ih _
    · rfl

/-- The digits written for `n` are digits, at least one, and read back as
`n`. -/
theorem natDigits_spec (f n : Nat) (h : n < f) :
    natDigits f n ≠ [] ∧ (∀ c ∈ natDigits f n, 48 ≤ c ∧ c ≤ 57) ∧
      parseUint (natDigits f n) 0 = some n := by
  induction f generalizing n with
  | zero => omega
  | succ f ih =>
    by_cases h10 : n < 10
    · simp only [natDigits, h10, if_true]
      refine ⟨by simp, ?_, ?_⟩
      · intro c hc
        simp only [List.mem_singleton] at hc
        omega
      · have : 48 ≤ 48 + n ∧ 48 + n ≤ 57 := by omega
        simp [parseUint, this]
    · obtain ⟨-, h2, h3⟩ := ih (n / 10) (by omega)
      simp only [natDigits, h10, if_false]
      refine ⟨by simp, ?_, ?_⟩
      · intro c hc
        rcases List.mem_append.1 hc with hc | hc
        · exact h2 c hc
        · simp only [List.mem_singleton] at hc
          omega
      · have : 48 ≤ 48 + n % 10 ∧ 48 + n % 10 ≤ 57 := by omega
        rw [parseUint_append_singleton, h3]
        simp only [Option.some_bind, this, and_self, if_true, Option.some.injEq]
        omega

/-- `strconv.Atoi` reads back what `strconv.Itoa` wrote, for every `int64`. -/
theorem Atoi_Itoa (id : Int) (hlo : -(2 ^ 63) ≤ id) (hhi : id < 2 ^ 63) :
    Atoi (Itoa id) = some id := by
  obtain ⟨hne, hdig, hval⟩ := natDigits_spec (id.natAbs + 1) id.natAbs (by omega)
  by_cases hneg : id < 0
  · simp only [Itoa, hneg, if_true, Atoi, true_or, hne, if_false, hval]
    have h1 : id.natAbs ≤ 2 ^ 63 := by omega
    simp only [h1, if_true, Option.some.injEq]
    omega
  · rcases hd : natDigits (id.natAbs + 1) id.natAbs with _ | ⟨c, cs⟩
    · exact absurd hd hne
    · have hc := hdig c (by rw [hd]; simp)
      have h45 : ¬ c = 45 := by omega
      have h43 : ¬ c = 43 := by omega
      rw [hd] at hval
      simp only [Itoa, hneg, if_false, hd, Atoi, h45, h43, or_self, hval]
      have h1 : id.natAbs < 2 ^ 63 := by omega
      simp only [reduceCtorEq, if_false, h1, if_true, Option.some.injEq]
      omega

theorem Itoa_bytes (id : Int) : ∀ c ∈ Itoa id, c = 45 ∨ (48 ≤ c ∧ c ≤ 57) := by
  obtain ⟨-, hdig, -⟩ := natDigits_spec (id.natAbs + 1) id.natAbs (by omega)
  intro c hc
  unfold Itoa at hc
  split at hc
  · rcases List.mem_cons.1 hc with rfl | hc
    · left; rfl
    · right; exact hdig c hc
  · right; exact hdig c hc

theorem hexDigit_lt (n : Nat) (h : n < 16) : hexDigit n < 128 ∧ hexDigit n ≠ 58 := by
  unfold hexDigit
  split <;> omega

theorem hexBytes_bytes (b : GoString) : ∀ c ∈ hexBytes b, c < 128 ∧ c ≠ 58 := by
  intro c hc
  unfold hexBytes at hc
  rcases List.mem_flatMap.1 hc with ⟨x, -, hx⟩
  simp only [List.mem_cons, List.mem_singleton, List.not_mem_nil, or_false] at hx
  rcases hx with rfl | rfl
  · exact hexDigit_lt _ (Nat.mod_lt _ (by decide))
  · exact hexDigit_lt _ (Nat.mod_lt _ (by decide))

theorem sepIndexFrom_ascii (a b : GoString) (i : Nat) (ha : 58 ∉ a) :
    sepIndexFrom ((a ++ 58 :: b).map (fun c => (c, [c]))) i = some (i + a.length) := by
  induction a generalizing i with
  | nil => simp [sepIndexFrom]
  | cons c a ih =>
    simp only [List.mem_cons, not_or] at ha
    have hc : ¬ c = 58 := fun e => ha.1 e.symm
    have e : sepIndexFrom ((c :: a ++ 58 :: b).map (fun c => (c, [c]))) i
        = sepIndexFrom ((a ++ 58 :: b).map (fun c => (c, [c]))) (i + 1) := by
      simp [sepIndexFrom, hc]
    rw [e, ih _ ha.2]
    simp only [List.length_cons]
    congr 1
    omega

/-! ### Relative time: the whole minutes and hours of a duration -/

theorem RoundsToFloat64.exact {R : ℚ → ℚ} (hR : RoundsToFloat64 R) (m : Nat) (hm : m < 2 ^ 53) :
    R (m : ℚ) = m := by
  have h := hR (m : ℚ) m 0 hm (by omega)
  simp only [pow_zero, div_one] at h
  exact le_antisymm (h.1 le_rfl) (h.2 le_rfl)

/-- The whole part of `q + r / den` computed in `float64` is `q`, when `q` is
small and `den` is at most `2^k`. -/
theorem truncate_float_sum {R : ℚ → ℚ} (hR : RoundsToFloat64 R) (q r den k : Nat)
    (hq : q < 64) (hr : r < den) (hden : den ≤ 2 ^ k) (hk : k ≤ 46) :
    truncate (R (R (q : ℚ) + R (R (r : ℚ) / den))) = q := by
  have hk2 : (2 : Nat) ^ k ≤ 2 ^ 46 := Nat.pow_le_pow_right (by decide) hk
  have hpos : (0 : ℚ) < (2 : ℚ) ^ k := by positivity
  have hdenpos : (0 : ℚ) < den := by
    have : 0 < den := by omega
    exact_mod_cast this
  have hone : 1 ≤ 2 ^ k := Nat.one_le_two_pow
  rw [hR.exact q (by omega), hR.exact r (by omega)]
  -- the quotient stays within [0, 1 - 2^-k]
  have hqle : (r : ℚ) / den ≤ ((2 ^ k - 1 : Nat) : ℚ) / 2 ^ k := by
    rw [div_le_div_iff₀ hdenpos hpos]
    have h1 : r * 2 ^ k ≤ (2 ^ k - 1) * den := by
      have : r + 1 ≤ den := hr
      calc r * 2 ^ k = r * (2 ^ k - 1) + r := by
              rw [Nat.mul_sub, Nat.mul_one, Nat.sub_add_cancel]
              exact Nat.le_mul_of_pos_right r (by omega)
        _ ≤ r * (2 ^ k - 1) + (2 ^ k - 1) := by
              have : r ≤ 2 ^ k - 1 := by omega
              omega
        _ = (r + 1) * (2 ^ k - 1) := by ring
        _ ≤ den * (2 ^ k - 1) := Nat.mul_le_mul_right _ this
        _ = (2 ^ k - 1) * den := by ring
    exact_mod_cast h1
  have hq0 : (0 : ℚ) ≤ (r : ℚ) / den := by positivity
  have hA := hR ((r : ℚ) / den) (2 ^ k - 1) k (by omega) (by omega)
  have hB := hR ((r : ℚ) / den) 0 0 (by decide) (by omega)
  have hfrac_le := hA.1 hqle
  have hfrac_ge : (0 : ℚ) ≤ R ((r : ℚ) / den) := by
    have := hB.2 (by simpa using hq0)
    simpa using this
  -- the sum stays within [q, q + 1 - 2^-k]
  have hsum_le : (q : ℚ) + R ((r : ℚ) / den) ≤ (((q + 1) * 2 ^ k - 1 : Nat) : ℚ) / 2 ^ k := by
    have e : (((q + 1) * 2 ^ k - 1 : Nat) : ℚ) / 2 ^ k
        = (q : ℚ) + ((2 ^ k - 1 : Nat) : ℚ) / 2 ^ k := by
      have h1 : (q + 1) * 2 ^ k - 1 = q * 2 ^ k + (2 ^ k - 1) := by
        rw [Nat.add_mul, Nat.one_mul]
        omega
      rw [h1]
      push_cast
      field_simp
    rw [e]
    linarith
  have hmbound : (q + 1) * 2 ^ k - 1 < 2 ^ 53 := by
    have : (q + 1) * 2 ^ k ≤ 64 * 2 ^ 46 := Nat.mul_le_mul (by omega) hk2
    have : (64 : Nat) * 2 ^ 46 = 2 ^ 52 := by norm_num
    have : (2 : Nat) ^ 52 < 2 ^ 53 := by norm_num
    omega
  have hC := hR ((q : ℚ) + R ((r : ℚ) / den)) ((q + 1) * 2 ^ k - 1) k hmbound (by omega)
  have hD := hR ((q : ℚ) + R ((r : ℚ) / den)) q 0 (by omega) (by omega)
  have hs_le := hC.1 hsum_le
  have hs_ge : (q : ℚ) ≤ R ((q : ℚ) + R ((r : ℚ) / den)) := by
    have := hD.2 (by simpa using hfrac_ge)
    simpa using this
  have hlt : R ((q : ℚ) + R ((r : ℚ) / den)) < (q : ℚ) + 1 := by
    have e : (((q + 1) * 2 ^ k - 1 : Nat) : ℚ) / 2 ^ k < (q : ℚ) + 1 := by
      rw [div_lt_iff₀ hpos]
      have h1 : (q + 1) * 2 ^ k - 1 < (q + 1) * 2 ^ k := by
        have : 0 < (q + 1) * 2 ^ k := Nat.mul_pos (by omega) (by omega)
        omega
      have h2 : (((q + 1) * 2 ^ k - 1 : Nat) : ℚ) < (((q + 1) * 2 ^ k : Nat) : ℚ) := by
        exact_mod_cast h1
      calc (((q + 1) * 2 ^ k - 1 : Nat) : ℚ) < (((q + 1) * 2 ^ k : Nat) : ℚ) := h2
        _ = ((q : ℚ) + 1) * 2 ^ k := by push_cast; ring
    linarith
  have hnn : (0 : ℚ) ≤ R ((q : ℚ) + R ((r : ℚ) / den)) := le_trans (by positivity) hs_ge
  unfold truncate
  rw [if_pos hnn, Int.floor_eq_iff]
  constructor
  · exact_mod_cast hs_ge
  · push_cast
    exact hlt

theorem timeSub_eq (now t : Int) (h1 : -(2 ^ 63) ≤ now - t) (h2 : now - t ≤ 2 ^ 63 - 1) :
    timeSub now t = now - t := by
  unfold timeSub
  rw [if_neg (by omega), if_neg (by omega)]

theorem timeSub_mono_low (now t : Int) (h : now - t < minute) : timeSub now t < minute := by
  unfold timeSub minute at *
  split_ifs <;> omega

theorem timeSub_high (now t : Int) (h : 48 * hour ≤ now - t) : 48 * hour ≤ timeSub now t := by
  unfold timeSub hour at *
  split_ifs <;> omega

/-- `int(d.Minutes())` is the number of whole minutes, below one hour. -/
theorem truncate_durationMinutes {R : ℚ → ℚ} (hR : RoundsToFloat64 R) (d : Int)
    (h0 : 0 ≤ d) (h1 : d < hour) : truncate (durationMinutes R d) = d / minute := by
  obtain ⟨n, rfl⟩ := Int.eq_ofNat_of_zero_le h0
  have hq : n / 60000000000 < 64 := by
    unfold hour at h1
    omega
  have hr : n % 60000000000 < 60000000000 := Nat.mod_lt _ (by decide)
  have key := truncate_float_sum hR (n / 60000000000) (n % 60000000000) 60000000000 36 hq hr
    (by norm_num) (by decide)
  have e1 : Int.tdiv (n : Int) minute = ((n / 60000000000 : Nat) : Int) := by
    unfold minute
    rw [Int.tdiv_eq_ediv (by omega) (by omega)]
    rfl
  have e2 : Int.tmod (n : Int) minute = ((n % 60000000000 : Nat) : Int) := by
    unfold minute
    rw [Int.tmod_eq_emod (by omega) (by omega)]
    rfl
  have e3 : (n : Int) / minute = ((n / 60000000000 : Nat) : Int) := by
    unfold minute
    rfl
  rw [e3, ← key]
  unfold durationMinutes
  simp only [e1, e2, Int.cast_natCast]
  norm_num

/-- `int(d.Hours())` is the number of whole hours, below 24 hours. -/
theorem truncate_durationHours {R : ℚ → ℚ} (hR : RoundsToFloat64 R) (d : Int)
    (h0 : 0 ≤ d) (h1 : d < 24 * hour) : truncate (durationHours R d) = d / hour := by
  obtain ⟨n, rfl⟩ := Int.eq_ofNat_of_zero_le h0
  have hq : n / 3600000000000 < 64 := by
    unfold hour at h1
    omega
  have hr : n % 3600000000000 < 3600000000000 := Nat.mod_lt _ (by decide)
  have key := truncate_float_sum hR (n / 3600000000000) (n % 3600000000000) 3600000000000 42 hq
    hr (by norm_num) (by decide)
  have e1 : Int.tdiv (n : Int) hour = ((n / 3600000000000 : Nat) : Int) := by
    unfold hour
    rw [Int.tdiv_eq_ediv (by omega) (by omega)]
    rfl
  have e2 : Int.tmod (n : Int) hour = ((n % 3600000000000 : Nat) : Int) := by
    unfold hour
    rw [Int.tmod_eq_emod (by omega) (by omega)]
    rfl
  have e3 : (n : Int) / hour = ((n / 3600000000000 : Nat) : Int) := by
    unfold hour
    rfl
  rw [e3, ← key]
  unfold durationHours
  simp only [e1, e2, Int.cast_natCast]
  norm_num

theorem minutes_text_ne (n : Int) (h2 : 2 ≤ n) (h59 : n ≤ 59) :
    Itoa n ++ lit " Minutes ago" ≠ lit "1 Minute ago" ∧
    Itoa n ++ lit " Minutes ago" ≠ lit "1 Hour ago" ∧
    Itoa n ++ lit " Minutes ago" ≠ lit "Yesterday" := by
  interval_cases n <;> decide

theorem hours_text_ne (n : Int) (h2 : 2 ≤ n) (h23 : n ≤ 23) :
    Itoa n ++ lit " Hours ago" ≠ lit "1 Minute ago" ∧
    Itoa n ++ lit " Hours ago" ≠ lit "1 Hour ago" ∧
    Itoa n ++ lit " Hours ago" ≠ lit "Yesterday" := by
  interval_cases n <;> decide

/-- The answer of `formatRelativeTime` in each of its seven ranges. -/
theorem formatRelativeTime_cases (R : ℚ → ℚ) (formatDate : Int → GoString)
    (hR : RoundsToFloat64 R) (now t : Int) :
    (now - t < minute → formatRelativeTime R formatDate now t = lit "Just now") ∧
    (minute ≤ now - t → now - t < 2 * minute →
      formatRelativeTime R formatDate now t = lit "1 Minute ago") ∧
    (2 * minute ≤ now - t → now - t < hour →
      formatRelativeTime R formatDate now t = Itoa ((now - t) / minute) ++ lit " Minutes ago" ∧
      2 ≤ (now - t) / minute ∧ (now - t) / minute ≤ 59) ∧
    (hour ≤ now - t → now - t < 2 * hour →
      formatRelativeTime R formatDate now t = lit "1 Hour ago") ∧
    (2 * hour ≤ now - t → now - t < 24 * hour →
      formatRelativeTime R formatDate now t = Itoa ((now - t) / hour) ++ lit " Hours ago" ∧
      2 ≤ (now - t) / hour ∧ (now - t) / hour ≤ 23) ∧
    (24 * hour ≤ now - t → now - t < 48 * hour →
      formatRelativeTime R formatDate now t = lit "Yesterday") ∧
    (48 * hour ≤ now - t → formatRelativeTime R formatDate now t = formatDate t) := by
  have hm : minute = 60000000000 := rfl
  have hh : hour = 3600000000000 := rfl
  have mid : ∀ (lo : 0 ≤ now - t) (hi : now - t < 48 * hour), timeSub now t = now - t := by
    intro lo hi
    exact timeSub_eq now t (by omega) (by rw [hh] at hi; omega)
  refine ⟨?_, ?_, ?_, ?_, ?_, ?_, ?_⟩
  · intro h
    unfold formatRelativeTime
    simp only [timeSub_mono_low now t h, if_true]
  · intro h1 h2
    have hd := mid (by omega) (by omega)
    have hq : (now - t) / minute = 1 := by rw [hm] at *; omega
    unfold formatRelativeTime
    simp only [hd]
    rw [if_neg (by omega), if_pos (by omega),
      truncate_durationMinutes hR _ (by omega) (by omega), hq]
    simp
  · intro h1 h2
    have hd := mid (by omega) (by omega)
    have hq : 2 ≤ (now - t) / minute ∧ (now - t) / minute ≤ 59 := by rw [hm] at *; omega
    refine ⟨?_, hq⟩
    unfold formatRelativeTime
    simp only [hd]
    rw [if_neg (by omega), if_pos (by omega),
      truncate_durationMinutes hR _ (by omega) (by omega), if_neg (by omega)]
  · intro h1 h2
    have hd := mid (by omega) (by omega)
    have hq : (now - t) / hour = 1 := by rw [hh] at *; omega
    unfold formatRelativeTime
    simp only [hd]
    rw [if_neg (by omega), if_neg (by omega), if_pos (by omega),
      truncate_durationHours hR _ (by omega) (by omega), hq]
    simp
  · intro h1 h2
    have hd := mid (by omega) (by omega)
    have hq : 2 ≤ (now - t) / hour ∧ (now - t) / hour ≤ 23 := by rw [hh] at *; omega
    refine ⟨?_, hq⟩
    unfold formatRelativeTime
    simp only [hd]
    rw [if_neg (by omega), if_neg (by omega), if_pos (by omega),
      truncate_durationHours hR _ (by omega) (by omega), if_neg (by omega)]
  · intro h1 h2
    have hd := mid (by omega) (by omega)
    unfold formatRelativeTime
    simp only [hd]
    rw [if_neg (by omega), if_neg (by omega), if_neg (by omega), if_pos (by omega)]
  · intro h
    have hd := timeSub_high now t h
    unfold formatRelativeTime
    simp only []
    rw [if_neg (by omega), if_neg (by omega), if_neg (by omega), if_neg (by omega)]

/-! ### Panicking uploads, lookup errors and the printed line -/

/-- The attachment loop panics when the session of one of its uploads is not
created. -/
theorem uploadAttachments_panics (cfg : Config) (emailID : GoString) (atts : List Part)
    (w : World) (initFails fails : Nat → Bool) (acc : List GoString) (i : Nat)
    (hi : i < atts.length) (hfail : initFails i = true) :
    (uploadAttachments cfg emailID w initFails fails atts acc).2 = none := by
  induction atts generalizing w initFails fails acc i with
  | nil => simp at hi
  | cons att rest ih =>
    cases h0 : initFails 0
    · have hpos : 0 < i := by
        rcases Nat.eq_zero_or_pos i with h | h
        · subst h; rw [h0] at hfail; cases hfail
        · exact h
      obtain ⟨j, rfl⟩ : ∃ j, i = j + 1 := ⟨i - 1, by omega⟩
      have hj : j < rest.length := by simpa using hi
      cases hf : fails 0
      · have := ih ({ w.record (.putObject (lit "attachments/" ++ emailID ++ lit "/" ++ att.FileName))
            with objects := fun k =>
              if k = lit "attachments/" ++ emailID ++ lit "/" ++ att.FileName then some att.Content
              else w.objects k }) (fun i => initFails (i + 1)) (fun i => fails (i + 1))
          (acc ++ [attachmentURL cfg emailID att]) j hj hfail
        simpa [uploadAttachments, UploadAttachment, putObject, h0, hf, World.record,
          attachmentURL] using this
      · have := ih (w.record (.putObject (lit "attachments/" ++ emailID ++ lit "/"
            ++ att.FileName))) (fun i => initFails (i + 1)) (fun i => fails (i + 1)) acc j hj
            hfail
        simpa [uploadAttachments, UploadAttachment, putObject, h0, hf, World.record] using this
    · simp [uploadAttachments, UploadAttachment, h0]

/-- A message one of whose uploads cannot create its session: the loop body
panics and inserts no row. -/
theorem processRawEmail_panics (L : Lib) (cfg : Config) (w : World)
    (emailSendTo : GoString) (rawEmail : IncomingRow) (f : MsgFaults) (env : Envelope) (i : Nat)
    (henv : L.ReadEnvelope rawEmail.email_data = some env)
    (hi : i < env.Attachments.length) (hfail : f.session i = true) :
    (processRawEmail L cfg w emailSendTo rawEmail f).2 = true ∧
    (processRawEmail L cfg w emailSendTo rawEmail f).1.emails = w.emails ∧
    (processRawEmail L cfg w emailSendTo rawEmail f).1.incoming_emails = w.incoming_emails := by
  have hp := uploadAttachments_panics cfg rawEmail.message_id env.Attachments w f.session
    f.upload [] i hi hfail
  obtain ⟨-, hemails, -, hinc⟩ := uploadAttachments_frame cfg rawEmail.message_id
    env.Attachments w f.session f.upload []
  unfold processRawEmail
  simp only [henv]
  rcases hres : uploadAttachments cfg rawEmail.message_id w f.session f.upload env.Attachments []
    with ⟨w1, _ | urls⟩
  · rw [hres] at hemails hinc
    exact ⟨rfl, hemails, hinc⟩
  · rw [hres] at hp
    cases hp

/-- A listed object whose MIME parsing fails, or whose recipient is found by
a lookup call that succeeds and whose staging insert fails: the run issues no
`DeleteObject` for its key and the object is still in the bucket after the
run (the listing names each key once). -/
theorem SyncEmails_retained (L : Lib) (w : World) (pages : List (List Listed))
    (listFails : Bool) (pre post : List Listed) (o : Listed) (body : GoString)
    (hpages : pages.flatten = pre ++ o :: post)
    (hothers : ∀ p ∈ pre ++ post, p.key ≠ o.key)
    (hbody : w.objects o.key = some body)
    (hfail : L.ReadEnvelope body = none ∨
      (∃ addr date u, extractRecipientEmail L body = .ok (addr, date) ∧
        o.faults.selectUser = false ∧ w.users.find? (fun u => u.email = addr) = some u ∧
        o.faults.insert = true)) :
    (SyncEmails L w false pages listFails).1.trace.count (.deleteObject o.key)
      = w.trace.count (.deleteObject o.key) ∧
    (SyncEmails L w false pages listFails).1.objects o.key = some body := by
  rw [SyncEmails_eq]
  simp only [hpages, List.foldl_append, List.foldl_cons]
  have hpre := foldl_syncObject_frame L pre w o.key (fun p hp => hothers p (by simp [hp]))
  have husers : (pre.foldl (syncObject L) w).users = w.users := (foldl_syncObject_global L pre w).2.1
  have hstep := syncObject_retained L (pre.foldl (syncObject L) w) o body (hpre.1.trans hbody)
    (by
      rcases hfail with h | ⟨addr, date, u, hx, hsel, hu, hins⟩
      · exact Or.inl ⟨.parseEmail, by simp [extractRecipientEmail, h]⟩
      · exact Or.inr ⟨addr, date, u, hx, hsel, by rw [husers]; exact hu, hins⟩)
  have hpost := foldl_syncObject_frame L post (syncObject L (pre.foldl (syncObject L) w) o) o.key
    (fun p hp => hothers p (by simp [hp]))
  exact ⟨hpost.2.1.trans (hstep.2.1.trans hpre.2.1), hpost.1.trans hstep.1⟩

/-- An object whose recipient lookup call fails and whose staging insert
fails: the object is deleted and nothing is staged, whether or not the
recipient is registered. -/
theorem syncObject_lookup_error (L : Lib) (w : World) (o : Listed) (body addr : GoString)
    (date : Nat)
    (hkey : o.key ≠ []) (hget : o.faults.getObject = false)
    (hbody : w.objects o.key = some body)
    (hparse : extractRecipientEmail L body = .ok (addr, date))
    (hsel : o.faults.selectUser = true) (hdel : o.faults.deleteUnknown = false)
    (hins : o.faults.insert = true) :
    (syncObject L w o).objects o.key = none ∧
    (syncObject L w o).incoming_emails = w.incoming_emails ∧
    (syncObject L w o).trace = w.trace ++
      [.getObject o.key, .selectUser addr, .deleteObject o.key, .insertIncoming o.key] := by
  unfold syncObject
  simp [hkey, getObject, hget, hbody, bufferBytes, storeRawEmail, hparse, selectUserID, hsel,
    DeleteS3ByMessageID, deleteObject, hdel, insertIncoming, hins, World.record]

/-- The loop body with its printed line is the loop body. -/
theorem syncObjectLine_fst (L : Lib) (w : World) (obj : Listed) :
    (syncObjectLine L w obj).1 = syncObject L w obj := by
  unfold syncObjectLine syncObject
  by_cases hk : obj.key = []
  · simp [hk]
  · simp only [hk, if_false]
    rcases hg : getObject w obj.key obj.faults.getObject with ⟨w1, _ | body⟩
    · rfl
    · simp only [bufferBytes]
      rcases hs : storeRawEmail L w1 obj.key body obj.faults with ⟨w2, _ | e⟩
      · simp only
        rcases hd : deleteObject w2 obj.key obj.faults.deleteObject with ⟨w3, _ | e⟩ <;> rfl
      · rfl

/-- The line `emailContent is empty` is never printed. -/
theorem syncObjectLine_never_empty (L : Lib) (w : World) (obj : Listed) :
    (syncObjectLine L w obj).2 ≠ some .emptyContent := by
  unfold syncObjectLine
  by_cases hk : obj.key = []
  · simp [hk]
  · simp only [hk, if_false]
    rcases hg : getObject w obj.key obj.faults.getObject with ⟨w1, _ | body⟩
    · simp
    · simp only [bufferBytes]
      rcases hs : storeRawEmail L w1 obj.key body obj.faults with ⟨w2, _ | e⟩
      · simp only
        rcases hd : deleteObject w2 obj.key obj.faults.deleteObject with ⟨w3, _ | e⟩ <;> simp
      · simp

/-! ## The claims -/

/-- Claim C1, counterexample. An account with no inbox row and 11 pending raw
messages: one completed `processIncomingEmails` call leaves it with 11 inbox
rows. -/
theorem processIncomingEmails_exceeds_cap :
    (inboxRows (mailbox 0 11 0) 1).length ≤ 10 ∧
    (processIncomingEmails demoLib demoConfig (mailbox 0 11 0) 1 (lit "user1@example.com")
      noProcFaults).2 = .ok ∧
    (inboxRows (processIncomingEmails demoLib demoConfig (mailbox 0 11 0) 1
      (lit "user1@example.com") noProcFaults).1 1).length = 11 := by
  decide

/-- Claim C1, as amended. A completed `processIncomingEmails` call for an
account with `n` inbox rows that finds `p` pending raw messages leaves the
account with at most `max (n - 1) 10 + p` inbox rows (at most one row is
evicted, before the inserts), and it adds at most `p` inbox rows to any
account. -/
theorem processIncomingEmails_retention_bound (L : Lib) (cfg : Config) (w : World)
    (userID : Int) (emailSendTo : GoString) (f : ProcFaults)
    (hok : (processIncomingEmails L cfg w userID emailSendTo f).2 = .ok) :
    (inboxRows (processIncomingEmails L cfg w userID emailSendTo f).1 userID).length
      ≤ max ((inboxRows w userID).length - 1) 10 + (pendingRows w emailSendTo).length ∧
    ∀ u, (inboxRows (processIncomingEmails L cfg w userID emailSendTo f).1 u).length
      ≤ (inboxRows w u).length + (pendingRows w emailSendTo).length := by
  refine ⟨?_, fun u => processIncomingEmails_inbox_le L cfg w userID emailSendTo f u⟩
  obtain ⟨hinc, hle, hlt⟩ := enforceRetention_spec w userID f
  unfold processIncomingEmails at hok ⊢
  rcases hres : enforceRetention w userID f with ⟨w1, _ | err⟩
  · rw [hres] at hinc hle hlt hok
    simp only at hinc hle hlt hok ⊢
    cases hs : f.selectIncoming
    · simp only [hs, Bool.false_eq_true, if_false] at hok ⊢
      have hpend : pendingRows (w1.record (.selectIncoming emailSendTo)) emailSendTo
          = pendingRows w emailSendTo := by
        simp [pendingRows, World.record, hinc]
      rw [hpend] at hok ⊢
      have h1 := processRawEmails_inbox_le L cfg emailSendTo
        (pendingRows w emailSendTo) (w1.record (.selectIncoming emailSendTo)) f.message userID
      have hrec : inboxRows (w1.record (.selectIncoming emailSendTo)) userID
          = inboxRows w1 userID := rfl
      rw [hrec] at h1
      rcases hloop : processRawEmails L cfg emailSendTo
        (w1.record (.selectIncoming emailSendTo)) f.message (pendingRows w emailSendTo)
        with ⟨w2, flag⟩
      rw [hloop] at hok h1
      cases flag
      · simp only at h1 ⊢
        have h2 := hle userID
        by_cases h10 : 10 < (inboxRows w userID).length
        · have h3 := hlt trivial h10
          have : (inboxRows w userID).length - 1 ≤ max ((inboxRows w userID).length - 1) 10 :=
            le_max_left _ _
          omega
        · have : 10 ≤ max ((inboxRows w userID).length - 1) 10 := le_max_right _ _
          omega
      · simp at hok
    · simp [hs] at hok
  · rw [hres] at hok
    simp at hok

/-- Claim C1, witness: an account with 11 inbox rows and 2 pending raw
messages; the call completes and leaves 12 rows. -/
theorem processIncomingEmails_retention_bound_witness :
    (inboxRows (processIncomingEmails demoLib demoConfig (mailbox 11 2 0) 1
      (lit "user1@example.com") noProcFaults).1 1).length = 12 ∧
    ((inboxRows (processIncomingEmails demoLib demoConfig (mailbox 11 2 0) 1
        (lit "user1@example.com") noProcFaults).1 1).length
      ≤ max ((inboxRows (mailbox 11 2 0) 1).length - 1) 10
        + (pendingRows (mailbox 11 2 0) (lit "user1@example.com")).length ∧
    ∀ u, (inboxRows (processIncomingEmails demoLib demoConfig (mailbox 11 2 0) 1
        (lit "user1@example.com") noProcFaults).1 u).length
      ≤ (inboxRows (mailbox 11 2 0) u).length
        + (pendingRows (mailbox 11 2 0) (lit "user1@example.com")).length) :=
  ⟨by decide,
    processIncomingEmails_retention_bound demoLib demoConfig (mailbox 11 2 0) 1
      (lit "user1@example.com") noProcFaults (by decide)⟩

/-- Claim C2, the code at the failing input. An account with exactly 10 inbox
rows (created at times 1 to 10) and one pending raw message that ingests
successfully: the call deletes nothing, the row created at time 1 is still
there and the inbox has 11 rows. With 11 rows before the call the row created
at time 1 is evicted. -/
theorem processIncomingEmails_at_cap_keeps_oldest :
    (inboxRows (mailbox 10 1 0) 1).length = 10 ∧
    (processIncomingEmails demoLib demoConfig (mailbox 10 1 0) 1 (lit "user1@example.com")
      noProcFaults).2 = .ok ∧
    ((processIncomingEmails demoLib demoConfig (mailbox 10 1 0) 1 (lit "user1@example.com")
      noProcFaults).1.emails.map (fun e => e.created_at))
        = [1, 2, 3, 4, 5, 6, 7, 8, 9, 10, 200] ∧
    (processIncomingEmails demoLib demoConfig (mailbox 10 1 0) 1 (lit "user1@example.com")
      noProcFaults).1.trace
        = [.countInbox 1, .selectIncoming (lit "user1@example.com"), .selectUser
            (lit "user1@example.com"), .insertEmail [109, 48], .deleteIncoming 1] ∧
    ((processIncomingEmails demoLib demoConfig (mailbox 11 1 0) 1 (lit "user1@example.com")
      noProcFaults).1.emails.map (fun e => e.created_at))
        = [2, 3, 4, 5, 6, 7, 8, 9, 10, 11, 200] := by
  decide

/-- Claim C3. A listed raw object that parses and whose first `To` address
matches no row of `users`: once `SyncEmails` has handled it, with the delete
issued for the unknown recipient succeeding, the object is no longer in the
bucket, and the run has added no row to `emails`. The object is fetched from
the bucket as it is when its turn comes (after the objects `pre` listed before
it). -/
theorem SyncEmails_unknown_recipient_removed (L : Lib) (w : World) (pages : List (List Listed))
    (listFails : Bool) (pre post : List Listed) (o : Listed) (body addr : GoString) (date : Nat)
    (hpages : pages.flatten = pre ++ o :: post)
    (hkey : o.key ≠ [])
    (hget : o.faults.getObject = false)
    (hbody : (pre.foldl (syncObject L) w).objects o.key = some body)
    (hparse : extractRecipientEmail L body = .ok (addr, date))
    (hunknown : ∀ u ∈ w.users, u.email ≠ addr)
    (hdel : o.faults.deleteUnknown = false) :
    (SyncEmails L w false pages listFails).1.objects o.key = none ∧
    (SyncEmails L w false pages listFails).1.emails = w.emails := by
  rw [SyncEmails_eq]
  refine ⟨?_, (foldl_syncObject_global L _ w).1⟩
  simp only [hpages, List.foldl_append, List.foldl_cons]
  apply (foldl_syncObject_global L post _).2.2
  have husers : (pre.foldl (syncObject L) w).users = w.users := (foldl_syncObject_global L pre w).2.1
  rw [syncObject_of_fetched L _ o body hkey hget hbody]
  have hfind : ((pre.foldl (syncObject L) w).record (.getObject o.key)).users.find?
      (fun u => u.email = addr) = none := by
    show (pre.foldl (syncObject L) w).users.find? _ = none
    rw [husers, List.find?_eq_none]
    intro u hu
    simpa using hunknown u hu
  have h1 := storeRawEmail_of_unknown L ((pre.foldl (syncObject L) w).record (.getObject o.key))
    o.key body o.faults addr date hparse (Or.inr hfind) hdel
  split
  · exact h1
  · exact (deleteObject_frame _ _ _).objects_none _ h1

/-- Claim C3, witness: the object `unknown` of the sample bucket. -/
theorem SyncEmails_unknown_recipient_removed_witness :
    (SyncEmails demoLib demoWorld false demoPages false).1.objects (lit "unknown") = none ∧
    (SyncEmails demoLib demoWorld false demoPages false).1.emails = demoWorld.emails :=
  SyncEmails_unknown_recipient_removed demoLib demoWorld demoPages false
    [⟨lit "bad", noFaults⟩] [⟨lit "noto", noFaults⟩, ⟨lit "ok", noFaults⟩]
    ⟨lit "unknown", noFaults⟩ (1 :: lit "nobody@example.com") (lit "nobody@example.com") 7
    (by decide) (by decide) (by decide) (by decide) (by rfl) (by decide) (by decide)

/-- Claim C4, counterexample. A plain text of 201 spaces is longer than 200
characters, and its preview is the empty string (for every entity decoder and
print table): the text is cleaned and trimmed before it is measured. -/
theorem generatePreview_blank_plain_text :
    200 < (List.replicate 201 32).length ∧
    ∀ L : Lib, generatePreview L (List.replicate 201 32) [] = [] := by
  refine ⟨by rw [List.length_replicate]; omega, fun L => ?_⟩
  have hne : List.replicate 201 32 ≠ ([] : GoString) := by
    intro h
    have := congrArg List.length h
    rw [List.length_replicate] at this
    exact absurd this (by decide)
  unfold generatePreview
  simp only [ne_eq, hne, not_false_eq_true, if_true, html2text_spaces, List.length_nil,
    gt_iff_lt, Nat.not_lt_zero, if_false]

/-- Claim C4, as amended. When the cleaned text (`html2text` of the plain
text if it is non-empty, of the HTML body otherwise) is longer than 200 bytes,
`generatePreview` returns its first 200 bytes followed by `...`, 203 bytes in
all. -/
theorem generatePreview_truncates (L : Lib) (plainText htmlBody : GoString)
    (hlong : 200 < (html2text L (if plainText ≠ [] then plainText else htmlBody)).length) :
    generatePreview L plainText htmlBody
      = (html2text L (if plainText ≠ [] then plainText else htmlBody)).take 200 ++ lit "..." ∧
    (generatePreview L plainText htmlBody).length = 203 := by
  have h3 : (lit "...").length = 3 := by decide
  by_cases hp : plainText = []
  · simp only [hp, ne_eq, not_true_eq_false, if_false] at hlong ⊢
    simp only [generatePreview, ne_eq, not_true_eq_false, if_false, gt_iff_lt, hlong, if_true,
      List.length_append, List.length_take, h3, true_and]
    omega
  · simp only [ne_eq, hp, not_false_eq_true, if_true] at hlong ⊢
    simp only [generatePreview, ne_eq, hp, not_false_eq_true, if_true, gt_iff_lt, hlong,
      List.length_append, List.length_take, h3, true_and]
    omega

/-- Claim C4, witness: a plain text of 201 letters `a`. -/
theorem generatePreview_truncates_witness :
    generatePreview demoLib (List.replicate 201 97) []
      = List.replicate 200 97 ++ lit "..." ∧
    (generatePreview demoLib (List.replicate 201 97) []).length = 203 := by
  have h := generatePreview_truncates demoLib (List.replicate 201 97) [] (by decide)
  have e : (html2text demoLib (if List.replicate 201 97 ≠ ([] : GoString)
      then List.replicate 201 97 else [])).take 200 = List.replicate 200 97 := by decide
  rw [e] at h
  exact h

/-- Claim C5, evaluation. When the session of every upload is created, the
row of a message that parses, has a sender, and whose user lookup and insert
succeed carries as attachment list the JSON encoding of exactly the URLs of
the uploads whose put succeeded, in attachment order: a failed put is left out
and does not keep the row from being inserted (three attachments, second put
failing: the URLs of `a.txt` and `c.txt`). But when an upload fails because
its session cannot be created, `UploadAttachment` panics: the loop body
inserts no row and leaves the raw message pending, and `processIncomingEmails`
ends in the panic (three attachments, second session failing: one put, no
row). -/
theorem processRawEmail_session_failure_loses_row :
    (∀ (L : Lib) (cfg : Config) (w : World) (emailSendTo : GoString) (rawEmail : IncomingRow)
      (f : MsgFaults) (env : Envelope) (from0 : EmailAddress) (froms : List EmailAddress)
      (u : UserRow),
      L.ReadEnvelope rawEmail.email_data = some env →
      parseAddresses L (env.GetHeader (lit "From")) = from0 :: froms →
      (∀ i, f.session i = false) →
      f.selectUser = false →
      w.users.find? (fun u => u.email = emailSendTo) = some u →
      f.insert = false →
      (processRawEmail L cfg w emailSendTo rawEmail f).1.emails = w.emails ++
        [{ id := w.emailSeq, user_id := u.id, sender_email := from0.Address,
           sender_name := from0.Name, subject := env.GetHeader (lit "Subject"),
           preview := generatePreview L env.Text env.HTML,
           body := if env.HTML ≠ [] then env.HTML else env.Text,
           email_type := lit "inbox",
           attachments := jsonMarshalStrings
             (successfulURLs cfg rawEmail.message_id f.upload 0 env.Attachments),
           message_id := rawEmail.message_id, timestamp := env.Date, created_at := f.now }]) ∧
    (processIncomingEmails demoLib demoConfig (mailbox 0 1 3) 1 (lit "user1@example.com")
        secondUploadFails).1.emails.map (fun e => e.attachments)
      = [lit ("[\"https://bucket.s3.ap-1.amazonaws.com/attachments/m0/a.txt\"," ++
          "\"https://bucket.s3.ap-1.amazonaws.com/attachments/m0/c.txt\"]")] ∧
    (∀ (L : Lib) (cfg : Config) (w : World) (emailSendTo : GoString) (rawEmail : IncomingRow)
      (f : MsgFaults) (env : Envelope) (i : Nat),
      L.ReadEnvelope rawEmail.email_data = some env →
      i < env.Attachments.length → f.session i = true →
      (processRawEmail L cfg w emailSendTo rawEmail f).2 = true ∧
      (processRawEmail L cfg w emailSendTo rawEmail f).1.emails = w.emails ∧
      (processRawEmail L cfg w emailSendTo rawEmail f).1.incoming_emails = w.incoming_emails) ∧
    (processIncomingEmails demoLib demoConfig (mailbox 0 1 3) 1 (lit "user1@example.com")
        secondSessionFails).2 = .panic ∧
    (processIncomingEmails demoLib demoConfig (mailbox 0 1 3) 1 (lit "user1@example.com")
        secondSessionFails).1.emails = [] ∧
    (processIncomingEmails demoLib demoConfig (mailbox 0 1 3) 1 (lit "user1@example.com")
        secondSessionFails).1.incoming_emails = [stagedMessage 3 0] ∧
    (processIncomingEmails demoLib demoConfig (mailbox 0 1 3) 1 (lit "user1@example.com")
        secondSessionFails).1.trace
      = [.countInbox 1, .selectIncoming (lit "user1@example.com"),
         .putObject (lit "attachments/m0/a.txt")] := by
  refine ⟨?_, by decide, ?_, by decide, by decide, by decide, by decide⟩
  · intro L cfg w emailSendTo rawEmail f env from0 froms u henv hfrom hsess hsel hu hins
    exact processRawEmail_row L cfg w emailSendTo rawEmail f env from0 froms u henv hfrom hsess
      hsel hu hins
  · intro L cfg w emailSendTo rawEmail f env i henv hi hfail
    exact processRawEmail_panics L cfg w emailSendTo rawEmail f env i henv hi hfail

/-- Claim C6. For every string `t` of at most 200 printable ASCII characters
without `<`, `>`, `&` and without leading or trailing space, the preview of
the HTML body `<p>t</p>` with no plain text is `t`. -/
theorem generatePreview_html_paragraph (L : Lib) (t : GoString) (hlen : t.length ≤ 200)
    (hprint : ∀ b ∈ t, 32 ≤ b ∧ b ≤ 126) (h60 : 60 ∉ t) (_h62 : 62 ∉ t) (h38 : 38 ∉ t)
    (hhead : t.head? ≠ some 32) (hlast : t.getLast? ≠ some 32) :
    generatePreview L [] (lit "<p>" ++ t ++ lit "</p>") = t := by
  have h := html2text_wrapped_p L t hprint h60 h38 hhead hlast
  have hn : ¬ 200 < t.length := by omega
  unfold generatePreview
  simp only [ne_eq, not_true_eq_false, if_false, h, gt_iff_lt, hn]

/-- Claim C6, witness: the preview of `<p>Hello</p>` is `Hello`, for every
entity decoder and print table. -/
theorem generatePreview_html_paragraph_witness :
    lit "<p>Hello</p>" = lit "<p>" ++ lit "Hello" ++ lit "</p>" ∧
    ∀ L : Lib, generatePreview L [] (lit "<p>" ++ lit "Hello" ++ lit "</p>") = lit "Hello" :=
  ⟨by decide, fun L => generatePreview_html_paragraph L (lit "Hello") (by decide) (by decide)
    (by decide) (by decide) (by decide) (by decide) (by decide)⟩

/-- Claim C7. Whatever the outcomes of the calls made for the listed objects,
`SyncEmails` issues a `GetObject` for every listed object with a non-empty
key, in listing order, and for nothing else; and it returns an error exactly
when the AWS session initialisation or the listing call fails. -/
theorem SyncEmails_failure_isolation (L : Lib) (w : World) (pages : List (List Listed))
    (initFails listFails : Bool) :
    fetchedKeys (SyncEmails L w false pages listFails).1.trace
      = fetchedKeys w.trace ++ (pages.flatten.map (fun o => o.key)).filter (fun k => k ≠ []) ∧
    (SyncEmails L w initFails pages listFails).2
      = (if initFails then some .initAWS else if listFails then some .listObjects else none) := by
  refine ⟨?_, ?_⟩
  · rw [SyncEmails_eq]
    exact foldl_syncObject_fetched L _ w
  · cases initFails
    · rw [SyncEmails_eq]; simp
    · simp [SyncEmails]

/-- Claim C8, evaluation. A listed object whose MIME parsing fails, or whose
recipient is found by a lookup call that succeeds and whose staging insert
fails, is not deleted by the run. But when the lookup call itself fails, the
object is deleted as if the recipient were not registered, and when the
staging insert fails as well nothing is staged: with the database down, the
object `ok`, addressed to the registered `user1@example.com`, is deleted and
no row is staged, and `SyncEmails` returns no error; with only the insert
failing, the same object is kept. -/
theorem SyncEmails_lookup_error_deletes_source :
    (∀ (L : Lib) (w : World) (pages : List (List Listed)) (listFails : Bool)
      (pre post : List Listed) (o : Listed) (body : GoString),
      pages.flatten = pre ++ o :: post →
      (∀ p ∈ pre ++ post, p.key ≠ o.key) →
      w.objects o.key = some body →
      (L.ReadEnvelope body = none ∨
        (∃ addr date u, extractRecipientEmail L body = .ok (addr, date) ∧
          o.faults.selectUser = false ∧ w.users.find? (fun u => u.email = addr) = some u ∧
          o.faults.insert = true)) →
      (SyncEmails L w false pages listFails).1.trace.count (.deleteObject o.key)
        = w.trace.count (.deleteObject o.key) ∧
      (SyncEmails L w false pages listFails).1.objects o.key = some body) ∧
    (∀ (L : Lib) (w : World) (o : Listed) (body addr : GoString) (date : Nat) (u : UserRow),
      o.key ≠ [] → o.faults.getObject = false → w.objects o.key = some body →
      extractRecipientEmail L body = .ok (addr, date) →
      w.users.find? (fun u => u.email = addr) = some u →
      o.faults.selectUser = true → o.faults.deleteUnknown = false → o.faults.insert = true →
      (syncObject L w o).objects o.key = none ∧
      (syncObject L w o).incoming_emails = w.incoming_emails ∧
      (syncObject L w o).trace = w.trace ++
        [.getObject o.key, .selectUser addr, .deleteObject o.key, .insertIncoming o.key]) ∧
    extractRecipientEmail demoLib (1 :: lit "user1@example.com")
      = .ok (lit "user1@example.com", 7) ∧
    demoWorld.users.find? (fun u => u.email = lit "user1@example.com")
      = some { id := 1, email := lit "user1@example.com" } ∧
    demoWorld.objects (lit "ok") = some (1 :: lit "user1@example.com") ∧
    (SyncEmails demoLib demoWorld false [[⟨lit "ok", databaseDown⟩]] false).1.objects (lit "ok")
      = none ∧
    (SyncEmails demoLib demoWorld false [[⟨lit "ok", databaseDown⟩]] false).1.incoming_emails
      = [] ∧
    (SyncEmails demoLib demoWorld false [[⟨lit "ok", databaseDown⟩]] false).1.trace
      = [.getObject (lit "ok"), .selectUser (lit "user1@example.com"),
         .deleteObject (lit "ok"), .insertIncoming (lit "ok")] ∧
    (SyncEmails demoLib demoWorld false [[⟨lit "ok", databaseDown⟩]] false).2 = none ∧
    (SyncEmails demoLib demoWorld false [[⟨lit "ok", { noFaults with insert := true }⟩]]
        false).1.objects (lit "ok") = some (1 :: lit "user1@example.com") ∧
    (SyncEmails demoLib demoWorld false [[⟨lit "ok", { noFaults with insert := true }⟩]]
        false).1.trace
      = [.getObject (lit "ok"), .selectUser (lit "user1@example.com"),
         .insertIncoming (lit "ok")] := by
  refine ⟨?_, ?_, rfl, by decide, by decide, by decide, by decide, by decide, by decide,
    by decide, by decide⟩
  · intro L w pages listFails pre post o body hpages hothers hbody hfail
    exact SyncEmails_retained L w pages listFails pre post o body hpages hothers hbody hfail
  · intro L w o body addr date u hkey hget hbody hparse _ hsel hdel hins
    exact syncObject_lookup_error L w o body addr date hkey hget hbody hparse hsel hdel hins

/-- Claim C9. A listed object with a non-empty key whose fetch, parse,
recipient lookup and staging insert succeed: handling it appends exactly one
row to `incoming_emails`, with `message_id` the key, `email_send_to` the first
`To` address and `processed = false`; the calls made for it are, in this
order, the fetch, the user lookup, the insert and then the delete of the key;
and the key is gone from the bucket when that delete succeeds. -/
theorem SyncEmails_success_path (L : Lib) (w : World) (pages : List (List Listed))
    (listFails : Bool) (pre post : List Listed) (o : Listed) (body addr : GoString) (date : Nat)
    (u : UserRow)
    (hpages : pages.flatten = pre ++ o :: post)
    (hkey : o.key ≠ [])
    (hget : o.faults.getObject = false)
    (hbody : (pre.foldl (syncObject L) w).objects o.key = some body)
    (hparse : extractRecipientEmail L body = .ok (addr, date))
    (hsel : o.faults.selectUser = false)
    (hu : w.users.find? (fun u => u.email = addr) = some u)
    (hins : o.faults.insert = false) :
    (SyncEmails L w false pages listFails).1
      = post.foldl (syncObject L) (syncObject L (pre.foldl (syncObject L) w) o) ∧
    (syncObject L (pre.foldl (syncObject L) w) o).incoming_emails
      = (pre.foldl (syncObject L) w).incoming_emails ++
        [{ id := (pre.foldl (syncObject L) w).incomingSeq, email_send_to := addr,
           message_id := o.key, email_data := body, created_at := o.faults.now,
           processed := false, email_date := date }] ∧
    (syncObject L (pre.foldl (syncObject L) w) o).trace
      = (pre.foldl (syncObject L) w).trace ++
        [.getObject o.key, .selectUser addr, .insertIncoming o.key, .deleteObject o.key] ∧
    (o.faults.deleteObject = false →
      (SyncEmails L w false pages listFails).1.objects o.key = none) := by
  have husers : (pre.foldl (syncObject L) w).users = w.users := (foldl_syncObject_global L pre w).2.1
  have hrun : (SyncEmails L w false pages listFails).1
      = post.foldl (syncObject L) (syncObject L (pre.foldl (syncObject L) w) o) := by
    rw [SyncEmails_eq]
    simp only [hpages, List.foldl_append, List.foldl_cons]
  have hstep : syncObject L (pre.foldl (syncObject L) w) o
      = (deleteObject
          { ((pre.foldl (syncObject L) w).record (.getObject o.key)).record (.selectUser addr)
              |>.record (.insertIncoming o.key) with
            incoming_emails := (pre.foldl (syncObject L) w).incoming_emails ++
              [{ id := (pre.foldl (syncObject L) w).incomingSeq, email_send_to := addr,
                 message_id := o.key, email_data := body, created_at := o.faults.now,
                 processed := false, email_date := date }]
            incomingSeq := (pre.foldl (syncObject L) w).incomingSeq + 1 }
          o.key o.faults.deleteObject).1 := by
    rw [syncObject_of_fetched L _ o body hkey hget hbody,
      storeRawEmail_of_known L ((pre.foldl (syncObject L) w).record (.getObject o.key))
        o.key body o.faults addr date u hparse hsel
        (by show (pre.foldl (syncObject L) w).users.find? _ = some u; rw [husers]; exact hu)]
    simp [hins, World.record]
  refine ⟨hrun, ?_, ?_, fun hd => ?_⟩
  · rw [hstep]
    cases hd : o.faults.deleteObject <;> simp [deleteObject, hd, World.record]
  · rw [hstep]
    cases hd : o.faults.deleteObject <;> simp [deleteObject, hd, World.record]
  · rw [hrun]
    apply (foldl_syncObject_global L post _).2.2
    rw [hstep]
    simp [deleteObject, hd, World.record]

/-- Claim C9, witness: the object `ok` of the sample bucket, the last one
listed; its staging row is the only one of the run with this key. -/
theorem SyncEmails_success_path_witness :
    stagedFor (SyncEmails demoLib demoWorld false demoPages false).1 (lit "ok")
      = [{ id := 2, email_send_to := lit "user1@example.com", message_id := lit "ok",
           email_data := 1 :: lit "user1@example.com", created_at := 100, processed := false,
           email_date := 7 }] ∧
    ((SyncEmails demoLib demoWorld false demoPages false).1
      = ([] : List Listed).foldl (syncObject demoLib)
          (syncObject demoLib (demoBeforeOk.foldl (syncObject demoLib) demoWorld)
            ⟨lit "ok", noFaults⟩) ∧
    (syncObject demoLib (demoBeforeOk.foldl (syncObject demoLib) demoWorld)
        ⟨lit "ok", noFaults⟩).incoming_emails
      = (demoBeforeOk.foldl (syncObject demoLib) demoWorld).incoming_emails ++
        [{ id := (demoBeforeOk.foldl (syncObject demoLib) demoWorld).incomingSeq,
           email_send_to := lit "user1@example.com", message_id := lit "ok",
           email_data := 1 :: lit "user1@example.com", created_at := noFaults.now,
           processed := false, email_date := 7 }] ∧
    (syncObject demoLib (demoBeforeOk.foldl (syncObject demoLib) demoWorld)
        ⟨lit "ok", noFaults⟩).trace
      = (demoBeforeOk.foldl (syncObject demoLib) demoWorld).trace ++
        [.getObject (lit "ok"), .selectUser (lit "user1@example.com"),
          .insertIncoming (lit "ok"), .deleteObject (lit "ok")] ∧
    (noFaults.deleteObject = false →
      (SyncEmails demoLib demoWorld false demoPages false).1.objects (lit "ok") = none)) :=
  ⟨by decide,
    SyncEmails_success_path demoLib demoWorld demoPages false demoBeforeOk []
      ⟨lit "ok", noFaults⟩ (1 :: lit "user1@example.com") (lit "user1@example.com") 7
      { id := 1, email := lit "user1@example.com" }
      (by decide) (by decide) (by decide) (by decide) (by rfl) (by decide) (by decide)
      (by decide)⟩

/-- Claim C10, counterexample. The object `noto` parses as an envelope and has
no `To` address; after the run it is still in the bucket, the only call made
for it is the fetch, and nothing was staged. -/
theorem SyncEmails_no_recipient_not_deleted :
    (demoLib.ReadEnvelope [1]).isSome = true ∧
    parseAddresses demoLib ((demoEnvelope 0 []).GetHeader (lit "To")) = [] ∧
    (SyncEmails demoLib demoWorld false [[⟨lit "noto", noFaults⟩]] false).1.objects (lit "noto")
      = some [1] ∧
    (SyncEmails demoLib demoWorld false [[⟨lit "noto", noFaults⟩]] false).1.trace
      = [.getObject (lit "noto")] ∧
    (SyncEmails demoLib demoWorld false [[⟨lit "noto", noFaults⟩]] false).1.incoming_emails
      = [] := by
  decide

/-- Claim C10, as amended. A listed object that parses as a MIME envelope
but has no usable `To` address: the run issues no `DeleteObject` for its key,
the object stays in the bucket (to be met again by the next run), and nothing
is persisted for it. -/
theorem SyncEmails_no_recipient_retained (L : Lib) (w : World) (pages : List (List Listed))
    (listFails : Bool) (pre post : List Listed) (o : Listed) (body : GoString) (env : Envelope)
    (hpages : pages.flatten = pre ++ o :: post)
    (hothers : ∀ p ∈ pre ++ post, p.key ≠ o.key)
    (hbody : w.objects o.key = some body)
    (hparse : L.ReadEnvelope body = some env)
    (hnoTo : parseAddresses L (env.GetHeader (lit "To")) = []) :
    (SyncEmails L w false pages listFails).1.trace.count (.deleteObject o.key)
      = w.trace.count (.deleteObject o.key) ∧
    (SyncEmails L w false pages listFails).1.objects o.key = some body ∧
    stagedFor (SyncEmails L w false pages listFails).1 o.key = stagedFor w o.key ∧
    (SyncEmails L w false pages listFails).1.emails = w.emails := by
  rw [SyncEmails_eq]
  refine ⟨?_, ?_, ?_, (foldl_syncObject_global L _ w).1⟩ <;>
    simp only [hpages, List.foldl_append, List.foldl_cons]
  all_goals
    have hpre := foldl_syncObject_frame L pre w o.key (fun p hp => hothers p (by simp [hp]))
    have hstep := syncObject_retained L (pre.foldl (syncObject L) w) o body (hpre.1.trans hbody)
      (Or.inl ⟨.parseRecipient, by simp [extractRecipientEmail, hparse, hnoTo]⟩)
    have hpost := foldl_syncObject_frame L post (syncObject L (pre.foldl (syncObject L) w) o) o.key
      (fun p hp => hothers p (by simp [hp]))
  · exact hpost.2.1.trans (hstep.2.1.trans hpre.2.1)
  · exact hpost.1.trans hstep.1
  · rw [hpost.2.2, stagedFor, hstep.2.2.1]
    exact hpre.2.2

/-- Claim C10, witness: the object `noto` of the sample bucket, listed among
the others. -/
theorem SyncEmails_no_recipient_retained_witness :
    (SyncEmails demoLib demoWorld false demoPages false).1.trace.count
        (.deleteObject (lit "noto")) = demoWorld.trace.count (.deleteObject (lit "noto")) ∧
    (SyncEmails demoLib demoWorld false demoPages false).1.objects (lit "noto") = some [1] ∧
    stagedFor (SyncEmails demoLib demoWorld false demoPages false).1 (lit "noto")
      = stagedFor demoWorld (lit "noto") ∧
    (SyncEmails demoLib demoWorld false demoPages false).1.emails = demoWorld.emails :=
  SyncEmails_no_recipient_retained demoLib demoWorld demoPages false
    [⟨lit "bad", noFaults⟩, ⟨lit "unknown", noFaults⟩] [⟨lit "ok", noFaults⟩]
    ⟨lit "noto", noFaults⟩ [1] (demoEnvelope 0 [])
    (by decide) (by decide) (by decide) (by rfl) (by decide)

/-- Claim C11, counterexample. The text of 101 letters `é` has 101
characters (runes) and cleans to itself, for every entity decoder and print
table; its preview is cut to 100 letters followed by `...`, although the
cleaned text has at most 200 characters: the code measures 202 bytes. -/
theorem generatePreview_cuts_short_text :
    (runes (accented 101)).length = 101 ∧
    ∀ L : Lib, html2text L (accented 101) = accented 101 ∧
      generatePreview L (accented 101) [] = accented 100 ++ lit "..." ∧
      generatePreview L (accented 101) [] ≠ html2text L (accented 101) := by
  refine ⟨by decide, fun L => ?_⟩
  have h := html2text_accented L
  have hne : accented 101 ≠ [] := by decide
  have hg : generatePreview L (accented 101) [] = accented 100 ++ lit "..." := by
    rw [generatePreview_eq_truncate200, if_pos hne, h]
    decide
  refine ⟨h, hg, ?_⟩
  rw [hg, h]
  decide

/-- Claim C11, as amended. With `c` the cleaned text (`html2text` of the
plain text when it is non-empty, of the HTML body otherwise): the preview is
`c` when `c` has at most 200 bytes, and otherwise the first 200 bytes of `c`
followed by `...`; it never exceeds 203 bytes, and the suffix is appended if
and only if `c` exceeds 200 bytes. -/
theorem generatePreview_byte_bound (L : Lib) (plainText htmlBody : GoString) :
    ((html2text L (if plainText ≠ [] then plainText else htmlBody)).length ≤ 200 →
      generatePreview L plainText htmlBody
        = html2text L (if plainText ≠ [] then plainText else htmlBody)) ∧
    (200 < (html2text L (if plainText ≠ [] then plainText else htmlBody)).length →
      generatePreview L plainText htmlBody
        = (html2text L (if plainText ≠ [] then plainText else htmlBody)).take 200 ++ lit "...") ∧
    (generatePreview L plainText htmlBody).length ≤ 203 ∧
    (generatePreview L plainText htmlBody
        = (html2text L (if plainText ≠ [] then plainText else htmlBody)).take 200 ++ lit "..."
      ↔ 200 < (html2text L (if plainText ≠ [] then plainText else htmlBody)).length) := by
  rw [generatePreview_eq_truncate200]
  generalize html2text L (if plainText ≠ [] then plainText else htmlBody) = c
  have h3 : (lit "...").length = 3 := by decide
  unfold truncate200
  by_cases hc : 200 < c.length
  · have hc' : c.length > 200 := hc
    simp only [hc', if_true, hc, true_implies, List.length_append, List.length_take, h3, iff_true,
      and_true, true_and]
    refine ⟨fun h => absurd hc (by omega), by omega⟩
  · have hc' : ¬ c.length > 200 := hc
    simp only [hc', if_false, hc, false_implies, iff_false, true_and, and_true]
    refine ⟨fun _ => trivial, by omega, fun h => ?_⟩
    have := congrArg List.length h
    simp only [List.length_append, List.length_take, h3] at this
    omega

/-- Claim C12. Every rune of a preview is printable and none of them is U+200B,
U+200C or U+200D, whether or not the preview was cut; where a cut falls inside
a rune, the bytes left of it are read as U+FFFD, which `unicode.IsPrint`
accepts. -/
theorem generatePreview_clean (L : Lib) (hFFFD : L.inPrintRanges 0xFFFD = true)
    (plainText htmlBody : GoString) :
    ∀ p ∈ runes (generatePreview L plainText htmlBody),
      isPrint L p.1 = true ∧ p.1 ≠ 0x200B ∧ p.1 ≠ 0x200C ∧ p.1 ≠ 0x200D := by
  rw [generatePreview_eq_truncate200]
  rcases html2text_encoded L (if plainText ≠ [] then plainText else htmlBody) with ⟨rs, heq, hrs⟩
  rw [heq]
  have hgood : ∀ r ∈ rs, isPrint L r = true ∧ r ≠ 0x200B ∧ r ≠ 0x200C ∧ r ≠ 0x200D := by
    intro r hr
    have := hrs r hr
    refine ⟨this.2.1, ?_, ?_, ?_⟩ <;> intro h <;> exact this.2.2 (by omega)
  have hdot : isPrint L 46 = true := rfl
  have hrep : isPrint L 0xFFFD = true := by
    simp only [isPrint]
    exact hFFFD
  intro p hp
  unfold truncate200 at hp
  split at hp
  · have hl : lit "..." = [46, 46, 46] := by decide
    rw [hl] at hp
    rcases runes_take_flatMap_encodeRune rs (fun r hr => (hrs r hr).1) 200 p hp with h | h | h
    · exact hgood _ h
    · rw [h]; exact ⟨hrep, by decide, by decide, by decide⟩
    · rw [h]; exact ⟨hdot, by decide, by decide, by decide⟩
  · rw [runes_flatMap_encodeRune_self rs (fun r hr => (hrs r hr).1)] at hp
    rcases List.mem_map.1 hp with ⟨r, hr, rfl⟩
    exact hgood r hr

/-- Claim C12, witness: the letter `a` followed by 100 letters `é` (201
bytes) is cut inside the last `é`; the byte left of the cut is read as U+FFFD,
and every rune of the preview is printable and none is zero-width. -/
theorem generatePreview_clean_witness :
    demoLib.inPrintRanges 0xFFFD = true ∧
    (0xFFFD, [0xC3]) ∈ runes (generatePreview demoLib (97 :: accented 100) []) ∧
    (∀ p ∈ runes (generatePreview demoLib (97 :: accented 100) []),
      isPrint demoLib p.1 = true ∧ p.1 ≠ 0x200B ∧ p.1 ≠ 0x200C ∧ p.1 ≠ 0x200D) :=
  ⟨rfl, by decide, generatePreview_clean demoLib rfl (97 :: accented 100) []⟩

/-- Claim C13. When the address-list parser accepts the header as `parsed`,
`parseAddresses` returns as many entries, in the same order, each with the
address unchanged, with the display name kept when it is non-empty and
otherwise with the part of the address before its first `@` (the name has no
`@`, and what follows it in the address is nothing or starts with `@`). When
the header cannot be parsed the result is the empty list; the function has no
error result. -/
theorem parseAddresses_display_names (L : Lib) (addresses : GoString) :
    (∀ parsed, L.ParseAddressList addresses = some parsed →
      List.Forall₂ (fun (a e : EmailAddress) =>
        e.Address = a.Address ∧
        (a.Name ≠ [] → e.Name = a.Name) ∧
        (a.Name = [] → ∃ rest, a.Address = e.Name ++ rest ∧ 64 ∉ e.Name ∧
          (rest = [] ∨ rest.head? = some 64)))
        parsed (parseAddresses L addresses)) ∧
    (L.ParseAddressList addresses = none → parseAddresses L addresses = []) := by
  refine ⟨fun parsed hp => ?_, fun hn => by simp [parseAddresses, hn]⟩
  simp only [parseAddresses, hp]
  rw [List.forall₂_map_right_iff]
  apply List.forall₂_same.2
  intro a _
  by_cases hname : a.Name = []
  · simp only [hname, if_true, ne_eq, not_true_eq_false, false_implies, true_and, forall_true_left]
    refine ⟨a.Address.dropWhile (fun b => b != 64), (List.takeWhile_append_dropWhile _ _).symm,
      ?_, ?_⟩
    · intro h
      have := List.mem_takeWhile_imp h
      simp at this
    · cases hd : a.Address.dropWhile (fun b => b != 64) with
      | nil => exact Or.inl rfl
      | cons c cs =>
        right
        have := List.head_dropWhile_not (fun b => b != 64) a.Address (by rw [hd]; simp)
        simp only [hd, List.head_cons] at this
        simp at this
        simp [this]
  · simp [hname]

/-- Claim C14. A `processIncomingEmails` call for an account with more than
10 inbox rows, whose three retention queries succeed (`id` being the primary
key of `emails`): exactly one row, `victim`, is removed from `emails`; it is
an inbox row of that account with the least `created_at` among them; every
other row of the table is still there after the call; and the delete is the
only one issued on `emails`, ahead of every other call of the loop. -/
theorem processIncomingEmails_eviction_victim (L : Lib) (cfg : Config) (w : World)
    (userID : Int) (emailSendTo : GoString) (f : ProcFaults)
    (hcount : 10 < (inboxRows w userID).length)
    (hc : f.countInbox = false) (hs : f.selectOldest = false) (hd : f.deleteOldest = false)
    (hids : (w.emails.map (fun e => e.id)).Nodup) :
    ∃ (victim : EmailRow) (added : List EmailRow) (evs : List Event),
      victim ∈ w.emails ∧ victim.user_id = userID ∧ victim.email_type = lit "inbox" ∧
      (∀ r ∈ inboxRows w userID, victim.created_at ≤ r.created_at) ∧
      (processIncomingEmails L cfg w userID emailSendTo f).1.emails
        = w.emails.erase victim ++ added ∧
      (∀ r ∈ w.emails, r ≠ victim →
        r ∈ (processIncomingEmails L cfg w userID emailSendTo f).1.emails) ∧
      (processIncomingEmails L cfg w userID emailSendTo f).1.trace
        = w.trace ++ [.countInbox userID, .selectOldest userID, .deleteEmail victim.id] ++ evs ∧
      (∀ id, Event.deleteEmail id ∉ evs) := by
  obtain ⟨victim, added, evs, hmem, hmin, hemails, htrace, hnodel, -⟩ :=
    processIncomingEmails_after_eviction L cfg w userID emailSendTo f hcount hc hs hd
  have hmem2 : victim ∈ w.emails ∧ victim.user_id = userID ∧ victim.email_type = lit "inbox" := by
    simpa [inboxRows, List.mem_filter] using hmem
  have hemails2 : (processIncomingEmails L cfg w userID emailSendTo f).1.emails
      = w.emails.erase victim ++ added := by
    rw [hemails, filter_ne_id_eq_erase w.emails victim hids hmem2.1]
  refine ⟨victim, added, evs, hmem2.1, hmem2.2.1, hmem2.2.2, hmin, hemails2, ?_, htrace, hnodel⟩
  intro r hr hne
  rw [hemails2]
  exact List.mem_append_left _ ((List.mem_erase_of_ne hne).2 hr)

/-- Claim C14, witness: an inbox of 11 rows and one pending message; the row
created at time 1 is evicted. -/
theorem processIncomingEmails_eviction_victim_witness :
    ((processIncomingEmails demoLib demoConfig (mailbox 11 1 0) 1 (lit "user1@example.com")
      noProcFaults).1.emails.map (fun e => e.created_at)
      = [2, 3, 4, 5, 6, 7, 8, 9, 10, 11, 200]) ∧
    ∃ (victim : EmailRow) (added : List EmailRow) (evs : List Event),
      victim ∈ (mailbox 11 1 0).emails ∧ victim.user_id = 1 ∧ victim.email_type = lit "inbox" ∧
      (∀ r ∈ inboxRows (mailbox 11 1 0) 1, victim.created_at ≤ r.created_at) ∧
      (processIncomingEmails demoLib demoConfig (mailbox 11 1 0) 1 (lit "user1@example.com")
        noProcFaults).1.emails = (mailbox 11 1 0).emails.erase victim ++ added ∧
      (∀ r ∈ (mailbox 11 1 0).emails, r ≠ victim →
        r ∈ (processIncomingEmails demoLib demoConfig (mailbox 11 1 0) 1
          (lit "user1@example.com") noProcFaults).1.emails) ∧
      (processIncomingEmails demoLib demoConfig (mailbox 11 1 0) 1 (lit "user1@example.com")
        noProcFaults).1.trace
        = (mailbox 11 1 0).trace ++ [.countInbox 1, .selectOldest 1, .deleteEmail victim.id]
          ++ evs ∧
      (∀ id, Event.deleteEmail id ∉ evs) :=
  ⟨by decide, processIncomingEmails_eviction_victim demoLib demoConfig (mailbox 11 1 0) 1
    (lit "user1@example.com") noProcFaults (by decide) (by rfl) (by rfl) (by rfl) (by decide)⟩

/-- Claim C15. For a message whose row is inserted, the body persisted is the
HTML body when it is non-empty and the plain-text body otherwise; the preview
is computed from the plain-text body alone when that is non-empty, and from
the HTML body when the plain text is empty. -/
theorem processRawEmail_body_and_preview (L : Lib) (cfg : Config) (w : World)
    (emailSendTo : GoString) (rawEmail : IncomingRow) (f : MsgFaults) (env : Envelope)
    (from0 : EmailAddress) (froms : List EmailAddress) (u : UserRow)
    (henv : L.ReadEnvelope rawEmail.email_data = some env)
    (hfrom : parseAddresses L (env.GetHeader (lit "From")) = from0 :: froms)
    (hsess : ∀ i, f.session i = false)
    (hsel : f.selectUser = false)
    (hu : w.users.find? (fun u => u.email = emailSendTo) = some u)
    (hins : f.insert = false) :
    ∃ row, (processRawEmail L cfg w emailSendTo rawEmail f).1.emails = w.emails ++ [row] ∧
      (env.HTML ≠ [] → row.body = env.HTML) ∧
      (env.HTML = [] → row.body = env.Text) ∧
      (env.Text ≠ [] → row.preview = truncate200 (html2text L env.Text)) ∧
      (env.Text = [] → row.preview = truncate200 (html2text L env.HTML)) := by
  refine ⟨_, processRawEmail_row L cfg w emailSendTo rawEmail f env from0 froms u henv hfrom hsess
    hsel hu hins, ?_, ?_, ?_, ?_⟩
  · intro h; simp [h]
  · intro h; simp [h]
  · intro h; simp [generatePreview_eq_truncate200, h]
  · intro h; simp [generatePreview_eq_truncate200, h]

/-- Claim C15, witness: the sample message, HTML only. -/
theorem processRawEmail_body_and_preview_witness :
    ((processRawEmail demoLib demoConfig (mailbox 0 1 0) (lit "user1@example.com")
        (stagedMessage 0 0) (noProcFaults.message 0)).1.emails.map
        (fun e => (e.body, e.preview)) = [(lit "<p>Hello</p>", lit "Hello")]) ∧
    ∃ row, (processRawEmail demoLib demoConfig (mailbox 0 1 0) (lit "user1@example.com")
        (stagedMessage 0 0) (noProcFaults.message 0)).1.emails = (mailbox 0 1 0).emails ++ [row] ∧
      ((demoEnvelope 0 (lit "user1@example.com")).HTML ≠ [] →
        row.body = (demoEnvelope 0 (lit "user1@example.com")).HTML) ∧
      ((demoEnvelope 0 (lit "user1@example.com")).HTML = [] →
        row.body = (demoEnvelope 0 (lit "user1@example.com")).Text) ∧
      ((demoEnvelope 0 (lit "user1@example.com")).Text ≠ [] →
        row.preview = truncate200 (html2text demoLib
          (demoEnvelope 0 (lit "user1@example.com")).Text)) ∧
      ((demoEnvelope 0 (lit "user1@example.com")).Text = [] →
        row.preview = truncate200 (html2text demoLib
          (demoEnvelope 0 (lit "user1@example.com")).HTML)) :=
  ⟨by decide, processRawEmail_body_and_preview demoLib demoConfig (mailbox 0 1 0)
    (lit "user1@example.com") (stagedMessage 0 0) (noProcFaults.message 0)
    (demoEnvelope 0 (lit "user1@example.com"))
    { Name := lit "sender", Address := lit "sender@example.org" } []
    { id := 1, email := lit "user1@example.com" } (by rfl) (by decide) (fun _ => rfl) (by rfl)
    (by decide)
    (by rfl)⟩

/-- Claim C16. `UploadAttachment` returns the URL built from bucket, region
and key, with no error, exactly when its put is issued and succeeds (the
object is then stored under the key), and the error (Go: the empty string and
an error) when the put fails; in both cases it issues that one put under the
given key. When `InitAWS` fails, its error is discarded and the call panics at
`s3.New` on the nil session: no put is issued and nothing is returned. During
ingestion the keys of the puts are `attachments/`, the message id, `/` and the
file name, one per attachment in order, up to the first attachment whose
session is not created. -/
theorem UploadAttachment_reference (cfg : Config) (w : World)
    (content key contentType : GoString) (initFails fails : Bool) :
    (UploadAttachment cfg w content key contentType initFails fails).2
      = (if initFails then Uploaded.panic
         else if fails then Uploaded.error Err.uploadS3
         else Uploaded.url (lit "https://" ++ cfg.S3_BUCKET_NAME ++ lit ".s3." ++ cfg.AWS_REGION
            ++ lit ".amazonaws.com/" ++ key)) ∧
    ((UploadAttachment cfg w content key contentType initFails fails).2
        = Uploaded.url (lit "https://" ++ cfg.S3_BUCKET_NAME ++ lit ".s3." ++ cfg.AWS_REGION
            ++ lit ".amazonaws.com/" ++ key)
      ↔ initFails = false ∧ fails = false) ∧
    (UploadAttachment cfg w content key contentType initFails fails).1.trace
      = (if initFails then w.trace else w.trace ++ [.putObject key]) ∧
    (initFails = false → fails = false →
      (UploadAttachment cfg w content key contentType initFails fails).1.objects key
        = some content) ∧
    (initFails = true →
      UploadAttachment cfg w content key contentType initFails fails = (w, Uploaded.panic)) ∧
    ∀ (emailID : GoString) (atts : List Part) (sessions outcomes : Nat → Bool)
      (acc : List GoString),
      (∃ n, n ≤ atts.length ∧
        (uploadAttachments cfg emailID w sessions outcomes atts acc).1.trace
          = w.trace ++ (atts.take n).map (fun att =>
              Event.putObject (lit "attachments/" ++ emailID ++ lit "/" ++ att.FileName)) ∧
        (n < atts.length → sessions n = true)) ∧
      ((∀ i, sessions i = false) →
        (uploadAttachments cfg emailID w sessions outcomes atts acc).1.trace
          = w.trace ++ atts.map (fun att =>
              Event.putObject (lit "attachments/" ++ emailID ++ lit "/" ++ att.FileName))) := by
  refine ⟨?_, ?_, ?_, ?_, ?_, fun emailID atts sessions outcomes acc =>
    ⟨uploadAttachments_puts cfg emailID atts w sessions outcomes acc,
      uploadAttachments_trace cfg emailID atts w sessions outcomes acc⟩⟩
  · cases initFails <;> cases fails <;> simp [UploadAttachment, putObject]
  · cases initFails <;> cases fails <;> simp [UploadAttachment, putObject]
  · cases initFails <;> cases fails <;> simp [UploadAttachment, putObject, World.record]
  · intro hi hf
    simp [UploadAttachment, putObject, hi, hf]
  · intro hi
    simp [UploadAttachment, hi]

/-- Claim C17, counterexample: a message without attachments, and a message
with two attachments whose uploads both fail, are stored with the attachments
column `null`, which is not a JSON array. -/
theorem processIncomingEmails_attachments_null :
    (processIncomingEmails demoLib demoConfig (mailbox 0 1 0) 1 (lit "user1@example.com")
        noProcFaults).1.emails.map (fun e => e.attachments) = [lit "null"] ∧
    (processIncomingEmails demoLib demoConfig (mailbox 0 1 2) 1 (lit "user1@example.com")
        uploadsFail).1.emails.map (fun e => e.attachments) = [lit "null"] ∧
    startsArray (lit "null") = false ∧
    lit "null" ≠ lit "[]" := by
  decide

/-- Claim C17, amended. For a pending raw message that parses, has a sender,
and whose user lookup and insert succeed, the attachments column of the
inserted row is the JSON text `null` when no upload succeeded and a JSON array
otherwise; in both cases `json.Unmarshal` reads from it the URLs of the
successful uploads, and `getAttachmentURLs` returns one `Attachment` per URL,
in order, whose `URL` is that string (with ill-formed UTF-8 replaced by
U+FFFD, so unchanged when the URL is well formed), whose `ContentType` and
`Content` are empty, and whose `Filename` is the part of `URL` behind its last
`/` (all of it when it has none). -/
theorem processRawEmail_attachments_read_back (L : Lib) (cfg : Config) (w : World)
    (emailSendTo : GoString) (rawEmail : IncomingRow) (f : MsgFaults) (env : Envelope)
    (from0 : EmailAddress) (froms : List EmailAddress) (u : UserRow)
    (henv : L.ReadEnvelope rawEmail.email_data = some env)
    (hfrom : parseAddresses L (env.GetHeader (lit "From")) = from0 :: froms)
    (hsess : ∀ i, f.session i = false)
    (hsel : f.selectUser = false)
    (hu : w.users.find? (fun u => u.email = emailSendTo) = some u)
    (hins : f.insert = false) :
    ∃ row : EmailRow,
      (processRawEmail L cfg w emailSendTo rawEmail f).1.emails = w.emails ++ [row] ∧
      (successfulURLs cfg rawEmail.message_id f.upload 0 env.Attachments = [] →
        row.attachments = lit "null") ∧
      (successfulURLs cfg rawEmail.message_id f.upload 0 env.Attachments ≠ [] →
        startsArray row.attachments = true) ∧
      jsonUnmarshalStrings row.attachments
        = some ((successfulURLs cfg rawEmail.message_id f.upload 0 env.Attachments).map
            coerceUTF8) ∧
      List.Forall₂ (fun url a =>
          a.URL = coerceUTF8 url ∧ ((∀ p ∈ runes url, p.2 = encodeRune p.1) → a.URL = url) ∧
          a.ContentType = [] ∧ a.Content = [] ∧ 47 ∉ a.Filename ∧
          (a.URL = a.Filename ∨ ∃ pre, a.URL = pre ++ 47 :: a.Filename))
        (successfulURLs cfg rawEmail.message_id f.upload 0 env.Attachments)
        (getAttachmentURLs row.attachments) := by
  refine ⟨_, processRawEmail_row L cfg w emailSendTo rawEmail f env from0 froms u henv hfrom hsess
    hsel hu hins, ?_, ?_, ?_, ?_⟩
  · intro h
    simp only [h]
    rfl
  · intro h
    exact jsonMarshalStrings_startsArray _ h
  · exact jsonUnmarshalStrings_jsonMarshalStrings _
  · exact getAttachmentURLs_forall₂ _

/-- Claim C17, witness: a message with attachments `a.txt`, `b.txt`, `c.txt`
whose second upload fails; the stored column reads back as the attachments
`a.txt` and `c.txt` with their URLs. -/
theorem processRawEmail_attachments_read_back_witness :
    (processIncomingEmails demoLib demoConfig (mailbox 0 1 3) 1 (lit "user1@example.com")
        secondUploadFails).1.emails.map (fun e => getAttachmentURLs e.attachments)
      = [[{ URL := lit "https://bucket.s3.ap-1.amazonaws.com/attachments/m0/a.txt",
            ContentType := [], Filename := lit "a.txt", Content := [] },
          { URL := lit "https://bucket.s3.ap-1.amazonaws.com/attachments/m0/c.txt",
            ContentType := [], Filename := lit "c.txt", Content := [] }]] ∧
    (∃ row : EmailRow,
      (processRawEmail demoLib demoConfig (mailbox 0 1 3) (lit "user1@example.com")
        (stagedMessage 3 0) (secondUploadFails.message 0)).1.emails
          = (mailbox 0 1 3).emails ++ [row] ∧
      (successfulURLs demoConfig (stagedMessage 3 0).message_id
          (secondUploadFails.message 0).upload 0
          (demoEnvelope 3 (lit "user1@example.com")).Attachments = [] →
        row.attachments = lit "null") ∧
      (successfulURLs demoConfig (stagedMessage 3 0).message_id
          (secondUploadFails.message 0).upload 0
          (demoEnvelope 3 (lit "user1@example.com")).Attachments ≠ [] →
        startsArray row.attachments = true) ∧
      jsonUnmarshalStrings row.attachments
        = some ((successfulURLs demoConfig (stagedMessage 3 0).message_id
            (secondUploadFails.message 0).upload 0
            (demoEnvelope 3 (lit "user1@example.com")).Attachments).map coerceUTF8) ∧
      List.Forall₂ (fun url a =>
          a.URL = coerceUTF8 url ∧ ((∀ p ∈ runes url, p.2 = encodeRune p.1) → a.URL = url) ∧
          a.ContentType = [] ∧ a.Content = [] ∧ 47 ∉ a.Filename ∧
          (a.URL = a.Filename ∨ ∃ pre, a.URL = pre ++ 47 :: a.Filename))
        (successfulURLs demoConfig (stagedMessage 3 0).message_id
          (secondUploadFails.message 0).upload 0
          (demoEnvelope 3 (lit "user1@example.com")).Attachments)
        (getAttachmentURLs row.attachments)) :=
  ⟨by decide,
   processRawEmail_attachments_read_back demoLib demoConfig (mailbox 0 1 3)
    (lit "user1@example.com") (stagedMessage 3 0) (secondUploadFails.message 0)
    (demoEnvelope 3 (lit "user1@example.com"))
    { Name := lit "sender", Address := lit "sender@example.org" } []
    { id := 1, email := lit "user1@example.com" } (by rfl) (by decide) (fun _ => rfl) (by rfl)
    (by decide)
    (by rfl)⟩

/-- Claim C18. `extractRecipientEmail` returns the address of the first
entry of the parsed `To` list (and the date) when the envelope parses and the
list is non-empty; it fails with the parse error when the envelope does not
parse and with the recipient error when the list is empty, and these two
errors differ. -/
theorem extractRecipientEmail_cases (L : Lib) (emailContent : GoString) :
    (∀ env to0 rest, L.ReadEnvelope emailContent = some env →
      parseAddresses L (env.GetHeader (lit "To")) = to0 :: rest →
      extractRecipientEmail L emailContent = .ok (to0.Address, env.Date)) ∧
    (L.ReadEnvelope emailContent = none →
      extractRecipientEmail L emailContent = .error .parseEmail) ∧
    (∀ env, L.ReadEnvelope emailContent = some env →
      parseAddresses L (env.GetHeader (lit "To")) = [] →
      extractRecipientEmail L emailContent = .error .parseRecipient) ∧
    Err.parseRecipient ≠ Err.parseEmail := by
  refine ⟨fun env to0 rest he ht => ?_, fun he => ?_, fun env he ht => ?_, by decide⟩
  · simp [extractRecipientEmail, he, ht]
  · simp [extractRecipientEmail, he]
  · simp [extractRecipientEmail, he, ht]

/-- Claim C19, counterexample. The object `unknown` of the sample bucket is
addressed to no registered user; the single-phase handler still inserts a row
for it into `emails` (with `user_id` 0), counts it as new, and leaves the
object in the bucket: the only calls are the fetch, the lookup and the
insert. -/
theorem SyncBucketInboxHandler_unknown_recipient_stored :
    (∀ u ∈ demoWorld.users, u.email ≠ lit "nobody@example.com") ∧
    (SyncBucketInboxHandler demoLib demoConfig demoWorld false
        [[⟨lit "unknown", noBucketFaults⟩]] false).2
      = .ok { TotalEmails := 1, NewEmails := 1, SkippedEmails := 0, FailedEmails := 0 } ∧
    (SyncBucketInboxHandler demoLib demoConfig demoWorld false
        [[⟨lit "unknown", noBucketFaults⟩]] false).1.emails.map
        (fun e => (e.user_id, e.message_id)) = [(0, lit "unknown")] ∧
    (SyncBucketInboxHandler demoLib demoConfig demoWorld false
        [[⟨lit "unknown", noBucketFaults⟩]] false).1.objects (lit "unknown")
      = some (1 :: lit "nobody@example.com") ∧
    (SyncBucketInboxHandler demoLib demoConfig demoWorld false
        [[⟨lit "unknown", noBucketFaults⟩]] false).1.trace
      = [.getObject (lit "unknown"), .selectUser (lit "nobody@example.com"),
          .insertEmail (lit "unknown")] := by
  decide

/-- Claim C19, as amended. `SyncBucketInboxHandler` deletes no object: every
object of the bucket, whatever its recipient, is still there after the run,
and no `DeleteObject` is issued for its key. -/
theorem SyncBucketInboxHandler_keeps_objects (L : Lib) (cfg : Config) (w : World)
    (initFails : Bool) (pages : List (List BucketListed)) (listFails : Bool)
    (k body : GoString) (hbody : w.objects k = some body) :
    ((SyncBucketInboxHandler L cfg w initFails pages listFails).1.objects k).isSome = true ∧
    (SyncBucketInboxHandler L cfg w initFails pages listFails).1.trace.count (.deleteObject k)
      = w.trace.count (.deleteObject k) := by
  have hk : KeepsObjects w (SyncBucketInboxHandler L cfg w initFails pages listFails).1 := by
    unfold SyncBucketInboxHandler
    cases initFails
    · simp only [Bool.false_eq_true, if_false]
      have h := bucketObjects_keeps L cfg pages.flatten w
        { TotalEmails := 0, NewEmails := 0, SkippedEmails := 0, FailedEmails := 0 }
      rcases hres : bucketObjects L cfg pages.flatten w
        { TotalEmails := 0, NewEmails := 0, SkippedEmails := 0, FailedEmails := 0 }
        with ⟨w1, stats1, flag⟩
      rw [hres] at h
      cases flag
      · cases listFails <;> exact h
      · exact h
    · exact KeepsObjects.same w
  exact ⟨hk.present k (by simp [hbody]), hk.deletes k⟩

/-- Claim C19, witness: the object `unknown` of the sample bucket. -/
theorem SyncBucketInboxHandler_keeps_objects_witness :
    ((SyncBucketInboxHandler demoLib demoConfig demoWorld false
        [[⟨lit "unknown", noBucketFaults⟩, ⟨lit "ok", noBucketFaults⟩]] false).1.objects
        (lit "unknown")).isSome = true ∧
    (SyncBucketInboxHandler demoLib demoConfig demoWorld false
        [[⟨lit "unknown", noBucketFaults⟩, ⟨lit "ok", noBucketFaults⟩]] false).1.trace.count
        (.deleteObject (lit "unknown"))
      = demoWorld.trace.count (.deleteObject (lit "unknown")) :=
  SyncBucketInboxHandler_keeps_objects demoLib demoConfig demoWorld false
    [[⟨lit "unknown", noBucketFaults⟩, ⟨lit "ok", noBucketFaults⟩]] false
    (lit "unknown") (1 :: lit "nobody@example.com") (by decide)

/-- Claim C20, counterexample. An inbox of 11 rows and one pending message
whose insert fails: the row created at time 1 is evicted, the insert is
attempted and fails, and the inbox is left with the 10 other rows. -/
theorem processIncomingEmails_eviction_not_undone :
    (inboxRows (mailbox 11 1 0) 1).map (fun e => e.created_at)
      = [1, 2, 3, 4, 5, 6, 7, 8, 9, 10, 11] ∧
    (processIncomingEmails demoLib demoConfig (mailbox 11 1 0) 1 (lit "user1@example.com")
      insertFails).1.trace
      = [.countInbox 1, .selectOldest 1, .deleteEmail 1,
          .selectIncoming (lit "user1@example.com"), .selectUser (lit "user1@example.com"),
          .insertEmail [109, 48]] ∧
    (inboxRows (processIncomingEmails demoLib demoConfig (mailbox 11 1 0) 1
      (lit "user1@example.com") insertFails).1 1).map (fun e => e.created_at)
      = [2, 3, 4, 5, 6, 7, 8, 9, 10, 11] := by
  decide

/-- Claim C20, as amended. When the retention step evicts a row and every
insert of the call then fails, the eviction stands: table `emails` after the
call is the table before the call without the rows of the evicted id, the
evicted row is not in it, and the account has fewer inbox rows than before. -/
theorem processIncomingEmails_eviction_stands (L : Lib) (cfg : Config) (w : World)
    (userID : Int) (emailSendTo : GoString) (f : ProcFaults)
    (hcount : 10 < (inboxRows w userID).length)
    (hc : f.countInbox = false) (hs : f.selectOldest = false) (hd : f.deleteOldest = false)
    (hins : ∀ i, (f.message i).insert = true) :
    ∃ victim, victim ∈ inboxRows w userID ∧
      (processIncomingEmails L cfg w userID emailSendTo f).1.emails
        = w.emails.filter (fun e => e.id ≠ victim.id) ∧
      victim ∉ (processIncomingEmails L cfg w userID emailSendTo f).1.emails ∧
      inboxRows (processIncomingEmails L cfg w userID emailSendTo f).1 userID
        = (inboxRows w userID).filter (fun e => e.id ≠ victim.id) ∧
      (inboxRows (processIncomingEmails L cfg w userID emailSendTo f).1 userID).length
        < (inboxRows w userID).length := by
  obtain ⟨victim, added, evs, hmem, -, hemails, -, -, hadded⟩ :=
    processIncomingEmails_after_eviction L cfg w userID emailSendTo f hcount hc hs hd
  rw [hadded hins, List.append_nil] at hemails
  have hin : inboxRows (processIncomingEmails L cfg w userID emailSendTo f).1 userID
      = (inboxRows w userID).filter (fun e => e.id ≠ victim.id) := by
    simp only [inboxRows, hemails, List.filter_filter]
    congr 1
    funext e
    simp [Bool.and_comm]
  refine ⟨victim, hmem, hemails, ?_, hin, ?_⟩
  · rw [hemails]
    simp [List.mem_filter]
  · rw [hin, List.length_filter_lt_length_iff_exists]
    exact ⟨victim, hmem, by simp⟩

/-- Claim C20, witness: an inbox of 12 rows and two pending messages whose
inserts fail. -/
theorem processIncomingEmails_eviction_stands_witness :
    (inboxRows (mailbox 12 2 0) 1).length = 12 ∧
    ∃ victim, victim ∈ inboxRows (mailbox 12 2 0) 1 ∧
      (processIncomingEmails demoLib demoConfig (mailbox 12 2 0) 1 (lit "user1@example.com")
        insertFails).1.emails
        = (mailbox 12 2 0).emails.filter (fun e => e.id ≠ victim.id) ∧
      victim ∉ (processIncomingEmails demoLib demoConfig (mailbox 12 2 0) 1
        (lit "user1@example.com") insertFails).1.emails ∧
      inboxRows (processIncomingEmails demoLib demoConfig (mailbox 12 2 0) 1
        (lit "user1@example.com") insertFails).1 1
        = (inboxRows (mailbox 12 2 0) 1).filter (fun e => e.id ≠ victim.id) ∧
      (inboxRows (processIncomingEmails demoLib demoConfig (mailbox 12 2 0) 1
        (lit "user1@example.com") insertFails).1 1).length
        < (inboxRows (mailbox 12 2 0) 1).length :=
  ⟨by decide, processIncomingEmails_eviction_stands demoLib demoConfig (mailbox 12 2 0) 1
    (lit "user1@example.com") insertFails (by decide) (by rfl) (by rfl) (by rfl)
    (fun _ => rfl)⟩

/-- Claim C21. For every `int64` value `id`, every secret and every keyed
hash, `DecodeID (EncodeID id)` returns `id` and no error. -/
theorem DecodeID_EncodeID (mac : GoString → GoString → GoString) (secret : GoString) (id : Int)
    (hlo : -(2 ^ 63) ≤ id) (hhi : id < 2 ^ 63) :
    DecodeID mac secret (EncodeID mac secret id) = .ok id := by
  have hI := Itoa_bytes id
  have hH := hexBytes_bytes ((mac secret (Itoa id)).take 6)
  have h58 : 58 ∉ Itoa id := by
    intro h
    rcases hI 58 h with h | h <;> omega
  have hascii : ∀ c ∈ Itoa id ++ 58 :: hexBytes ((mac secret (Itoa id)).take 6), c < 128 := by
    intro c hc
    rcases List.mem_append.1 hc with h | h
    · rcases hI c h with h | h <;> omega
    · rcases List.mem_cons.1 h with rfl | h
      · decide
      · exact (hH c h).1
  have hcolon : lit ":" = [58] := by decide
  unfold DecodeID EncodeID
  simp only [hcolon, List.append_assoc, List.singleton_append]
  rw [base64Decode_base64Encode _ (fun c hc => by have := hascii c hc; omega)]
  simp only []
  rw [runes_ascii _ hascii, sepIndexFrom_ascii _ _ 0 h58]
  simp only [Nat.zero_add, List.take_left, Atoi_Itoa id hlo hhi]
  have hdrop : (Itoa id ++ 58 :: hexBytes ((mac secret (Itoa id)).take 6)).drop
      ((Itoa id).length + 1) = hexBytes ((mac secret (Itoa id)).take 6) := by
    have : Itoa id ++ 58 :: hexBytes ((mac secret (Itoa id)).take 6)
        = (Itoa id ++ [58]) ++ hexBytes ((mac secret (Itoa id)).take 6) := by simp
    rw [this]
    exact List.drop_left' (by simp)
  rw [hdrop]
  simp

/-- Claim C21, witness: the ids -42, 0 and the least `int64`, with the secret
`s3`; the encoding of -42 is the text `LTQyOmZiZmJmYmZiZmJmYg`. -/
theorem DecodeID_EncodeID_witness :
    DecodeID demoMac (lit "s3") (EncodeID demoMac (lit "s3") (-42)) = .ok (-42) ∧
    DecodeID demoMac (lit "s3") (EncodeID demoMac (lit "s3") 0) = .ok 0 ∧
    DecodeID demoMac (lit "s3") (EncodeID demoMac (lit "s3") (-(2 ^ 63))) = .ok (-(2 ^ 63)) ∧
    base64Decode (EncodeID demoMac (lit "s3") (-42)) = some (lit "-42:e0e0e0e0e0e0") :=
  ⟨DecodeID_EncodeID demoMac (lit "s3") (-42) (by decide) (by decide),
   DecodeID_EncodeID demoMac (lit "s3") 0 (by decide) (by decide),
   DecodeID_EncodeID demoMac (lit "s3") (-(2 ^ 63)) (by decide) (by decide), by decide⟩

/-- Claim C22, evaluation. A user who has sent 3 e-mails, the last one 25
hours ago, is refused: `CheckEmailLimit` returns the limit error and resets
nothing. This is so whatever time has passed, since the test on the counter
comes before the test on the time; the reset is reached with a counter of 1
or 2 only. -/
theorem CheckEmailLimit_never_resets_at_limit :
    timeSub (25 * hour) 0 > 24 * hour ∧
    CheckEmailLimit (authState 3 (some 0) 0 none) 1 (25 * hour) false false
      = (authState 3 (some 0) 0 none, .limitExceeded) ∧
    CheckEmailLimit (authState 2 (some 0) 0 none) 1 (25 * hour) false false
      = (authState 0 (some (25 * hour)) 0 none, .ok) ∧
    (∀ (st : AuthState) (userID now : Int) (user : Account) (execFails : Bool),
      st.users.find? (fun u => u.ID = userID) = some user → user.SentEmails ≥ 3 →
      CheckEmailLimit st userID now false execFails = (st, .limitExceeded)) := by
  refine ⟨by decide, by decide, by decide, ?_⟩
  intro st userID now user execFails hu h3
  simp [CheckEmailLimit, hu, h3]

/-- Claim C23. For an account that exists, with an attempts row at
`failed_attempts = 0` and no block, four consecutive `LoginHandler` calls with
a wrong password (whose database calls succeed) are answered 401, 401, 429
(warning) and 429 (locked), and the fourth stores `failed_attempts = 4` and
`blocked_until = now + 5 minutes`. For a user name whose `blocked_until` is
later than `now`, a `LoginHandler` call (whose request binds and whose attempts
row is read) answers 429 whatever the password, issues no token and leaves
every table as it was. -/
theorem LoginHandler_lockout (A : AuthLib) :
    (∀ (s0 : AuthState) (email pw1 pw2 pw3 pw4 : GoString) (t1 t2 t3 t4 : Int)
      (f1 f2 f3 f4 : LoginFaults) (row : LoginAttempt) (user : Account),
      f1.quiet = true → f2.quiet = true → f3.quiet = true → f4.quiet = true →
      s0.user_login_attempts.find? (fun r => r.username = email) = some row →
      row.failed_attempts = 0 → row.blocked_until = none →
      s0.users.find? (fun u => u.Email = email) = some user →
      A.CheckPasswordHash pw1 user.Password = false →
      A.CheckPasswordHash pw2 user.Password = false →
      A.CheckPasswordHash pw3 user.Password = false →
      A.CheckPasswordHash pw4 user.Password = false →
      (loginSequence A email s0 [(pw1, t1, f1), (pw2, t2, f2), (pw3, t3, f3), (pw4, t4, f4)]).2
        = [.unauthorized, .unauthorized, .careful, .tooManyAttempts] ∧
      LoginResponse.tooManyAttempts.status = 429 ∧
      (loginSequence A email s0 [(pw1, t1, f1), (pw2, t2, f2), (pw3, t3, f3),
          (pw4, t4, f4)]).1.user_login_attempts.find? (fun r => r.username = email)
        = some { username := row.username, failed_attempts := 4, last_attempt_time := t4,
                 blocked_until := some (t4 + 5 * minute) }) ∧
    (∀ (st : AuthState) (email password : GoString) (now : Int) (f : LoginFaults)
      (row : LoginAttempt) (b : Int),
      f.bind = false → f.selectAttempts = false →
      st.user_login_attempts.find? (fun r => r.username = email) = some row →
      row.blocked_until = some b → now < b →
      (LoginHandler A st email password now f).1 = st ∧
      (LoginHandler A st email password now f).2.status = 429 ∧
      ∀ token, (LoginHandler A st email password now f).2 ≠ .ok token) := by
  constructor
  · intro s0 email pw1 pw2 pw3 pw4 t1 t2 t3 t4 f1 f2 f3 f4 row user hq1 hq2 hq3 hq4 hrow h0
      hfree huser hw1 hw2 hw3 hw4
    obtain ⟨u1, a1, r1⟩ := LoginHandler_wrong_password A s0 email pw1 t1 f1 row user hq1 hrow
      hfree huser hw1
    rw [h0] at a1 r1
    simp only [zero_add, ge_iff_le, Nat.not_ofNat_le_one, if_false] at a1 r1
    norm_num at a1 r1
    have hu1 := u1 ▸ huser
    obtain ⟨u2, a2, r2⟩ := LoginHandler_wrong_password A _ email pw2 t2 f2 _ user hq2 a1
      rfl hu1 hw2
    norm_num at a2 r2
    have hu2 := u2 ▸ hu1
    obtain ⟨u3, a3, r3⟩ := LoginHandler_wrong_password A _ email pw3 t3 f3 _ user hq3 a2
      rfl hu2 hw3
    norm_num at a3 r3
    have hu3 := u3 ▸ hu2
    obtain ⟨u4, a4, r4⟩ := LoginHandler_wrong_password A _ email pw4 t4 f4 _ user hq4 a3
      rfl hu3 hw4
    norm_num at a4 r4
    refine ⟨?_, rfl, ?_⟩
    · simp only [loginSequence, r1, r2, r3, r4]
    · simp only [loginSequence]
      exact a4
  · intro st email password now f row b hb hs hrow hblocked hlater
    rw [LoginHandler_of_blocked A st email password now f row b hb hs hrow hblocked hlater]
    exact ⟨rfl, rfl, fun token h => by cases h⟩

/-- Claim C23, witness: the sample account; four logins with the password
`x` at times 10, 20, 30 and 40, and then a login with the right password
`secret` at time 50, which is answered with the lock message. -/
theorem LoginHandler_lockout_witness :
    loginSequence demoAuthLib (lit "user1@example.com") (authState 0 none 0 none)
        [(lit "x", 10, noLoginFaults), (lit "x", 20, noLoginFaults), (lit "x", 30, noLoginFaults),
         (lit "x", 40, noLoginFaults)]
      = ({ users := (authState 0 none 0 none).users
           user_login_attempts := [{ username := lit "user1@example.com", failed_attempts := 4,
                                     last_attempt_time := 40,
                                     blocked_until := some (40 + 5 * minute) }] },
         [.unauthorized, .unauthorized, .careful, .tooManyAttempts]) ∧
    LoginHandler demoAuthLib (authState 0 none 4 (some (40 + 5 * minute)))
        (lit "user1@example.com") (lit "secret") 50 noLoginFaults
      = (authState 0 none 4 (some (40 + 5 * minute)), .locked (40 + 5 * minute - 50)) ∧
    (LoginHandler demoAuthLib (authState 0 none 0 none)
        (lit "user1@example.com") (lit "secret") 50 noLoginFaults).2
      = .ok (lit "user1@example.com") ∧
    (LoginHandler demoAuthLib (authState 0 none 4 (some (40 + 5 * minute)))
        (lit "user1@example.com") (lit "secret") 50 noLoginFaults).2.status = 429 := by
  have h := (LoginHandler_lockout demoAuthLib).2 (authState 0 none 4 (some (40 + 5 * minute)))
    (lit "user1@example.com") (lit "secret") 50 noLoginFaults
    { username := lit "user1@example.com", failed_attempts := 4, last_attempt_time := 0,
      blocked_until := some (40 + 5 * minute) } (40 + 5 * minute) rfl rfl (by decide) rfl
    (by decide)
  exact ⟨by decide, by decide, by decide, h.2.1⟩

/-- Claim C24, counterexample. The plain text `a<b>c` (printable ASCII) is not
kept verbatim: its preview is `ac`, for every library and every HTML body. -/
theorem generatePreview_plain_text_loses_tag :
    (∀ (L : Lib) (h : GoString), generatePreview L (lit "a<b>c") h = lit "ac") ∧
    (∀ b ∈ lit "a<b>c", 0x20 ≤ b ∧ b ≤ 0x7E) ∧
    lit "ac" ≠ lit "a<b>c" := by
  refine ⟨?_, by decide, by decide⟩
  intro L h
  rw [generatePreview_eq_truncate200]
  have e : (if lit "a<b>c" ≠ ([] : GoString) then lit "a<b>c" else h) = lit "a<b>c" := by
    rw [if_pos (by decide)]
  rw [e, html2text_of_stripped L _ (lit "ac") (by decide) (by decide) (by decide)]
  decide

/-- Claim C24, as amended. For a non-empty plain text `p` the preview does not
depend on the HTML body: it is the truncation of `html2text p`, the cleaning
used for HTML. So a tag `<t>` in `p` is not kept: between ASCII texts `a` and
`b` without `<` and `&` the preview of `a<t>b` is the truncated cleaning of
`ab`; and a `p` without `<` that contains `&` is handed to the entity decoder
before the zero-width and non-printable runes are removed and the text is
trimmed. -/
theorem generatePreview_plain_text_cleaned (L : Lib) (p h : GoString) (hp : p ≠ []) :
    generatePreview L p h = truncate200 (html2text L p) ∧
    (∀ a t b : GoString, p = a ++ 60 :: (t ++ 62 :: b) →
      (∀ c ∈ a, c < 128) → (∀ c ∈ b, c < 128) → 60 ∉ a → 60 ∉ b → 38 ∉ a → 38 ∉ b →
      60 ∉ t → 62 ∉ t →
      generatePreview L p h = truncate200 (html2text L (a ++ b))) ∧
    (60 ∉ p → 38 ∈ p →
      html2text L p = trimSpace (removeNonPrintable L (zeroWidth (L.decodeEntities p)))) := by
  have h1 : generatePreview L p h = truncate200 (html2text L p) := by
    rw [generatePreview_eq_truncate200, if_pos hp]
  refine ⟨h1, ?_, ?_⟩
  · intro a t b hpe haa hba ha hb ha38 hb38 ht60 ht62
    rw [h1, hpe, html2text_tag L a t b haa hba ha hb ha38 hb38 ht60 ht62]
  · intro h60 h38
    have l3 : lit "<br>" = [60, 98, 114, 62] := by decide
    have l4 : lit "<br/>" = [60, 98, 114, 47, 62] := by decide
    have l5 : lit "<br />" = [60, 98, 114, 32, 47, 62] := by decide
    have l2 : lit "</p>" = [60, 47, 112, 62] := by decide
    have l6 : lit "</div>" = [60, 47, 100, 105, 118, 62] := by decide
    unfold html2text zeroWidth
    simp only [l2, l3, l4, l5, l6]
    rw [replaceAll_of_not_mem _ _ _ _ h60, replaceAll_of_not_mem _ _ _ _ h60,
      replaceAll_of_not_mem _ _ _ _ h60, replaceAll_of_not_mem _ _ _ _ h60,
      replaceAll_of_not_mem _ _ _ _ h60, stripTags, stripTagsAux_of_not_mem _ h60,
      unescapeString, if_pos h38]

/-- Claim C24, witness: the plain text `a<b>c` with the HTML body
`<p>x</p>`; the preview is `ac`. -/
theorem generatePreview_plain_text_cleaned_witness :
    lit "a<b>c" ≠ ([] : GoString) ∧
    generatePreview demoLib (lit "a<b>c") (lit "<p>x</p>") = lit "ac" := by
  have h := (generatePreview_plain_text_cleaned demoLib (lit "a<b>c") (lit "<p>x</p>")
    (by decide)).2.1 [97] [98] [99] (by decide) (by decide) (by decide) (by decide) (by decide)
    (by decide) (by decide) (by decide) (by decide)
  rw [h]
  exact ⟨by decide, by decide⟩

/-- Claim C25, evaluation. `html2text` puts a newline in place of `<br>` and
then removes it again as a non-printable rune: `a<br>b` becomes `ab`, and so
for the other four tags. No result of `html2text` contains a newline. -/
theorem html2text_drops_line_breaks :
    (∀ L : Lib, html2text L (lit "a<br>b") = lit "ab" ∧ html2text L (lit "a<br/>b") = lit "ab" ∧
      html2text L (lit "a<br />b") = lit "ab" ∧ html2text L (lit "a</p>b") = lit "ab" ∧
      html2text L (lit "a</div>b") = lit "ab") ∧
    (∀ (L : Lib) (s : GoString), 10 ∉ html2text L s) := by
  constructor
  · intro L
    refine ⟨?_, ?_, ?_, ?_, ?_⟩
    · rw [html2text_of_stripped L _ (lit "a\nb") (by decide) (by decide) (by decide)]
      decide
    · rw [html2text_of_stripped L _ (lit "a\nb") (by decide) (by decide) (by decide)]
      decide
    · rw [html2text_of_stripped L _ (lit "a\nb") (by decide) (by decide) (by decide)]
      decide
    · rw [html2text_of_stripped L _ (lit "a\nb") (by decide) (by decide) (by decide)]
      decide
    · rw [html2text_of_stripped L _ (lit "a\nb") (by decide) (by decide) (by decide)]
      decide
  · intro L s h
    have := html2text_ascii_byte_printable L s 10 (by decide) h
    simp [isPrint] at this

/-- Claim C26, evaluation. A fetched payload of zero bytes is not `nil`, so
the loop body never takes its skip (`emailContent is empty`): it hands the
payload to `storeRawEmail` like any other, and deletes the object when that
returns no error. With a parser that rejects the empty message, or reads it as
a message without recipient, `storeRawEmail` is called and fails: the line
printed is `Failed to store raw email` with its error, nothing is staged and
the object is kept. -/
theorem syncObject_empty_payload_not_skipped :
    bufferBytes [] = some [] ∧
    (∀ (L : Lib) (w : World) (obj : Listed),
      (syncObjectLine L w obj).1 = syncObject L w obj ∧
      (syncObjectLine L w obj).2 ≠ some .emptyContent) ∧
    (∀ (L : Lib) (w : World) (obj : Listed), obj.key ≠ [] → obj.faults.getObject = false →
      w.objects obj.key = some [] →
      syncObject L w obj
        = (deleteObject (storeRawEmail L (w.record (.getObject obj.key)) obj.key []
              obj.faults).1 obj.key obj.faults.deleteObject).1 ∨
      ((storeRawEmail L (w.record (.getObject obj.key)) obj.key [] obj.faults).2 ≠ none ∧
        syncObject L w obj
          = (storeRawEmail L (w.record (.getObject obj.key)) obj.key [] obj.faults).1)) ∧
    (∀ (L : Lib) (w : World) (obj : Listed) (e : Err), obj.key ≠ [] →
      obj.faults.getObject = false → w.objects obj.key = some [] →
      extractRecipientEmail L [] = .error e →
      (syncObjectLine L w obj).2 = some (.storeFailed e) ∧
      syncObject L w obj = w.record (.getObject obj.key)) ∧
    extractRecipientEmail demoLib [] = .error .parseEmail ∧
    (syncObjectLine demoLib emptyObjectWorld ⟨lit "empty", noFaults⟩).2
      = some (.storeFailed .parseEmail) ∧
    extractRecipientEmail bareLib [] = .error .parseRecipient ∧
    (syncObjectLine bareLib emptyObjectWorld ⟨lit "empty", noFaults⟩).2
      = some (.storeFailed .parseRecipient) ∧
    (syncObject demoLib emptyObjectWorld ⟨lit "empty", noFaults⟩).objects (lit "empty")
      = some [] ∧
    (syncObject demoLib emptyObjectWorld ⟨lit "empty", noFaults⟩).incoming_emails = [] ∧
    (syncObject demoLib emptyObjectWorld ⟨lit "empty", noFaults⟩).trace
      = [.getObject (lit "empty")] := by
  refine ⟨rfl, fun L w obj => ⟨syncObjectLine_fst L w obj, syncObjectLine_never_empty L w obj⟩,
    ?_, ?_, rfl, by decide, rfl, by decide, by decide, by decide, by decide⟩
  · intro L w obj hk hg ho
    unfold syncObject
    simp only [hk, if_false, getObject, hg, Bool.false_eq_true, ho, bufferBytes]
    rcases hst : storeRawEmail L (w.record (.getObject obj.key)) obj.key [] obj.faults
      with ⟨w1, r⟩
    cases r with
    | none => left; rfl
    | some e => right; exact ⟨by simp, rfl⟩
  · intro L w obj e hk hg ho hx
    constructor
    · unfold syncObjectLine
      simp [hk, getObject, hg, ho, bufferBytes, storeRawEmail, hx]
    · unfold syncObject
      simp [hk, getObject, hg, ho, bufferBytes, storeRawEmail, hx]

/-- Claim C27, evaluation. The texts `€` and `—` are markup-free and
well-formed, yet `html2text` does not return them: the byte 0xE2 they start
with is removed, and each byte left over is read as U+FFFD, so `€` comes back
as two U+FFFD and `—` as one (or as the empty text when the print table
rejects U+FFFD). Markup-free text without the byte 0xE2 does pass through
unchanged, non-ASCII text such as `é ü 中` included. -/
theorem html2text_mangles_euro :
    (∀ L : Lib, L.inPrintRanges 0xFFFD = true →
      html2text L euro = [0xEF, 0xBF, 0xBD, 0xEF, 0xBF, 0xBD] ∧
      html2text L emDash = [0xEF, 0xBF, 0xBD]) ∧
    (∀ L : Lib, html2text L euro ≠ euro ∧ html2text L emDash ≠ emDash) ∧
    runes euro = [(0x20AC, euro)] ∧ runes emDash = [(0x2014, emDash)] ∧
    (∀ (L : Lib) (t : GoString), (∀ p ∈ runes t, p.2 = encodeRune p.1) →
      (∀ p ∈ runes t, isPrint L p.1 = true) → 60 ∉ t → 38 ∉ t → 0xE2 ∉ t →
      (∀ p, (runes t).head? = some p → isSpace p.1 = false) →
      (∀ p, (runes t).getLast? = some p → isSpace p.1 = false) →
      html2text L t = t) ∧
    html2text demoLib (lit "é ü 中") = lit "é ü 中" := by
  have h1 : ∀ L : Lib, html2text L euro = trimSpace (removeNonPrintable L [0x82, 0xAC]) := by
    intro L; rfl
  have h2 : ∀ L : Lib, html2text L emDash = trimSpace (removeNonPrintable L [0x94]) := by
    intro L; rfl
  have hr1 : runes [0x82, 0xAC] = [(0xFFFD, [0x82]), (0xFFFD, [0xAC])] := by decide
  have hr2 : runes [0x94] = [(0xFFFD, [0x94])] := by decide
  have key : ∀ L : Lib, (L.inPrintRanges 0xFFFD = true →
      html2text L euro = [0xEF, 0xBF, 0xBD, 0xEF, 0xBF, 0xBD] ∧
      html2text L emDash = [0xEF, 0xBF, 0xBD]) ∧
      (L.inPrintRanges 0xFFFD = false → html2text L euro = [] ∧ html2text L emDash = []) := by
    intro L
    constructor
    · intro h
      have hp : isPrint L 0xFFFD = true := by simp only [isPrint]; exact h
      have e1 : removeNonPrintable L [0x82, 0xAC] = [0xEF, 0xBF, 0xBD, 0xEF, 0xBF, 0xBD] := by
        unfold removeNonPrintable
        rw [hr1]
        simp only [List.filter_cons, hp, if_true, List.filter_nil]
        rfl
      have e2 : removeNonPrintable L [0x94] = [0xEF, 0xBF, 0xBD] := by
        unfold removeNonPrintable
        rw [hr2]
        simp only [List.filter_cons, hp, if_true, List.filter_nil]
        rfl
      rw [h1, h2, e1, e2]
      exact ⟨by decide, by decide⟩
    · intro h
      have hp : isPrint L 0xFFFD = false := by simp only [isPrint]; exact h
      have e1 : removeNonPrintable L [0x82, 0xAC] = [] := by
        unfold removeNonPrintable
        rw [hr1]
        simp [List.filter_cons, hp]
      have e2 : removeNonPrintable L [0x94] = [] := by
        unfold removeNonPrintable
        rw [hr2]
        simp [List.filter_cons, hp]
      rw [h1, h2, e1, e2]
      exact ⟨by decide, by decide⟩
  refine ⟨fun L h => (key L).1 h, fun L => ?_, by decide, by decide,
    fun L t hwf hprint h60 h38 hE2 hhead hlast =>
      html2text_markup_free L t hwf hprint h60 h38 hE2 hhead hlast,
    html2text_markup_free demoLib (lit "é ü 中") (by decide) (by decide) (by decide) (by decide)
      (by decide) (by decide) (by decide)⟩
  cases hL : L.inPrintRanges 0xFFFD
  · have := (key L).2 hL
    rw [this.1, this.2]
    exact ⟨by decide, by decide⟩
  · have := (key L).1 hL
    rw [this.1, this.2]
    exact ⟨by decide, by decide⟩

/-- Claim C28. In `storeRawEmail`, when the recipient is read from the message
and the user lookup fails (the call fails or no user has that address): if the
object-store delete succeeds, the INSERT into `incoming_emails` is issued next;
when it succeeds the function returns `nil` and a staging row with
`email_send_to` the unmatched address and `message_id` the key has been added,
and when it fails the function returns the insert error and adds no row. Only
if the delete fails does the function return early, with the delete error,
without issuing the INSERT. -/
theorem storeRawEmail_unknown_recipient_staged (L : Lib) (w : World) (key c : GoString)
    (f : SyncFaults) (addr : GoString) (date : Nat)
    (hx : extractRecipientEmail L c = .ok (addr, date))
    (hu : f.selectUser = true ∨ w.users.find? (fun u => u.email = addr) = none) :
    (f.deleteUnknown = false →
      (storeRawEmail L w key c f).1.trace
        = w.trace ++ [.selectUser addr, .deleteObject key, .insertIncoming key] ∧
      (storeRawEmail L w key c f).1.objects key = none ∧
      (f.insert = false →
        (storeRawEmail L w key c f).2 = none ∧
        (storeRawEmail L w key c f).1.incoming_emails = w.incoming_emails ++
          [{ id := w.incomingSeq, email_send_to := addr, message_id := key, email_data := c,
             created_at := f.now, processed := false, email_date := date }]) ∧
      (f.insert = true →
        (storeRawEmail L w key c f).2 = some .insertRawEmail ∧
        (storeRawEmail L w key c f).1.incoming_emails = w.incoming_emails)) ∧
    (f.deleteUnknown = true →
      (storeRawEmail L w key c f).2 = some .deleteObject ∧
      (storeRawEmail L w key c f).1.trace = w.trace ++ [.selectUser addr, .deleteObject key] ∧
      (storeRawEmail L w key c f).1.incoming_emails = w.incoming_emails ∧
      (storeRawEmail L w key c f).1.objects = w.objects) := by
  have hlook : (if f.selectUser = true then none
      else (w.users.find? (fun u => u.email = addr)).map (fun u => u.id)) = none := by
    rcases hu with h | h
    · simp [h]
    · rw [h]; simp
  cases hd : f.deleteUnknown <;> cases hi : f.insert <;>
    simp [storeRawEmail, hx, selectUserID, hlook, DeleteS3ByMessageID, deleteObject, hd,
      insertIncoming, hi, World.record]

/-- Claim C28, witness: the object `unknown` of the sample bucket, addressed to
`nobody@example.com`, which no user has. -/
theorem storeRawEmail_unknown_recipient_staged_witness :
    extractRecipientEmail demoLib (1 :: lit "nobody@example.com")
      = .ok (lit "nobody@example.com", 7) ∧
    (storeRawEmail demoLib demoWorld (lit "unknown") (1 :: lit "nobody@example.com")
        noFaults).1.incoming_emails
      = [{ id := 1, email_send_to := lit "nobody@example.com", message_id := lit "unknown",
           email_data := 1 :: lit "nobody@example.com", created_at := 100, processed := false,
           email_date := 7 }] ∧
    (storeRawEmail demoLib demoWorld (lit "unknown") (1 :: lit "nobody@example.com")
        noFaults).2 = none := by
  have h := storeRawEmail_unknown_recipient_staged demoLib demoWorld (lit "unknown")
    (1 :: lit "nobody@example.com") noFaults (lit "nobody@example.com") 7 rfl
    (Or.inr (by decide))
  have h2 := (h.1 rfl).2.2.1 rfl
  exact ⟨rfl, h2.2, h2.1⟩

/-- Claim C29, evaluation. A raw message that parses and has no `From` header
makes `processIncomingEmails` panic at `email.From[0]`; a raw message that
parses and has no `To` header (the object `noto`) makes
`SyncBucketInboxHandler` panic at `email.To[0]`. In general the loop body of
`processIncomingEmails` panics whenever the message parses, the user lookup
succeeds and the `From` list is empty. -/
theorem ingestion_indexes_empty_address_list :
    parseAddresses bareLib (bareEnvelope.GetHeader (lit "From")) = [] ∧
    (processIncomingEmails bareLib demoConfig (mailbox 0 1 0) 1 (lit "user1@example.com")
      noProcFaults).2 = .panic ∧
    parseAddresses demoLib ((demoEnvelope 0 []).GetHeader (lit "To")) = [] ∧
    (SyncBucketInboxHandler demoLib demoConfig demoWorld false
      [[⟨lit "noto", noBucketFaults⟩]] false).2 = .panic ∧
    (∀ (L : Lib) (cfg : Config) (w : World) (emailSendTo : GoString) (rawEmail : IncomingRow)
      (f : MsgFaults) (env : Envelope) (u : UserRow),
      L.ReadEnvelope rawEmail.email_data = some env →
      parseAddresses L (env.GetHeader (lit "From")) = [] →
      f.selectUser = false →
      w.users.find? (fun u => u.email = emailSendTo) = some u →
      (processRawEmail L cfg w emailSendTo rawEmail f).2 = true) := by
  refine ⟨by decide, by decide, by decide, by decide, ?_⟩
  intro L cfg w emailSendTo rawEmail f env u henv hfrom hsel hu
  have hup := uploadAttachments_frame cfg rawEmail.message_id env.Attachments w f.session
    f.upload []
  obtain ⟨husers, -, -, -⟩ := hup
  unfold processRawEmail
  simp only [henv, hfrom]
  rcases hres : uploadAttachments cfg rawEmail.message_id w f.session f.upload env.Attachments []
    with ⟨w1, _ | urls⟩
  · rfl
  rw [hres] at husers
  simp only at husers
  have hu1 : w1.users.find? (fun u => u.email = emailSendTo) = some u := by rw [husers]; exact hu
  simp [selectUserID, hsel, hu1]

/-- Claim C30. With `d = now - t`, `formatRelativeTime t` is `Just now` for
`d` below one minute (also for `t` in the future); `1 Minute ago` for one
minute up to two, and `N Minutes ago` with `N` the whole minutes of `d`,
between 2 and 59, from two minutes up to one hour; `1 Hour ago` for one hour
up to two, and `N Hours ago` with `N` the whole hours of `d`, between 2 and 23,
from two hours up to 24; `Yesterday` from 24 up to 48 hours; and the formatted
date of `t` from 48 hours on. Below 48 hours the answers `1 Minute ago`,
`1 Hour ago` and `Yesterday` are given in their ranges only. -/
theorem formatRelativeTime_buckets (R : ℚ → ℚ) (formatDate : Int → GoString)
    (hR : RoundsToFloat64 R) (now t : Int) :
    (now - t < minute → formatRelativeTime R formatDate now t = lit "Just now") ∧
    (minute ≤ now - t → now - t < 2 * minute →
      formatRelativeTime R formatDate now t = lit "1 Minute ago") ∧
    (2 * minute ≤ now - t → now - t < hour →
      formatRelativeTime R formatDate now t = Itoa ((now - t) / minute) ++ lit " Minutes ago" ∧
      2 ≤ (now - t) / minute ∧ (now - t) / minute ≤ 59) ∧
    (hour ≤ now - t → now - t < 2 * hour →
      formatRelativeTime R formatDate now t = lit "1 Hour ago") ∧
    (2 * hour ≤ now - t → now - t < 24 * hour →
      formatRelativeTime R formatDate now t = Itoa ((now - t) / hour) ++ lit " Hours ago" ∧
      2 ≤ (now - t) / hour ∧ (now - t) / hour ≤ 23) ∧
    (24 * hour ≤ now - t → now - t < 48 * hour →
      formatRelativeTime R formatDate now t = lit "Yesterday") ∧
    (48 * hour ≤ now - t → formatRelativeTime R formatDate now t = formatDate t) ∧
    (now - t < 48 * hour →
      (formatRelativeTime R formatDate now t = lit "1 Minute ago" ↔
        minute ≤ now - t ∧ now - t < 2 * minute) ∧
      (formatRelativeTime R formatDate now t = lit "1 Hour ago" ↔
        hour ≤ now - t ∧ now - t < 2 * hour) ∧
      (formatRelativeTime R formatDate now t = lit "Yesterday" ↔ 24 * hour ≤ now - t)) := by
  obtain ⟨c1, c2, c3, c4, c5, c6, c7⟩ := formatRelativeTime_cases R formatDate hR now t
  refine ⟨c1, c2, c3, c4, c5, c6, c7, ?_⟩
  intro h48
  have hm : minute = 60000000000 := rfl
  have hh : hour = 3600000000000 := rfl
  have n1 : lit "Just now" ≠ lit "1 Minute ago" ∧ lit "Just now" ≠ lit "1 Hour ago" ∧
      lit "Just now" ≠ lit "Yesterday" ∧ lit "1 Minute ago" ≠ lit "1 Hour ago" ∧
      lit "1 Minute ago" ≠ lit "Yesterday" ∧ lit "1 Hour ago" ≠ lit "Yesterday" := by decide
  obtain ⟨n12, n13, n14, n23, n24, n34⟩ := n1
  by_cases b1 : now - t < minute
  · rw [c1 b1]
    exact ⟨⟨fun h => absurd h n12, fun h => by omega⟩, ⟨fun h => absurd h n13, fun h => by
      rw [hm, hh] at *; omega⟩, ⟨fun h => absurd h n14, fun h => by rw [hm, hh] at *; omega⟩⟩
  by_cases b2 : now - t < 2 * minute
  · rw [c2 (by omega) b2]
    exact ⟨⟨fun _ => ⟨by omega, b2⟩, fun _ => rfl⟩, ⟨fun h => absurd h n23, fun h => by
      rw [hm, hh] at *; omega⟩, ⟨fun h => absurd h n24, fun h => by rw [hm, hh] at *; omega⟩⟩
  by_cases b3 : now - t < hour
  · obtain ⟨e, l, u⟩ := c3 (by omega) b3
    obtain ⟨m1, m2, m3⟩ := minutes_text_ne _ l u
    rw [e]
    exact ⟨⟨fun h => absurd h m1, fun h => by omega⟩, ⟨fun h => absurd h m2, fun h => by omega⟩,
      ⟨fun h => absurd h m3, fun h => by rw [hh] at *; omega⟩⟩
  by_cases b4 : now - t < 2 * hour
  · rw [c4 (by omega) b4]
    exact ⟨⟨fun h => absurd h.symm n23, fun h => by rw [hm, hh] at *; omega⟩,
      ⟨fun _ => ⟨by omega, b4⟩, fun _ => rfl⟩, ⟨fun h => absurd h n34, fun h => by omega⟩⟩
  by_cases b5 : now - t < 24 * hour
  · obtain ⟨e, l, u⟩ := c5 (by omega) b5
    obtain ⟨m1, m2, m3⟩ := hours_text_ne _ l u
    rw [e]
    exact ⟨⟨fun h => absurd h m1, fun h => by rw [hm, hh] at *; omega⟩,
      ⟨fun h => absurd h m2, fun h => by omega⟩, ⟨fun h => absurd h m3, fun h => by omega⟩⟩
  · rw [c6 (by omega) h48]
    exact ⟨⟨fun h => absurd h.symm n24, fun h => by rw [hm, hh] at *; omega⟩,
      ⟨fun h => absurd h.symm n34, fun h => by omega⟩, ⟨fun _ => by omega, fun _ => rfl⟩⟩

/-- Claim C30, witness: exact arithmetic in place of the rounding; times
90 seconds, 5 minutes and a half, 23 hours 59 minutes, 30 hours and 3 days
after `t = 0`, and one 10 seconds before it. -/
theorem formatRelativeTime_buckets_witness :
    RoundsToFloat64 (fun x => x) ∧
    formatRelativeTime (fun x => x) demoFormatDate (-10000000000) 0 = lit "Just now" ∧
    formatRelativeTime (fun x => x) demoFormatDate 90000000000 0 = lit "1 Minute ago" ∧
    formatRelativeTime (fun x => x) demoFormatDate 330000000000 0 = lit "5 Minutes ago" ∧
    formatRelativeTime (fun x => x) demoFormatDate 86340000000000 0 = lit "23 Hours ago" ∧
    formatRelativeTime (fun x => x) demoFormatDate 108000000000000 0 = lit "Yesterday" ∧
    formatRelativeTime (fun x => x) demoFormatDate (3 * 24 * hour + 5) 5 = lit "day 0" := by
  have hR : RoundsToFloat64 (fun x => x) := fun x m k _ _ => ⟨fun h => h, fun h => h⟩
  have h1 := formatRelativeTime_buckets (fun x => x) demoFormatDate hR (-10000000000) 0
  have h2 := formatRelativeTime_buckets (fun x => x) demoFormatDate hR 90000000000 0
  have h3 := formatRelativeTime_buckets (fun x => x) demoFormatDate hR 330000000000 0
  have h4 := formatRelativeTime_buckets (fun x => x) demoFormatDate hR 86340000000000 0
  have h5 := formatRelativeTime_buckets (fun x => x) demoFormatDate hR 108000000000000 0
  have h6 := formatRelativeTime_buckets (fun x => x) demoFormatDate hR (3 * 24 * hour + 5) 5
  refine ⟨hR, h1.1 (by decide), h2.2.1 (by decide) (by decide), ?_, ?_,
    h5.2.2.2.2.2.1 (by decide) (by decide), ?_⟩
  · rw [(h3.2.2.1 (by decide) (by decide)).1]
    decide
  · rw [(h4.2.2.2.2.1 (by decide) (by decide)).1]
    decide
  · rw [h6.2.2.2.2.2.2.1 (by decide)]
    decide

end MailInbox
